import Mathlib

/-!
# Bitbucket webhook events to Discord embeds

A shallow embedding of `bitbucket/handle.go`: the dispatcher `Handle` and its
eleven formatters, followed by theorems about what they return.

Conventions of the embedding.

* A Go `string` is a sequence of bytes, so `len` is `List.length` and the slice
  `s[0:n]` is `List.take n`.  String literals of the source are written
  `lit "..."`, their UTF-8 bytes.
* A Go result `(string, *discordgo.MessageEmbed, error)` is a triple
  `GoString × Option MessageEmbed × Option Error`; a nil pointer and a nil
  error are `none`.
* `json.Unmarshal` and the event structs it fills are declared outside
  `handle.go`.  The decoders are a parameter `J : JSON` of every formatter, one
  decoder per event struct, and the structs carry the fields `handle.go` reads.
  The default of every field is its Go zero value, so `{}` is the struct that
  decoding leaves untouched.
* `env.Configuration()` is a parameter `cfg : env.Config`.
* The embed builder and the message it fills belong to other packages.  Their
  calls store in the message the arguments `handle.go` passes, in the order of
  the calls, within the limits of the builder: `SetDescription` keeps the first
  2048 bytes of a description, and `AddField` splits a value of more than 1024
  bytes over several fields, the later ones labelled ` (extended)`.
-/

set_option autoImplicit false
set_option maxRecDepth 100000

/-- Go `string`: a sequence of bytes. -/
abbrev GoString := List UInt8

/-- The bytes (UTF-8) of a string literal of the source. -/
def lit (s : String) : GoString := s.data.flatMap String.utf8EncodeChar

/-- Go `error` values: the decoder's complaint. -/
structure Error where
  msg : String
  deriving DecidableEq

deriving instance DecidableEq for Except

namespace strings

/-- Go `strings.Join(elems, sep)`. -/
def Join (elems : List GoString) (sep : GoString) : GoString :=
  List.intercalate sep elems

end strings

namespace fmt

/-- Go `fmt.Sprintf("%d", n)` for a length `n`: the decimal digits of `n`. -/
def Sprintf_d (n : Nat) : GoString := lit (Nat.repr n)

end fmt

namespace env

/-- Modelled from the spec: the configuration `env.Configuration()` returns, of
which `handle.go` reads the flag that suppresses push messages. -/
structure Config where
  SkipRepoPushMessages : Bool := false
  deriving DecidableEq

end env

namespace discordgo

/-- Modelled from the spec: `discordgo.MessageEmbedField`, a named text field of
a message (label, value). -/
structure MessageEmbedField where
  Name : GoString := []
  Value : GoString := []
  deriving DecidableEq

/-- Modelled from the spec: `discordgo.MessageEmbedAuthor`, the optional author of
a message (name, icon URL). -/
structure MessageEmbedAuthor where
  Name : GoString := []
  IconURL : GoString := []
  deriving DecidableEq

/-- Modelled from the spec: `discordgo.MessageEmbed`, the message descriptor:
title, color, optional author, description, click-through URL and the ordered
list of fields.  A string that was never set is empty, an author that was never
set is `none`. -/
structure MessageEmbed where
  URL : GoString := []
  Title : GoString := []
  Description : GoString := []
  Color : Nat := 0
  Author : Option MessageEmbedAuthor := none
  Fields : List MessageEmbedField := []
  deriving DecidableEq

end discordgo

namespace embed

/-- Modelled from the spec: the builder `embed.Embed` of the embed package, a
wrapper of the message under construction on which `handle.go` makes a sequence
of field-setting calls. -/
structure Embed where
  MessageEmbed : discordgo.MessageEmbed
  deriving DecidableEq

/-- Modelled from the spec: `embed.NewEmbed()`, a builder with nothing set. -/
def NewEmbed : Embed :=
  ⟨{ URL := [], Title := [], Description := [], Color := 0, Author := none, Fields := [] }⟩

/-- Modelled from the spec: the builder call `SetTitle(name)` sets the title. -/
def Embed.SetTitle (e : Embed) (name : GoString) : Embed :=
  ⟨{ e.MessageEmbed with Title := name }⟩

/-- The description that `SetDescription` keeps: the first 2048 bytes. -/
def cutDescription (description : GoString) : GoString :=
  if description.length > 2048 then description.take 2048 else description

/-- The builder call `SetDescription(description)` of the embed package that
`handle.go` imports (`github.com/Clinet/discordgo-embed`): sets the description,
cut to its first 2048 bytes when it is longer. -/
def Embed.SetDescription (e : Embed) (description : GoString) : Embed :=
  ⟨{ e.MessageEmbed with Description := cutDescription description }⟩

/-- One pass of the body of the loop of `AddField`, at the position `i` of a
value of more than 1024 bytes.  On a pass after the first the label gets the
suffix ` (extended)`, once.  The pass adds a field with the 1024 bytes before
`i` when the byte at `i` is a space, a newline or a hyphen; otherwise it adds
the 1023 bytes before `i - 1` followed by a hyphen and steps back by one.  The
result is the label, the flag, the field and the position after the pass. -/
def splitStep (value : GoString) (i : Nat) (name : GoString) (extended : Bool) :
    GoString × Bool × discordgo.MessageEmbedField × Nat :=
  let name' := if i ≠ 1024 ∧ extended = false then name ++ lit " (extended)" else name
  let extended' := if i ≠ 1024 ∧ extended = false then true else extended
  if value[i]? = some 0x20 ∨ value[i]? = some 0x0A ∨ value[i]? = some 0x2D then
    (name', extended', ⟨name', (value.drop (i - 1024)).take 1024⟩, i)
  else
    (name', extended', ⟨name', (value.drop (i - 1024)).take 1023 ++ lit "-"⟩, i - 1)

/-- The loop of `AddField` on a value of more than 1024 bytes: while `i` is
inside the value it makes a pass, and it goes on 1024 bytes further as long as
that position is inside the value too.  The first argument bounds the number of
passes; `splitLoop_fuel` shows that the length of the value is bound enough.  The
result is the position, the label and the fields when the loop ends. -/
def splitLoop (value : GoString) :
    Nat → Nat → GoString → Bool → List discordgo.MessageEmbedField →
      Nat × GoString × List discordgo.MessageEmbedField
  | 0, i, name, _, fields => (i, name, fields)
  | fuel + 1, i, name, extended, fields =>
    if i < value.length then
      let (name', extended', field, i') := splitStep value i name extended
      if i' + 1024 < value.length then
        splitLoop value fuel (i' + 1024) name' extended' (fields ++ [field])
      else (i', name', fields ++ [field])
    else (i, name, fields)

/-- The fields that `AddField(name, value)` adds: one field with the value when
the value has at most 1024 bytes; otherwise the fields of the loop, started at
position 1024, and a last field with the bytes that are left, under the label
followed by ` (extended)`. -/
def split (name value : GoString) : List discordgo.MessageEmbedField :=
  if value.length > 1024 then
    let (i, name', fields) := splitLoop value value.length 1024 name false []
    if i < value.length then fields ++ [⟨name' ++ lit " (extended)", value.drop i⟩]
    else fields
  else [⟨name, value⟩]

/-- The builder call `AddField(name, value)` of the embed package that
`handle.go` imports (`github.com/Clinet/discordgo-embed`): appends the fields of
`split name value` to the ordered list of fields. -/
def Embed.AddField (e : Embed) (name value : GoString) : Embed :=
  ⟨{ e.MessageEmbed with Fields := e.MessageEmbed.Fields ++ split name value }⟩

/-- The fields a sequence of `AddField` calls adds, each call written as the
pair of its label and its value. -/
def added (calls : List discordgo.MessageEmbedField) : List discordgo.MessageEmbedField :=
  calls.flatMap fun call => split call.Name call.Value

/-- Modelled from the spec: the builder call `SetAuthor(name, iconURL)` sets the
author. -/
def Embed.SetAuthor (e : Embed) (name iconURL : GoString) : Embed :=
  ⟨{ e.MessageEmbed with Author := some { Name := name, IconURL := iconURL } }⟩

/-- Modelled from the spec: the builder call `SetURL(url)` sets the click-through
URL. -/
def Embed.SetURL (e : Embed) (url : GoString) : Embed :=
  ⟨{ e.MessageEmbed with URL := url }⟩

/-- Modelled from the spec: the builder call `SetColor(clr)` sets the color. -/
def Embed.SetColor (e : Embed) (clr : Nat) : Embed :=
  ⟨{ e.MessageEmbed with Color := clr }⟩

end embed

namespace bitbucket

open discordgo

/-! ## Event payloads

The fields of the event structs that `handle.go` reads, under the names of the
access paths in the source. -/

/-- Modelled from the spec: the struct is declared outside `handle.go`; a link of
the payload, of which `handle.go` reads the address `Href`. -/
structure Link where
  Href : GoString := []
  deriving DecidableEq

/-- Modelled from the spec: the struct is declared outside `handle.go`; the links
of a user, pull request or comment; `handle.go` reads the avatar link and the
HTML link. -/
structure Links where
  Avatar : Link := {}
  HTML : Link := {}
  deriving DecidableEq

/-- Modelled from the spec: the struct is declared outside `handle.go`; a user
(actor, author, reviewer, approver, closer): display name and links. -/
structure User where
  DisplayName : GoString := []
  Links : Links := {}
  deriving DecidableEq

/-- Modelled from the spec: the struct is declared outside `handle.go`; a
repository: name and full name (namespace/name). -/
structure Repository where
  Name : GoString := []
  FullName : GoString := []
  deriving DecidableEq

/-- Modelled from the spec: the struct is declared outside `handle.go`; a branch,
of which `handle.go` reads the name. -/
structure Branch where
  Name : GoString := []
  deriving DecidableEq

/-- Modelled from the spec: the struct is declared outside `handle.go`; the source
or destination of a pull request: branch and repository. -/
structure Endpoint where
  Branch : Branch := {}
  Repository : Repository := {}
  deriving DecidableEq

/-- Modelled from the spec: the struct is declared outside `handle.go`; a
participant of a pull request: the user and the approved flag. -/
structure Participant where
  User : User := {}
  Approved : Bool := false
  deriving DecidableEq

/-- Modelled from the spec: the struct is declared outside `handle.go`; a pull
request: title, description, state, source and destination, author, closedBy,
links, reviewers and participants. -/
structure PullRequest where
  Title : GoString := []
  Description : GoString := []
  State : GoString := []
  Source : Endpoint := {}
  Destination : Endpoint := {}
  Author : User := {}
  ClosedBy : User := {}
  Links : Links := {}
  Reviewers : List User := []
  Participants : List Participant := []
  deriving DecidableEq

/-- Modelled from the spec: the struct is declared outside `handle.go`; a commit
of a pushed change; `handle.go` only counts them. -/
structure Commit where
  Hash : GoString := []
  deriving DecidableEq

/-- Modelled from the spec: the struct is declared outside `handle.go`; the new
state of a pushed resource: its name and its type (field `Type` of the
source). -/
structure Resource where
  Name : GoString := []
  Type_ : GoString := []
  deriving DecidableEq

/-- Modelled from the spec: the struct is declared outside `handle.go`; one change
of a push: its commits and the new resource. -/
structure Change where
  Commits : List Commit := []
  New : Resource := {}
  deriving DecidableEq

/-- Modelled from the spec: the struct is declared outside `handle.go`; the push
of a push event: the list of changes. -/
structure Push where
  Changes : List Change := []
  deriving DecidableEq

/-- Modelled from the spec: the struct is declared outside `handle.go`; the
payload of `repo:push`. -/
structure RepoPushEvent where
  Push : Push := {}
  Actor : User := {}
  Repository : Repository := {}
  deriving DecidableEq

/-- Modelled from the spec: the struct is declared outside `handle.go`; the author
of a commit, of which `handle.go` reads the user. -/
structure CommitAuthor where
  User : User := {}
  deriving DecidableEq

/-- Modelled from the spec: the struct is declared outside `handle.go`; the commit
a status belongs to, of which `handle.go` reads the author. -/
structure StatusCommit where
  Author : CommitAuthor := {}
  deriving DecidableEq

/-- Modelled from the spec: the struct is declared outside `handle.go`; a commit
status: name, state, URL and commit. -/
structure CommitStatus where
  Name : GoString := []
  State : GoString := []
  URL : GoString := []
  Commit : StatusCommit := {}
  deriving DecidableEq

/-- Modelled from the spec: the struct is declared outside `handle.go`; the
payload of `repo:commit_status_updated`. -/
structure RepoCommitStatusUpdatedEvent where
  CommitStatus : CommitStatus := {}
  Repository : Repository := {}
  deriving DecidableEq

/-- Modelled from the spec: the struct is declared outside `handle.go`; the
payload of `pullrequest:created`. -/
structure PullRequestCreatedEvent where
  Actor : User := {}
  PullRequest : PullRequest := {}
  Repository : Repository := {}
  deriving DecidableEq

/-- Modelled from the spec: the struct is declared outside `handle.go`; the
payload of `pullrequest:updated`. -/
structure PullRequestUpdatedEvent where
  Actor : User := {}
  PullRequest : PullRequest := {}
  Repository : Repository := {}
  deriving DecidableEq

/-- Modelled from the spec: the struct is declared outside `handle.go`; an
approval, of which `handle.go` reads the user. -/
structure Approval where
  User : User := {}
  deriving DecidableEq

/-- Modelled from the spec: the struct is declared outside `handle.go`; the
payload of `pullrequest:approved` and `pullrequest:unapproved`. -/
structure PullRequestApprovedEvent where
  Actor : User := {}
  PullRequest : PullRequest := {}
  Repository : Repository := {}
  Approval : Approval := {}
  deriving DecidableEq

/-- Modelled from the spec: the struct is declared outside `handle.go`; the
payload of `pullrequest:fulfilled` and `pullrequest:rejected`. -/
structure PullRequestMergedEvent where
  Actor : User := {}
  PullRequest : PullRequest := {}
  Repository : Repository := {}
  deriving DecidableEq

/-- Modelled from the spec: the struct is declared outside `handle.go`; the
content of a comment, of which `handle.go` reads the raw text. -/
structure Content where
  Raw : GoString := []
  deriving DecidableEq

/-- Modelled from the spec: the struct is declared outside `handle.go`; a comment:
content, author and links. -/
structure Comment where
  Content : Content := {}
  User : User := {}
  Links : Links := {}
  deriving DecidableEq

/-- Modelled from the spec: the struct is declared outside `handle.go`; the
payload of the three `pullrequest:comment_*` events. -/
structure PullRequestCommentCreatedEvent where
  Actor : User := {}
  PullRequest : PullRequest := {}
  Repository : Repository := {}
  Comment : Comment := {}
  deriving DecidableEq

/-- The decoders `json.Unmarshal(body, &v)`, a parameter of the formatters: one
decoder for each event struct `v` is declared with, `Except.error err` when
`json.Unmarshal` returns `err` and `Except.ok v` with the filled struct when it
returns nil. -/
structure JSON where
  unmarshalRepoPushEvent : List UInt8 → Except Error RepoPushEvent
  unmarshalRepoCommitStatusUpdatedEvent : List UInt8 → Except Error RepoCommitStatusUpdatedEvent
  unmarshalPullRequestCreatedEvent : List UInt8 → Except Error PullRequestCreatedEvent
  unmarshalPullRequestUpdatedEvent : List UInt8 → Except Error PullRequestUpdatedEvent
  unmarshalPullRequestApprovedEvent : List UInt8 → Except Error PullRequestApprovedEvent
  unmarshalPullRequestMergedEvent : List UInt8 → Except Error PullRequestMergedEvent
  unmarshalPullRequestCommentCreatedEvent :
    List UInt8 → Except Error PullRequestCommentCreatedEvent

/-- What `Handle` and the formatters return: routing key, message, error. -/
abbrev Result := GoString × Option MessageEmbed × Option Error

/-! ## Colors

The five constants of the `const` block. -/

def success : Nat := 0x90EE90
def failure : Nat := 0xD10000
def prCreated : Nat := 0x89CFF0
def prUpdated : Nat := 0x0047AB
def gray : Nat := 0x979797

/-! ## The formatters -/

/-- The function `handlePush`: nothing when push messages are switched off, else
the push message. -/
def handlePush (J : JSON) (cfg : env.Config) (body : List UInt8) : Result :=
  if cfg.SkipRepoPushMessages then ([], none, none) else
  match J.unmarshalRepoPushEvent body with
  | .error err => ([], none, some err)
  | .ok push =>
    let (numOfCommits, resourceName, resourceType) :=
      match push.Push.Changes with
      | change :: _ => (change.Commits.length, change.New.Name, change.New.Type_)
      | [] => (0, lit "unknown", lit "unknown")
    let message := embed.NewEmbed
      |>.SetTitle (lit "Push happened")
      |>.AddField (lit "Number of commits") (fmt.Sprintf_d numOfCommits)
      |>.AddField (lit "Resource name") resourceName
      |>.AddField (lit "Resource type") resourceType
      |>.SetColor success
    let message :=
      if push.Actor.DisplayName ≠ [] then
        message.SetDescription (push.Actor.DisplayName ++ lit " pushed")
      else message
    (push.Repository.Name, some message.MessageEmbed, none)

/-- The function `commitStatusUpdated`: the message for a commit status, guarded
by its name. -/
def commitStatusUpdated (J : JSON) (body : List UInt8) : Result :=
  match J.unmarshalRepoCommitStatusUpdatedEvent body with
  | .error err => ([], none, some err)
  | .ok event =>
    let color :=
      if event.CommitStatus.State = lit "FAILED" then failure
      else if event.CommitStatus.State = lit "SUCCESSFUL" then success
      else gray
    if event.CommitStatus.Name = [] then ([], none, none) else
    let message := embed.NewEmbed
      |>.SetAuthor event.CommitStatus.Commit.Author.User.DisplayName
          event.CommitStatus.Commit.Author.User.Links.Avatar.Href
      |>.SetTitle (lit "[" ++ event.Repository.FullName ++ lit "]: " ++ event.CommitStatus.Name)
      |>.SetColor color
    let message :=
      if event.CommitStatus.State ≠ [] then
        message.AddField (lit "Status") event.CommitStatus.State
      else message
    let message :=
      if event.CommitStatus.URL ≠ [] then message.SetURL event.CommitStatus.URL else message
    (event.Repository.Name, some message.MessageEmbed, none)

/-- The function `pullRequestCreated`: the message for an opened pull request. -/
def pullRequestCreated (J : JSON) (body : List UInt8) : Result :=
  match J.unmarshalPullRequestCreatedEvent body with
  | .error err => ([], none, some err)
  | .ok created =>
    let reviewerList := created.PullRequest.Reviewers.map (fun reviewer => reviewer.DisplayName)
    let reviewers :=
      if reviewerList.length > 0 then strings.Join reviewerList (lit ", ") else lit "none"
    if created.Actor.DisplayName = [] ∨ created.PullRequest.Title = [] then ([], none, none) else
    let message := embed.NewEmbed
      |>.SetAuthor created.Actor.DisplayName created.Actor.Links.Avatar.Href
      |>.SetTitle (lit "[" ++ created.PullRequest.Source.Repository.FullName ++ lit "]:"
          ++ lit " Pull request opened: " ++ created.PullRequest.Title)
      |>.SetColor prCreated
      |>.AddField (lit "Reviewers") reviewers
    let message :=
      if created.PullRequest.Source.Branch.Name ≠ []
          ∧ created.PullRequest.Destination.Branch.Name ≠ [] then
        message.SetDescription (lit "`" ++ created.PullRequest.Source.Branch.Name ++ lit "` > `"
          ++ created.PullRequest.Destination.Branch.Name ++ lit "`")
      else message
    let message :=
      if created.PullRequest.Links.HTML.Href ≠ [] then
        message.SetURL created.PullRequest.Links.HTML.Href
      else message
    let message :=
      if created.PullRequest.State ≠ [] then
        message.AddField (lit "Status") created.PullRequest.State
      else message
    let message :=
      if created.PullRequest.Description ≠ [] then
        if created.PullRequest.Description.length > 200 then
          let desc := created.PullRequest.Description.take 199 ++ lit "..."
          message.AddField (lit "PR Description") (lit "**" ++ desc ++ lit "**")
        else
          message.AddField (lit "PR Description")
            (lit "**" ++ created.PullRequest.Description ++ lit "**")
      else message
    (created.Repository.Name, some message.MessageEmbed, none)

/-- The function `pullRequestUpdated`: the message for an updated pull request. -/
def pullRequestUpdated (J : JSON) (body : List UInt8) : Result :=
  match J.unmarshalPullRequestUpdatedEvent body with
  | .error err => ([], none, some err)
  | .ok updated =>
    let reviewerList := updated.PullRequest.Participants.map (fun reviewer =>
      if reviewer.Approved then lit "**✓**" ++ reviewer.User.DisplayName
      else lit "**x **" ++ reviewer.User.DisplayName)
    let reviewers :=
      if reviewerList.length > 0 then strings.Join reviewerList (lit "\n") else lit "none"
    if updated.Actor.DisplayName = [] ∨ updated.PullRequest.Title = [] then ([], none, none) else
    let message := embed.NewEmbed
      |>.SetAuthor updated.Actor.DisplayName updated.Actor.Links.Avatar.Href
      |>.SetTitle (lit "[" ++ updated.PullRequest.Source.Repository.FullName ++ lit "]:"
          ++ lit " Pull request updated: " ++ updated.PullRequest.Title)
      |>.SetColor prUpdated
      |>.AddField (lit "Reviewers") reviewers
    let message :=
      if updated.PullRequest.Source.Branch.Name ≠ []
          ∧ updated.PullRequest.Destination.Branch.Name ≠ [] then
        message.SetDescription (lit "`" ++ updated.PullRequest.Source.Branch.Name ++ lit "` > `"
          ++ updated.PullRequest.Destination.Branch.Name ++ lit "`")
      else message
    let message :=
      if updated.PullRequest.Links.HTML.Href ≠ [] then
        message.SetURL updated.PullRequest.Links.HTML.Href
      else message
    let message :=
      if updated.PullRequest.State ≠ [] then
        message.AddField (lit "Status") updated.PullRequest.State
      else message
    let message :=
      if updated.PullRequest.Description ≠ [] then
        if updated.PullRequest.Description.length > 200 then
          let desc := updated.PullRequest.Description.take 199 ++ lit "..."
          message.AddField (lit "PR Description") (lit "**" ++ desc ++ lit "**")
        else
          message.AddField (lit "PR Description")
            (lit "**" ++ updated.PullRequest.Description ++ lit "**")
      else message
    (updated.Repository.Name, some message.MessageEmbed, none)

/-- The function `pullRequestApproved`: the message for an approval. -/
def pullRequestApproved (J : JSON) (body : List UInt8) : Result :=
  match J.unmarshalPullRequestApprovedEvent body with
  | .error err => ([], none, some err)
  | .ok approved =>
    if approved.Actor.DisplayName = [] ∨ approved.PullRequest.Title = [] then
      ([], none, none)
    else
    let message := embed.NewEmbed
      |>.SetAuthor approved.Approval.User.DisplayName approved.Approval.User.Links.Avatar.Href
      |>.SetTitle (lit "[" ++ approved.PullRequest.Source.Repository.FullName ++ lit "]:"
          ++ lit " Pull request approved: " ++ approved.PullRequest.Title)
      |>.SetColor success
    let message :=
      if approved.PullRequest.Source.Branch.Name ≠ []
          ∧ approved.PullRequest.Destination.Branch.Name ≠ [] then
        message.SetDescription (lit "`" ++ approved.PullRequest.Source.Branch.Name ++ lit "` > `"
          ++ approved.PullRequest.Destination.Branch.Name ++ lit "`")
      else message
    let message :=
      if approved.PullRequest.Links.HTML.Href ≠ [] then
        message.SetURL approved.PullRequest.Links.HTML.Href
      else message
    let message :=
      if approved.Actor.DisplayName ≠ [] then
        message.AddField (lit "Created by") approved.PullRequest.Author.DisplayName
      else message
    (approved.Repository.Name, some message.MessageEmbed, none)

/-- The function `pullRequestUnapproved`: the message for a withdrawn approval. -/
def pullRequestUnapproved (J : JSON) (body : List UInt8) : Result :=
  match J.unmarshalPullRequestApprovedEvent body with
  | .error err => ([], none, some err)
  | .ok unapproved =>
    if unapproved.Actor.DisplayName = [] ∨ unapproved.PullRequest.Title = [] then
      ([], none, none)
    else
    let message := embed.NewEmbed
      |>.SetAuthor unapproved.Approval.User.DisplayName
          unapproved.Approval.User.Links.Avatar.Href
      |>.SetTitle (lit "[" ++ unapproved.PullRequest.Source.Repository.FullName ++ lit "]:"
          ++ lit " Pull request unapproved: " ++ unapproved.PullRequest.Title)
      |>.SetColor failure
    let message :=
      if unapproved.PullRequest.Source.Branch.Name ≠ []
          ∧ unapproved.PullRequest.Destination.Branch.Name ≠ [] then
        message.SetDescription (lit "`" ++ unapproved.PullRequest.Source.Branch.Name
          ++ lit "` > `" ++ unapproved.PullRequest.Destination.Branch.Name ++ lit "`")
      else message
    let message :=
      if unapproved.PullRequest.Links.HTML.Href ≠ [] then
        message.SetURL unapproved.PullRequest.Links.HTML.Href
      else message
    let message :=
      if unapproved.Actor.DisplayName ≠ [] then
        message.AddField (lit "Created by") unapproved.PullRequest.Author.DisplayName
      else message
    (unapproved.Repository.Name, some message.MessageEmbed, none)

/-- The function `pullRequestFulfilled`: the message for a merged pull request. -/
def pullRequestFulfilled (J : JSON) (body : List UInt8) : Result :=
  match J.unmarshalPullRequestMergedEvent body with
  | .error err => ([], none, some err)
  | .ok merged =>
    let reviewerList := merged.PullRequest.Participants.map (fun reviewer =>
      if reviewer.Approved then lit "**✓**" ++ reviewer.User.DisplayName
      else lit "**x **" ++ reviewer.User.DisplayName)
    let reviewers :=
      if reviewerList.length > 0 then strings.Join reviewerList (lit "\n") else lit "none"
    if merged.PullRequest.ClosedBy.DisplayName = [] ∨ merged.PullRequest.Title = [] then
      ([], none, none)
    else
    let message := embed.NewEmbed
      |>.SetAuthor merged.Actor.DisplayName merged.PullRequest.ClosedBy.Links.Avatar.Href
      |>.SetTitle (lit "[" ++ merged.Repository.FullName ++ lit "]: Pull request merged: "
          ++ merged.PullRequest.Title)
      |>.SetColor success
      |>.AddField (lit "Reviewers") reviewers
    let message :=
      if merged.PullRequest.Source.Branch.Name ≠ []
          ∧ merged.PullRequest.Destination.Branch.Name ≠ [] then
        message.SetDescription (lit "`" ++ merged.PullRequest.Source.Branch.Name ++ lit "` > `"
          ++ merged.PullRequest.Destination.Branch.Name ++ lit "`")
      else message
    let message :=
      if merged.PullRequest.Links.HTML.Href ≠ [] then
        message.SetURL merged.PullRequest.Links.HTML.Href
      else message
    let message :=
      if merged.Actor.DisplayName ≠ [] then
        message.AddField (lit "Created by") merged.Actor.DisplayName
      else message
    let message :=
      if merged.PullRequest.State ≠ [] then
        message.AddField (lit "Status") merged.PullRequest.State
      else message
    (merged.Repository.Name, some message.MessageEmbed, none)

/-- The function `pullRequestRejected`: the message for a rejected pull request. -/
def pullRequestRejected (J : JSON) (body : List UInt8) : Result :=
  match J.unmarshalPullRequestMergedEvent body with
  | .error err => ([], none, some err)
  | .ok rejected =>
    if rejected.PullRequest.ClosedBy.DisplayName = [] ∨ rejected.PullRequest.Title = [] then
      ([], none, none)
    else
    let message := embed.NewEmbed
      |>.SetAuthor rejected.Actor.DisplayName rejected.PullRequest.ClosedBy.Links.Avatar.Href
      |>.SetTitle (lit "[" ++ rejected.Repository.FullName ++ lit "]: Pull request rejected: "
          ++ rejected.PullRequest.Title)
      |>.SetColor failure
    let message :=
      if rejected.PullRequest.Source.Branch.Name ≠ []
          ∧ rejected.PullRequest.Destination.Branch.Name ≠ [] then
        message.SetDescription (lit "`" ++ rejected.PullRequest.Source.Branch.Name
          ++ lit "` > `" ++ rejected.PullRequest.Destination.Branch.Name ++ lit "`")
      else message
    let message :=
      if rejected.PullRequest.Links.HTML.Href ≠ [] then
        message.SetURL rejected.PullRequest.Links.HTML.Href
      else message
    let message :=
      if rejected.Actor.DisplayName ≠ [] then
        message.AddField (lit "Created by") rejected.Actor.DisplayName
      else message
    let message :=
      if rejected.PullRequest.State ≠ [] then
        message.AddField (lit "Status") rejected.PullRequest.State
      else message
    (rejected.Repository.Name, some message.MessageEmbed, none)

/-- The function `pullRequestCommentCreated`: the message for a new comment. -/
def pullRequestCommentCreated (J : JSON) (body : List UInt8) : Result :=
  match J.unmarshalPullRequestCommentCreatedEvent body with
  | .error err => ([], none, some err)
  | .ok commentCreated =>
    let comment :=
      if commentCreated.Comment.Content.Raw ≠ [] then
        if commentCreated.Comment.Content.Raw.length > 105 then
          commentCreated.Comment.Content.Raw.take 100 ++ lit "..."
        else commentCreated.Comment.Content.Raw
      else lit "no comment"
    if commentCreated.Comment.User.DisplayName = [] ∨ commentCreated.PullRequest.Title = [] then
      ([], none, none)
    else
    let message := embed.NewEmbed
      |>.SetAuthor commentCreated.Actor.DisplayName commentCreated.Actor.Links.Avatar.Href
      |>.SetTitle (lit "[" ++ commentCreated.PullRequest.Destination.Repository.FullName
          ++ lit "]:" ++ lit " Comment created on pull request: "
          ++ commentCreated.PullRequest.Title)
      |>.AddField (lit "Comment") comment
      |>.SetColor prCreated
    let message :=
      if commentCreated.PullRequest.Source.Branch.Name ≠ []
          ∧ commentCreated.PullRequest.Destination.Branch.Name ≠ [] then
        message.SetDescription (lit "`" ++ commentCreated.PullRequest.Source.Branch.Name
          ++ lit "` > `" ++ commentCreated.PullRequest.Destination.Branch.Name ++ lit "`")
      else message
    let message :=
      if commentCreated.Comment.Links.HTML.Href ≠ [] then
        message.SetURL commentCreated.Comment.Links.HTML.Href
      else message
    (commentCreated.Repository.Name, some message.MessageEmbed, none)

/-- The function `pullRequestCommentUpdated`: the message for an edited comment. -/
def pullRequestCommentUpdated (J : JSON) (body : List UInt8) : Result :=
  match J.unmarshalPullRequestCommentCreatedEvent body with
  | .error err => ([], none, some err)
  | .ok commentUpdated =>
    if commentUpdated.Comment.User.DisplayName = [] ∨ commentUpdated.PullRequest.Title = [] then
      ([], none, none)
    else
    let message := embed.NewEmbed
      |>.SetAuthor commentUpdated.Actor.DisplayName commentUpdated.Actor.Links.Avatar.Href
      |>.SetTitle (lit "[" ++ commentUpdated.PullRequest.Destination.Repository.FullName
          ++ lit "]:" ++ lit " Comment updated on pull request: "
          ++ commentUpdated.PullRequest.Title)
      |>.AddField (lit "Author:") commentUpdated.Comment.User.DisplayName
      |>.SetColor prUpdated
    let message :=
      if commentUpdated.PullRequest.Source.Branch.Name ≠ []
          ∧ commentUpdated.PullRequest.Destination.Branch.Name ≠ [] then
        message.SetDescription (lit "`" ++ commentUpdated.PullRequest.Source.Branch.Name
          ++ lit "` > `" ++ commentUpdated.PullRequest.Destination.Branch.Name ++ lit "`")
      else message
    let message :=
      if commentUpdated.Comment.Links.HTML.Href ≠ [] then
        message.SetURL commentUpdated.Comment.Links.HTML.Href
      else message
    (commentUpdated.Repository.Name, some message.MessageEmbed, none)

/-- The function `pullRequestCommentDeleted`: the message for a deleted comment. -/
def pullRequestCommentDeleted (J : JSON) (body : List UInt8) : Result :=
  match J.unmarshalPullRequestCommentCreatedEvent body with
  | .error err => ([], none, some err)
  | .ok commentDeleted =>
    if commentDeleted.Comment.User.DisplayName = [] ∨ commentDeleted.PullRequest.Title = [] then
      ([], none, none)
    else
    let message := embed.NewEmbed
      |>.SetAuthor commentDeleted.Actor.DisplayName commentDeleted.Actor.Links.Avatar.Href
      |>.SetTitle (lit "[" ++ commentDeleted.PullRequest.Destination.Repository.FullName
          ++ lit "]:" ++ lit " Comment deleted on pull request: "
          ++ commentDeleted.PullRequest.Title)
      |>.AddField (lit "Author:") commentDeleted.Comment.User.DisplayName
      |>.SetColor failure
    let message :=
      if commentDeleted.PullRequest.Source.Branch.Name ≠ []
          ∧ commentDeleted.PullRequest.Destination.Branch.Name ≠ [] then
        message.SetDescription (lit "`" ++ commentDeleted.PullRequest.Source.Branch.Name
          ++ lit "` > `" ++ commentDeleted.PullRequest.Destination.Branch.Name ++ lit "`")
      else message
    let message :=
      if commentDeleted.Comment.Links.HTML.Href ≠ [] then
        message.SetURL commentDeleted.Comment.Links.HTML.Href
      else message
    (commentDeleted.Repository.Name, some message.MessageEmbed, none)

/-! ## The dispatcher -/

/-- The function `Handle`: the switch over the event type; an event type without a
`case` falls through to the empty result. -/
def Handle (J : JSON) (cfg : env.Config) (eventType : GoString) (body : List UInt8) : Result :=
  if eventType = lit "repo:push" then handlePush J cfg body
  else if eventType = lit "repo:commit_status_updated" then commitStatusUpdated J body
  else if eventType = lit "pullrequest:created" then pullRequestCreated J body
  else if eventType = lit "pullrequest:updated" then pullRequestUpdated J body
  else if eventType = lit "pullrequest:approved" then pullRequestApproved J body
  else if eventType = lit "pullrequest:unapproved" then pullRequestUnapproved J body
  else if eventType = lit "pullrequest:fulfilled" then pullRequestFulfilled J body
  else if eventType = lit "pullrequest:rejected" then pullRequestRejected J body
  else if eventType = lit "pullrequest:comment_created" then pullRequestCommentCreated J body
  else if eventType = lit "pullrequest:comment_updated" then pullRequestCommentUpdated J body
  else if eventType = lit "pullrequest:comment_deleted" then pullRequestCommentDeleted J body
  else ([], none, none)

/-! ## The event kinds of the dispatch table

The closed enumeration of event kinds, with for each kind the key of its `case`
in `Handle`, the formatter the `case` calls, and what the formatter reads of
the decoded payload before it builds a message. -/

/-- The eleven event kinds. -/
inductive Kind where
  | push
  | commitStatus
  | created
  | updated
  | approved
  | unapproved
  | fulfilled
  | rejected
  | commentCreated
  | commentUpdated
  | commentDeleted
  deriving DecidableEq

/-- The `case` label of a kind in the switch of `Handle`. -/
def Kind.key : Kind → GoString
  | .push => lit "repo:push"
  | .commitStatus => lit "repo:commit_status_updated"
  | .created => lit "pullrequest:created"
  | .updated => lit "pullrequest:updated"
  | .approved => lit "pullrequest:approved"
  | .unapproved => lit "pullrequest:unapproved"
  | .fulfilled => lit "pullrequest:fulfilled"
  | .rejected => lit "pullrequest:rejected"
  | .commentCreated => lit "pullrequest:comment_created"
  | .commentUpdated => lit "pullrequest:comment_updated"
  | .commentDeleted => lit "pullrequest:comment_deleted"

/-- The formatter that the `case` of a kind calls. -/
def Kind.formatter (J : JSON) (cfg : env.Config) : Kind → List UInt8 → Result
  | .push => handlePush J cfg
  | .commitStatus => commitStatusUpdated J
  | .created => pullRequestCreated J
  | .updated => pullRequestUpdated J
  | .approved => pullRequestApproved J
  | .unapproved => pullRequestUnapproved J
  | .fulfilled => pullRequestFulfilled J
  | .rejected => pullRequestRejected J
  | .commentCreated => pullRequestCommentCreated J
  | .commentUpdated => pullRequestCommentUpdated J
  | .commentDeleted => pullRequestCommentDeleted J

/-- What a formatter looks at in a decoded payload to decide whether to build a
message, and the name it returns as routing key. -/
structure Payload where
  /-- The `Repository.Name` of the event. -/
  repositoryName : GoString
  /-- The fields that the guard of the formatter compares with `""`. -/
  guard : List GoString
  deriving DecidableEq

/-- The decoding step of the formatter of a kind: the error of `json.Unmarshal`
on the struct the formatter declares, or the guard fields and repository name
of the decoded event.  `handlePush` has no guard on the payload. -/
def Kind.decode (J : JSON) : Kind → List UInt8 → Except Error Payload
  | .push, body =>
    (J.unmarshalRepoPushEvent body).map fun push => ⟨push.Repository.Name, []⟩
  | .commitStatus, body =>
    (J.unmarshalRepoCommitStatusUpdatedEvent body).map fun event =>
      ⟨event.Repository.Name, [event.CommitStatus.Name]⟩
  | .created, body =>
    (J.unmarshalPullRequestCreatedEvent body).map fun created =>
      ⟨created.Repository.Name, [created.Actor.DisplayName, created.PullRequest.Title]⟩
  | .updated, body =>
    (J.unmarshalPullRequestUpdatedEvent body).map fun updated =>
      ⟨updated.Repository.Name, [updated.Actor.DisplayName, updated.PullRequest.Title]⟩
  | .approved, body =>
    (J.unmarshalPullRequestApprovedEvent body).map fun approved =>
      ⟨approved.Repository.Name, [approved.Actor.DisplayName, approved.PullRequest.Title]⟩
  | .unapproved, body =>
    (J.unmarshalPullRequestApprovedEvent body).map fun unapproved =>
      ⟨unapproved.Repository.Name,
        [unapproved.Actor.DisplayName, unapproved.PullRequest.Title]⟩
  | .fulfilled, body =>
    (J.unmarshalPullRequestMergedEvent body).map fun merged =>
      ⟨merged.Repository.Name,
        [merged.PullRequest.ClosedBy.DisplayName, merged.PullRequest.Title]⟩
  | .rejected, body =>
    (J.unmarshalPullRequestMergedEvent body).map fun rejected =>
      ⟨rejected.Repository.Name,
        [rejected.PullRequest.ClosedBy.DisplayName, rejected.PullRequest.Title]⟩
  | .commentCreated, body =>
    (J.unmarshalPullRequestCommentCreatedEvent body).map fun commentCreated =>
      ⟨commentCreated.Repository.Name,
        [commentCreated.Comment.User.DisplayName, commentCreated.PullRequest.Title]⟩
  | .commentUpdated, body =>
    (J.unmarshalPullRequestCommentCreatedEvent body).map fun commentUpdated =>
      ⟨commentUpdated.Repository.Name,
        [commentUpdated.Comment.User.DisplayName, commentUpdated.PullRequest.Title]⟩
  | .commentDeleted, body =>
    (J.unmarshalPullRequestCommentCreatedEvent body).map fun commentDeleted =>
      ⟨commentDeleted.Repository.Name,
        [commentDeleted.Comment.User.DisplayName, commentDeleted.PullRequest.Title]⟩

/-- The ways a formatter can end: push messages are switched off; the body does
not decode; the guard finds an empty field; or a message is built. -/
inductive Outcome (J : JSON) (cfg : env.Config) (k : Kind) (body : List UInt8) : Prop where
  | skipped (hk : k = .push) (hskip : cfg.SkipRepoPushMessages = true)
      (hres : k.formatter J cfg body = ([], none, none))
  | failed (err : Error) (hpush : k = .push → cfg.SkipRepoPushMessages = false)
      (hdec : k.decode J body = .error err)
      (hres : k.formatter J cfg body = ([], none, some err))
  | suppressed (v : Payload) (hpush : k = .push → cfg.SkipRepoPushMessages = false)
      (hdec : k.decode J body = .ok v) (hguard : [] ∈ v.guard)
      (hres : k.formatter J cfg body = ([], none, none))
  | built (v : Payload) (m : MessageEmbed)
      (hpush : k = .push → cfg.SkipRepoPushMessages = false)
      (hdec : k.decode J body = .ok v) (hguard : [] ∉ v.guard)
      (hres : k.formatter J cfg body = (v.repositoryName, some m, none))

/-- The values of the fields of a message that carry the label `name`, in the
order of the fields. -/
def fieldValues (m : MessageEmbed) (name : GoString) : List GoString :=
  (m.Fields.filter fun field => field.Name = name).map fun field => field.Value

/-! ## The messages as records

For each formatter, the calls of `AddField` it makes and the message it builds
from a decoded event, written as one record instead of a chain of builder
calls.  The lemmas `*_built` below show that the formatters return these
records. -/

/-- The calls of `AddField` that `handlePush` makes, in order, each written as the
pair of the label and the value it hands to the builder. -/
def pushCalls (push : RepoPushEvent) : List MessageEmbedField :=
  match push.Push.Changes with
  | change :: _ =>
    [⟨lit "Number of commits", fmt.Sprintf_d change.Commits.length⟩,
     ⟨lit "Resource name", change.New.Name⟩,
     ⟨lit "Resource type", change.New.Type_⟩]
  | [] =>
    [⟨lit "Number of commits", fmt.Sprintf_d 0⟩,
     ⟨lit "Resource name", lit "unknown"⟩,
     ⟨lit "Resource type", lit "unknown"⟩]

/-- The message of `handlePush` as a record. -/
def pushMessage (push : RepoPushEvent) : MessageEmbed :=
  { URL := []
    Title := lit "Push happened"
    Description :=
      if push.Actor.DisplayName ≠ [] then
        embed.cutDescription (push.Actor.DisplayName ++ lit " pushed")
      else []
    Color := success
    Author := none
    Fields := embed.added (pushCalls push) }

/-- The calls of `AddField` that `commitStatusUpdated` makes, in order, each written as the
pair of the label and the value it hands to the builder. -/
def commitStatusCalls (event : RepoCommitStatusUpdatedEvent) : List MessageEmbedField :=
  if event.CommitStatus.State ≠ [] then [⟨lit "Status", event.CommitStatus.State⟩] else []

/-- The message of `commitStatusUpdated` as a record. -/
def commitStatusMessage (event : RepoCommitStatusUpdatedEvent) : MessageEmbed :=
  { URL := if event.CommitStatus.URL ≠ [] then event.CommitStatus.URL else []
    Title := lit "[" ++ event.Repository.FullName ++ lit "]: " ++ event.CommitStatus.Name
    Description :=
      []
    Color := 
      if event.CommitStatus.State = lit "FAILED" then failure
      else if event.CommitStatus.State = lit "SUCCESSFUL" then success
      else gray
    Author := some ⟨event.CommitStatus.Commit.Author.User.DisplayName,
      event.CommitStatus.Commit.Author.User.Links.Avatar.Href⟩
    Fields := embed.added (commitStatusCalls event) }

/-- The calls of `AddField` that `pullRequestCreated` makes, in order, each written as the
pair of the label and the value it hands to the builder. -/
def createdCalls (created : PullRequestCreatedEvent) : List MessageEmbedField :=
  [⟨lit "Reviewers",
      if (created.PullRequest.Reviewers.map fun reviewer => reviewer.DisplayName).length > 0
      then strings.Join
        (created.PullRequest.Reviewers.map fun reviewer => reviewer.DisplayName) (lit ", ")
      else lit "none"⟩]
    ++ (if created.PullRequest.State ≠ [] then [⟨lit "Status", created.PullRequest.State⟩]
        else [])
    ++ (if created.PullRequest.Description ≠ [] then
        [⟨lit "PR Description",
          lit "**"
            ++ (if created.PullRequest.Description.length > 200
                then created.PullRequest.Description.take 199 ++ lit "..."
                else created.PullRequest.Description)
            ++ lit "**"⟩]
      else [])

/-- The message of `pullRequestCreated` as a record. -/
def createdMessage (created : PullRequestCreatedEvent) : MessageEmbed :=
  { URL := if created.PullRequest.Links.HTML.Href ≠ [] then created.PullRequest.Links.HTML.Href else []
    Title := lit "[" ++ created.PullRequest.Source.Repository.FullName ++ lit "]:"
      ++ lit " Pull request opened: " ++ created.PullRequest.Title
    Description :=
      if created.PullRequest.Source.Branch.Name ≠ []
          ∧ created.PullRequest.Destination.Branch.Name ≠ [] then
        embed.cutDescription
          (lit "`" ++ created.PullRequest.Source.Branch.Name ++ lit "` > `"
            ++ created.PullRequest.Destination.Branch.Name ++ lit "`")
      else []
    Color := prCreated
    Author := some ⟨created.Actor.DisplayName, created.Actor.Links.Avatar.Href⟩
    Fields := embed.added (createdCalls created) }

/-- The calls of `AddField` that `pullRequestUpdated` makes, in order, each written as the
pair of the label and the value it hands to the builder. -/
def updatedCalls (updated : PullRequestUpdatedEvent) : List MessageEmbedField :=
  [⟨lit "Reviewers",
      if (updated.PullRequest.Participants.map fun reviewer =>
          if reviewer.Approved then lit "**✓**" ++ reviewer.User.DisplayName
          else lit "**x **" ++ reviewer.User.DisplayName).length > 0
      then strings.Join
        (updated.PullRequest.Participants.map fun reviewer =>
          if reviewer.Approved then lit "**✓**" ++ reviewer.User.DisplayName
          else lit "**x **" ++ reviewer.User.DisplayName)
        (lit "\n")
      else lit "none"⟩]
    ++ (if updated.PullRequest.State ≠ [] then [⟨lit "Status", updated.PullRequest.State⟩]
        else [])
    ++ (if updated.PullRequest.Description ≠ [] then
        [⟨lit "PR Description",
          lit "**"
            ++ (if updated.PullRequest.Description.length > 200
                then updated.PullRequest.Description.take 199 ++ lit "..."
                else updated.PullRequest.Description)
            ++ lit "**"⟩]
      else [])

/-- The message of `pullRequestUpdated` as a record. -/
def updatedMessage (updated : PullRequestUpdatedEvent) : MessageEmbed :=
  { URL := if updated.PullRequest.Links.HTML.Href ≠ [] then updated.PullRequest.Links.HTML.Href else []
    Title := lit "[" ++ updated.PullRequest.Source.Repository.FullName ++ lit "]:"
      ++ lit " Pull request updated: " ++ updated.PullRequest.Title
    Description :=
      if updated.PullRequest.Source.Branch.Name ≠ []
          ∧ updated.PullRequest.Destination.Branch.Name ≠ [] then
        embed.cutDescription
          (lit "`" ++ updated.PullRequest.Source.Branch.Name ++ lit "` > `"
            ++ updated.PullRequest.Destination.Branch.Name ++ lit "`")
      else []
    Color := prUpdated
    Author := some ⟨updated.Actor.DisplayName, updated.Actor.Links.Avatar.Href⟩
    Fields := embed.added (updatedCalls updated) }

/-- The calls of `AddField` that `pullRequestApproved` makes, in order, each written as the
pair of the label and the value it hands to the builder. -/
def approvedCalls (approved : PullRequestApprovedEvent) : List MessageEmbedField :=
  if approved.Actor.DisplayName ≠ [] then
    [⟨lit "Created by", approved.PullRequest.Author.DisplayName⟩]
  else []

/-- The message of `pullRequestApproved` as a record. -/
def approvedMessage (approved : PullRequestApprovedEvent) : MessageEmbed :=
  { URL := if approved.PullRequest.Links.HTML.Href ≠ [] then approved.PullRequest.Links.HTML.Href else []
    Title := lit "[" ++ approved.PullRequest.Source.Repository.FullName ++ lit "]:"
      ++ lit " Pull request approved: " ++ approved.PullRequest.Title
    Description :=
      if approved.PullRequest.Source.Branch.Name ≠ []
          ∧ approved.PullRequest.Destination.Branch.Name ≠ [] then
        embed.cutDescription
          (lit "`" ++ approved.PullRequest.Source.Branch.Name ++ lit "` > `"
            ++ approved.PullRequest.Destination.Branch.Name ++ lit "`")
      else []
    Color := success
    Author := some ⟨approved.Approval.User.DisplayName,
      approved.Approval.User.Links.Avatar.Href⟩
    Fields := embed.added (approvedCalls approved) }

/-- The calls of `AddField` that `pullRequestUnapproved` makes, in order, each written as the
pair of the label and the value it hands to the builder. -/
def unapprovedCalls (unapproved : PullRequestApprovedEvent) : List MessageEmbedField :=
  if unapproved.Actor.DisplayName ≠ [] then
    [⟨lit "Created by", unapproved.PullRequest.Author.DisplayName⟩]
  else []

/-- The message of `pullRequestUnapproved` as a record. -/
def unapprovedMessage (unapproved : PullRequestApprovedEvent) : MessageEmbed :=
  { URL := if unapproved.PullRequest.Links.HTML.Href ≠ [] then unapproved.PullRequest.Links.HTML.Href else []
    Title := lit "[" ++ unapproved.PullRequest.Source.Repository.FullName ++ lit "]:"
      ++ lit " Pull request unapproved: " ++ unapproved.PullRequest.Title
    Description :=
      if unapproved.PullRequest.Source.Branch.Name ≠ []
          ∧ unapproved.PullRequest.Destination.Branch.Name ≠ [] then
        embed.cutDescription
          (lit "`" ++ unapproved.PullRequest.Source.Branch.Name ++ lit "` > `"
            ++ unapproved.PullRequest.Destination.Branch.Name ++ lit "`")
      else []
    Color := failure
    Author := some ⟨unapproved.Approval.User.DisplayName,
      unapproved.Approval.User.Links.Avatar.Href⟩
    Fields := embed.added (unapprovedCalls unapproved) }

/-- The calls of `AddField` that `pullRequestFulfilled` makes, in order, each written as the
pair of the label and the value it hands to the builder. -/
def mergedCalls (merged : PullRequestMergedEvent) : List MessageEmbedField :=
  [⟨lit "Reviewers",
      if (merged.PullRequest.Participants.map fun reviewer =>
          if reviewer.Approved then lit "**✓**" ++ reviewer.User.DisplayName
          else lit "**x **" ++ reviewer.User.DisplayName).length > 0
      then strings.Join
        (merged.PullRequest.Participants.map fun reviewer =>
          if reviewer.Approved then lit "**✓**" ++ reviewer.User.DisplayName
          else lit "**x **" ++ reviewer.User.DisplayName)
        (lit "\n")
      else lit "none"⟩]
    ++ (if merged.Actor.DisplayName ≠ [] then [⟨lit "Created by", merged.Actor.DisplayName⟩]
        else [])
    ++ (if merged.PullRequest.State ≠ [] then [⟨lit "Status", merged.PullRequest.State⟩]
        else [])

/-- The message of `pullRequestFulfilled` as a record. -/
def mergedMessage (merged : PullRequestMergedEvent) : MessageEmbed :=
  { URL := if merged.PullRequest.Links.HTML.Href ≠ [] then merged.PullRequest.Links.HTML.Href else []
    Title := lit "[" ++ merged.Repository.FullName ++ lit "]: Pull request merged: "
      ++ merged.PullRequest.Title
    Description :=
      if merged.PullRequest.Source.Branch.Name ≠ []
          ∧ merged.PullRequest.Destination.Branch.Name ≠ [] then
        embed.cutDescription
          (lit "`" ++ merged.PullRequest.Source.Branch.Name ++ lit "` > `"
            ++ merged.PullRequest.Destination.Branch.Name ++ lit "`")
      else []
    Color := success
    Author := some ⟨merged.Actor.DisplayName, merged.PullRequest.ClosedBy.Links.Avatar.Href⟩
    Fields := embed.added (mergedCalls merged) }

/-- The calls of `AddField` that `pullRequestRejected` makes, in order, each written as the
pair of the label and the value it hands to the builder. -/
def rejectedCalls (rejected : PullRequestMergedEvent) : List MessageEmbedField :=
  (if rejected.Actor.DisplayName ≠ [] then
      [⟨lit "Created by", rejected.Actor.DisplayName⟩]
    else [])
    ++ (if rejected.PullRequest.State ≠ [] then [⟨lit "Status", rejected.PullRequest.State⟩]
        else [])

/-- The message of `pullRequestRejected` as a record. -/
def rejectedMessage (rejected : PullRequestMergedEvent) : MessageEmbed :=
  { URL := if rejected.PullRequest.Links.HTML.Href ≠ [] then rejected.PullRequest.Links.HTML.Href else []
    Title := lit "[" ++ rejected.Repository.FullName ++ lit "]: Pull request rejected: "
      ++ rejected.PullRequest.Title
    Description :=
      if rejected.PullRequest.Source.Branch.Name ≠ []
          ∧ rejected.PullRequest.Destination.Branch.Name ≠ [] then
        embed.cutDescription
          (lit "`" ++ rejected.PullRequest.Source.Branch.Name ++ lit "` > `"
            ++ rejected.PullRequest.Destination.Branch.Name ++ lit "`")
      else []
    Color := failure
    Author := some ⟨rejected.Actor.DisplayName,
      rejected.PullRequest.ClosedBy.Links.Avatar.Href⟩
    Fields := embed.added (rejectedCalls rejected) }

/-- The calls of `AddField` that `pullRequestCommentCreated` makes, in order, each written as the
pair of the label and the value it hands to the builder. -/
def commentCreatedCalls (commentCreated : PullRequestCommentCreatedEvent) : List MessageEmbedField :=
  [⟨lit "Comment",
      if commentCreated.Comment.Content.Raw ≠ [] then
        if commentCreated.Comment.Content.Raw.length > 105 then
          commentCreated.Comment.Content.Raw.take 100 ++ lit "..."
        else commentCreated.Comment.Content.Raw
      else lit "no comment"⟩]

/-- The message of `pullRequestCommentCreated` as a record. -/
def commentCreatedMessage (commentCreated : PullRequestCommentCreatedEvent) : MessageEmbed :=
  { URL := if commentCreated.Comment.Links.HTML.Href ≠ [] then commentCreated.Comment.Links.HTML.Href else []
    Title := lit "[" ++ commentCreated.PullRequest.Destination.Repository.FullName ++ lit "]:"
      ++ lit " Comment created on pull request: " ++ commentCreated.PullRequest.Title
    Description :=
      if commentCreated.PullRequest.Source.Branch.Name ≠ []
          ∧ commentCreated.PullRequest.Destination.Branch.Name ≠ [] then
        embed.cutDescription
          (lit "`" ++ commentCreated.PullRequest.Source.Branch.Name ++ lit "` > `"
            ++ commentCreated.PullRequest.Destination.Branch.Name ++ lit "`")
      else []
    Color := prCreated
    Author := some ⟨commentCreated.Actor.DisplayName, commentCreated.Actor.Links.Avatar.Href⟩
    Fields := embed.added (commentCreatedCalls commentCreated) }

/-- The calls of `AddField` that `pullRequestCommentUpdated` makes, in order, each written as the
pair of the label and the value it hands to the builder. -/
def commentUpdatedCalls (commentUpdated : PullRequestCommentCreatedEvent) : List MessageEmbedField :=
  [⟨lit "Author:", commentUpdated.Comment.User.DisplayName⟩]

/-- The message of `pullRequestCommentUpdated` as a record. -/
def commentUpdatedMessage (commentUpdated : PullRequestCommentCreatedEvent) : MessageEmbed :=
  { URL := if commentUpdated.Comment.Links.HTML.Href ≠ [] then commentUpdated.Comment.Links.HTML.Href else []
    Title := lit "[" ++ commentUpdated.PullRequest.Destination.Repository.FullName ++ lit "]:"
      ++ lit " Comment updated on pull request: " ++ commentUpdated.PullRequest.Title
    Description :=
      if commentUpdated.PullRequest.Source.Branch.Name ≠ []
          ∧ commentUpdated.PullRequest.Destination.Branch.Name ≠ [] then
        embed.cutDescription
          (lit "`" ++ commentUpdated.PullRequest.Source.Branch.Name ++ lit "` > `"
            ++ commentUpdated.PullRequest.Destination.Branch.Name ++ lit "`")
      else []
    Color := prUpdated
    Author := some ⟨commentUpdated.Actor.DisplayName, commentUpdated.Actor.Links.Avatar.Href⟩
    Fields := embed.added (commentUpdatedCalls commentUpdated) }

/-- The calls of `AddField` that `pullRequestCommentDeleted` makes, in order, each written as the
pair of the label and the value it hands to the builder. -/
def commentDeletedCalls (commentDeleted : PullRequestCommentCreatedEvent) : List MessageEmbedField :=
  [⟨lit "Author:", commentDeleted.Comment.User.DisplayName⟩]

/-- The message of `pullRequestCommentDeleted` as a record. -/
def commentDeletedMessage (commentDeleted : PullRequestCommentCreatedEvent) : MessageEmbed :=
  { URL := if commentDeleted.Comment.Links.HTML.Href ≠ [] then commentDeleted.Comment.Links.HTML.Href else []
    Title := lit "[" ++ commentDeleted.PullRequest.Destination.Repository.FullName ++ lit "]:"
      ++ lit " Comment deleted on pull request: " ++ commentDeleted.PullRequest.Title
    Description :=
      if commentDeleted.PullRequest.Source.Branch.Name ≠ []
          ∧ commentDeleted.PullRequest.Destination.Branch.Name ≠ [] then
        embed.cutDescription
          (lit "`" ++ commentDeleted.PullRequest.Source.Branch.Name ++ lit "` > `"
            ++ commentDeleted.PullRequest.Destination.Branch.Name ++ lit "`")
      else []
    Color := failure
    Author := some ⟨commentDeleted.Actor.DisplayName, commentDeleted.Actor.Links.Avatar.Href⟩
    Fields := embed.added (commentDeletedCalls commentDeleted) }

/-! ## The table of the kinds -/

/-- The color the table of the kinds gives a kind.  For a commit status the
color goes by the state of the decoded event: `failure` for `FAILED`, `success`
for `SUCCESSFUL`, `gray` otherwise. -/
def Kind.color (J : JSON) : Kind → List UInt8 → Nat
  | .push, _ => success
  | .commitStatus, body =>
    match J.unmarshalRepoCommitStatusUpdatedEvent body with
    | .ok event =>
      if event.CommitStatus.State = lit "FAILED" then failure
      else if event.CommitStatus.State = lit "SUCCESSFUL" then success
      else gray
    | .error _ => gray
  | .created, _ => prCreated
  | .updated, _ => prUpdated
  | .approved, _ => success
  | .unapproved, _ => failure
  | .fulfilled, _ => success
  | .rejected, _ => failure
  | .commentCreated, _ => prCreated
  | .commentUpdated, _ => prUpdated
  | .commentDeleted, _ => failure

/-- The labels of the fields of a kind, in the fixed order of the table. -/
def Kind.labels : Kind → List GoString
  | .push => [lit "Number of commits", lit "Resource name", lit "Resource type"]
  | .commitStatus => [lit "Status"]
  | .created => [lit "Reviewers", lit "Status", lit "PR Description"]
  | .updated => [lit "Reviewers", lit "Status", lit "PR Description"]
  | .approved => [lit "Created by"]
  | .unapproved => [lit "Created by"]
  | .fulfilled => [lit "Reviewers", lit "Created by", lit "Status"]
  | .rejected => [lit "Created by", lit "Status"]
  | .commentCreated => [lit "Comment"]
  | .commentUpdated => [lit "Author:"]
  | .commentDeleted => [lit "Author:"]

/-- The calls of `AddField` that the formatter of a kind makes on a body that
decodes, each written as the pair of its label and its value; no call when the
body does not decode. -/
def Kind.calls (J : JSON) : Kind → List UInt8 → List MessageEmbedField
  | .push, body =>
    match J.unmarshalRepoPushEvent body with
    | .ok ev => pushCalls ev
    | .error _ => []
  | .commitStatus, body =>
    match J.unmarshalRepoCommitStatusUpdatedEvent body with
    | .ok ev => commitStatusCalls ev
    | .error _ => []
  | .created, body =>
    match J.unmarshalPullRequestCreatedEvent body with
    | .ok ev => createdCalls ev
    | .error _ => []
  | .updated, body =>
    match J.unmarshalPullRequestUpdatedEvent body with
    | .ok ev => updatedCalls ev
    | .error _ => []
  | .approved, body =>
    match J.unmarshalPullRequestApprovedEvent body with
    | .ok ev => approvedCalls ev
    | .error _ => []
  | .unapproved, body =>
    match J.unmarshalPullRequestApprovedEvent body with
    | .ok ev => unapprovedCalls ev
    | .error _ => []
  | .fulfilled, body =>
    match J.unmarshalPullRequestMergedEvent body with
    | .ok ev => mergedCalls ev
    | .error _ => []
  | .rejected, body =>
    match J.unmarshalPullRequestMergedEvent body with
    | .ok ev => rejectedCalls ev
    | .error _ => []
  | .commentCreated, body =>
    match J.unmarshalPullRequestCommentCreatedEvent body with
    | .ok ev => commentCreatedCalls ev
    | .error _ => []
  | .commentUpdated, body =>
    match J.unmarshalPullRequestCommentCreatedEvent body with
    | .ok ev => commentUpdatedCalls ev
    | .error _ => []
  | .commentDeleted, body =>
    match J.unmarshalPullRequestCommentCreatedEvent body with
    | .ok ev => commentDeletedCalls ev
    | .error _ => []

/-- The pull request of the event that a body decodes into, for the nine kinds
whose event has one: the six pull-request kinds and the three comment kinds. -/
def Kind.pullRequest (J : JSON) : Kind → List UInt8 → Option PullRequest
  | .push, _ => none
  | .commitStatus, _ => none
  | .created, body =>
    (J.unmarshalPullRequestCreatedEvent body).toOption.map fun created => created.PullRequest
  | .updated, body =>
    (J.unmarshalPullRequestUpdatedEvent body).toOption.map fun updated => updated.PullRequest
  | .approved, body =>
    (J.unmarshalPullRequestApprovedEvent body).toOption.map fun approved =>
      approved.PullRequest
  | .unapproved, body =>
    (J.unmarshalPullRequestApprovedEvent body).toOption.map fun unapproved =>
      unapproved.PullRequest
  | .fulfilled, body =>
    (J.unmarshalPullRequestMergedEvent body).toOption.map fun merged => merged.PullRequest
  | .rejected, body =>
    (J.unmarshalPullRequestMergedEvent body).toOption.map fun rejected => rejected.PullRequest
  | .commentCreated, body =>
    (J.unmarshalPullRequestCommentCreatedEvent body).toOption.map fun commentCreated =>
      commentCreated.PullRequest
  | .commentUpdated, body =>
    (J.unmarshalPullRequestCommentCreatedEvent body).toOption.map fun commentUpdated =>
      commentUpdated.PullRequest
  | .commentDeleted, body =>
    (J.unmarshalPullRequestCommentCreatedEvent body).toOption.map fun commentDeleted =>
      commentDeleted.PullRequest

/-! ## Sample inputs -/

/-- The error `json.Unmarshal` reports on an empty body. -/
def unexpectedEnd : Error := ⟨"unexpected end of JSON input"⟩

/-- Decoders seen on a body that no event struct accepts, such as the empty
body. -/
def JSON.failing : JSON where
  unmarshalRepoPushEvent := fun _ => .error unexpectedEnd
  unmarshalRepoCommitStatusUpdatedEvent := fun _ => .error unexpectedEnd
  unmarshalPullRequestCreatedEvent := fun _ => .error unexpectedEnd
  unmarshalPullRequestUpdatedEvent := fun _ => .error unexpectedEnd
  unmarshalPullRequestApprovedEvent := fun _ => .error unexpectedEnd
  unmarshalPullRequestMergedEvent := fun _ => .error unexpectedEnd
  unmarshalPullRequestCommentCreatedEvent := fun _ => .error unexpectedEnd

/-- Decoders seen on the empty JSON object: every event struct is left at its
zero value. -/
def JSON.zero : JSON where
  unmarshalRepoPushEvent := fun _ => .ok {}
  unmarshalRepoCommitStatusUpdatedEvent := fun _ => .ok {}
  unmarshalPullRequestCreatedEvent := fun _ => .ok {}
  unmarshalPullRequestUpdatedEvent := fun _ => .ok {}
  unmarshalPullRequestApprovedEvent := fun _ => .ok {}
  unmarshalPullRequestMergedEvent := fun _ => .ok {}
  unmarshalPullRequestCommentCreatedEvent := fun _ => .ok {}

/-- The empty JSON object. -/
def emptyObject : List UInt8 := lit "\x7b\x7d"

/-- Stands for the JSON text of the event that the decoders below return. -/
def payloadBody : List UInt8 := lit "payload"

/-- Decoders seen on a body that holds the commit-status event `event`. -/
def JSON.commitStatus (event : RepoCommitStatusUpdatedEvent) : JSON :=
  { JSON.failing with unmarshalRepoCommitStatusUpdatedEvent := fun _ => .ok event }

/-- Decoders seen on a body that holds the pull-request-created event `created`. -/
def JSON.created (created : PullRequestCreatedEvent) : JSON :=
  { JSON.failing with unmarshalPullRequestCreatedEvent := fun _ => .ok created }

/-- Decoders seen on a body that holds the pull-request-updated event `updated`. -/
def JSON.updated (updated : PullRequestUpdatedEvent) : JSON :=
  { JSON.failing with unmarshalPullRequestUpdatedEvent := fun _ => .ok updated }

/-- Decoders seen on a body that holds the merged or rejected event `merged`. -/
def JSON.merged (merged : PullRequestMergedEvent) : JSON :=
  { JSON.failing with unmarshalPullRequestMergedEvent := fun _ => .ok merged }

/-- Decoders seen on a body that holds the comment event `comment`. -/
def JSON.comment (comment : PullRequestCommentCreatedEvent) : JSON :=
  { JSON.failing with unmarshalPullRequestCommentCreatedEvent := fun _ => .ok comment }

/-- A text of `n` characters, each the letter e with an acute accent, which
UTF-8 writes in two bytes. -/
def accented (n : Nat) : String := String.mk (List.replicate n (Char.ofNat 0xE9))

/-- A pull-request-created event by `ann`, titled `Fix`, with the given
description. -/
def createdWith (description : GoString) : PullRequestCreatedEvent :=
  { Actor := { DisplayName := lit "ann" },
    PullRequest := { Title := lit "Fix", Description := description } }

/-- A comment event on the pull request `Fix` whose comment, by `ann`, has the
given text. -/
def commentWith (raw : GoString) : PullRequestCommentCreatedEvent :=
  { PullRequest := { Title := lit "Fix" },
    Comment := { Content := { Raw := raw }, User := { DisplayName := lit "ann" } } }

/-- A pull-request-updated event by `ann`, titled `Fix`, with the given
participants. -/
def updatedWith (participants : List Participant) : PullRequestUpdatedEvent :=
  { Actor := { DisplayName := lit "ann" },
    PullRequest := { Title := lit "Fix", Participants := participants } }

/-- Two participants: `Al`, who approved, and `Bo`, who did not. -/
def twoParticipants : List Participant :=
  [{ User := { DisplayName := lit "Al" }, Approved := true },
   { User := { DisplayName := lit "Bo" }, Approved := false }]

/-- Decoders seen on a body that holds the push event `push`. -/
def JSON.push (push : RepoPushEvent) : JSON :=
  { JSON.failing with unmarshalRepoPushEvent := fun _ => .ok push }

/-- Decoders seen on a body that holds the approval event `approved`. -/
def JSON.approved (approved : PullRequestApprovedEvent) : JSON :=
  { JSON.failing with unmarshalPullRequestApprovedEvent := fun _ => .ok approved }

/-- A push of one change that names no resource. -/
def pushOfUnnamedChange : RepoPushEvent := { Push := { Changes := [{}] } }

/-- A push to the repository `api` by `ann`: two commits on the branch `main`,
followed by the given further changes. -/
def pushWith (further : List Change) : RepoPushEvent :=
  { Push := { Changes :=
      { Commits := [{}, {}], New := { Name := lit "main", Type_ := lit "branch" } }
        :: further },
    Actor := { DisplayName := lit "ann" },
    Repository := { Name := lit "api" } }

/-- A pull request titled `Fix` opened by `ann` from the fork `fork/api` against
the repository `team/api`, with reviewers `Al` and `Bo`. -/
def createdFromFork : PullRequestCreatedEvent :=
  { Actor := { DisplayName := lit "ann" },
    PullRequest :=
      { Title := lit "Fix",
        Source := { Repository := { FullName := lit "fork/api" } },
        Reviewers := [{ DisplayName := lit "Al" }, { DisplayName := lit "Bo" }] },
    Repository := { Name := lit "api", FullName := lit "team/api" } }

/-- A pull request titled `Fix` from `dev` to `main` in `team/api`, opened by
`ann` and merged by `bob`. -/
def mergedByBob : PullRequestMergedEvent :=
  { Actor := { DisplayName := lit "ann" },
    PullRequest :=
      { Title := lit "Fix",
        Source := { Branch := { Name := lit "dev" } },
        Destination := { Branch := { Name := lit "main" } },
        ClosedBy :=
          { DisplayName := lit "bob", Links := { Avatar := { Href := lit "bob.png" } } } },
    Repository := { Name := lit "api", FullName := lit "team/api" } }

/-- An approval by `ann` of the pull request `Fix`. -/
def approvedByAnn : PullRequestApprovedEvent :=
  { Actor := { DisplayName := lit "ann" },
    PullRequest := { Title := lit "Fix", Author := { DisplayName := lit "cy" } },
    Repository := { Name := lit "api" },
    Approval := { User := { DisplayName := lit "ann" } } }

/-- A failed build status `build` in the repository `team/api`. -/
def failedBuild : RepoCommitStatusUpdatedEvent :=
  { CommitStatus := { Name := lit "build", State := lit "FAILED" },
    Repository := { Name := lit "api", FullName := lit "team/api" } }

/-- Stands for the JSON text of a second event. -/
def otherPayloadBody : List UInt8 := lit "other payload"

/-- Decoders seen on two bodies that hold push events: `payloadBody` holds
`first` and every other body holds `second`. -/
def JSON.pushes (first second : RepoPushEvent) : JSON :=
  { JSON.failing with
    unmarshalRepoPushEvent := fun body => if body = payloadBody then .ok first else .ok second }

/-- A participant who did not approve, with a display name of 1100 letters
`a`. -/
def longNamedParticipant : Participant :=
  { User := { DisplayName := List.replicate 1100 97 } }

/-- A push by `ann` to `api` of one change to `main`, whose resource type is
1025 letters `b`. -/
def pushOfLongType : RepoPushEvent :=
  { Push := { Changes := [{ New := { Name := lit "main", Type_ := List.replicate 1025 98 } }] },
    Actor := { DisplayName := lit "ann" },
    Repository := { Name := lit "api" } }

/-- A pull request titled `Fix` opened by `ann` against `main`, from a branch
whose name is 2100 letters `c`. -/
def createdFromLongBranch : PullRequestCreatedEvent :=
  { Actor := { DisplayName := lit "ann" },
    PullRequest :=
      { Title := lit "Fix",
        Source := { Branch := { Name := List.replicate 2100 99 } },
        Destination := { Branch := { Name := lit "main" } } } }

/-- A pull request titled `Fix` opened by `ann`, with one reviewer whose display
name is 1025 letters `d`. -/
def createdWithLongReviewer : PullRequestCreatedEvent :=
  { Actor := { DisplayName := lit "ann" },
    PullRequest :=
      { Title := lit "Fix", Reviewers := [{ DisplayName := List.replicate 1025 100 }] } }

/-- A pull request titled `Fix` merged by `bob`, opened by an actor whose display
name is 1025 letters `e`. -/
def mergedWithLongActor : PullRequestMergedEvent :=
  { Actor := { DisplayName := List.replicate 1025 101 },
    PullRequest := { Title := lit "Fix", ClosedBy := { DisplayName := lit "bob" } } }

/-! ## Dispatch -/

/-- On the key of a kind, `Handle` is the formatter of that kind. -/
theorem Handle_of_key (J : JSON) (cfg : env.Config) (k : Kind) (body : List UInt8) :
    Handle J cfg k.key body = k.formatter J cfg body := by
  cases k <;> simp +decide [Handle, Kind.key, Kind.formatter]

/-- Off the eleven keys, `Handle` falls through the switch. -/
theorem Handle_of_not_key (J : JSON) (cfg : env.Config) (eventType : GoString)
    (body : List UInt8) (h : ∀ k : Kind, eventType ≠ k.key) :
    Handle J cfg eventType body = ([], none, none) := by
  have h1 := h .push
  have h2 := h .commitStatus
  have h3 := h .created
  have h4 := h .updated
  have h5 := h .approved
  have h6 := h .unapproved
  have h7 := h .fulfilled
  have h8 := h .rejected
  have h9 := h .commentCreated
  have h10 := h .commentUpdated
  have h11 := h .commentDeleted
  simp only [Kind.key] at h1 h2 h3 h4 h5 h6 h7 h8 h9 h10 h11
  simp only [Handle, if_neg h1, if_neg h2, if_neg h3, if_neg h4, if_neg h5, if_neg h6,
    if_neg h7, if_neg h8, if_neg h9, if_neg h10, if_neg h11]

/-- Every run of a formatter ends in one of the four outcomes. -/
theorem formatter_outcome (J : JSON) (cfg : env.Config) (k : Kind) (body : List UInt8) :
    Outcome J cfg k body := by
  cases k
  · cases hs : cfg.SkipRepoPushMessages
    · cases h : J.unmarshalRepoPushEvent body with
      | error err =>
        exact .failed err (fun _ => hs) (by simp [Kind.decode, Except.map, h])
          (by simp [Kind.formatter, handlePush, hs, h])
      | ok ev =>
        exact .built ⟨ev.Repository.Name, []⟩ _ (fun _ => hs)
          (by simp [Kind.decode, Except.map, h]) (by simp)
          (by simp only [Kind.formatter, handlePush, hs, h]; rfl)
    · exact .skipped rfl hs (by simp [Kind.formatter, handlePush, hs])
  · cases h : J.unmarshalRepoCommitStatusUpdatedEvent body with
    | error err =>
      exact .failed err (by simp) (by simp [Kind.decode, Except.map, h])
        (by simp [Kind.formatter, commitStatusUpdated, h])
    | ok ev =>
      by_cases hg : ev.CommitStatus.Name = []
      · exact .suppressed ⟨ev.Repository.Name, [ev.CommitStatus.Name]⟩ (by simp)
          (by simp [Kind.decode, Except.map, h]) (by simp [hg])
          (by simp [Kind.formatter, commitStatusUpdated, h, hg])
      · exact .built ⟨ev.Repository.Name, [ev.CommitStatus.Name]⟩ _ (by simp)
          (by simp [Kind.decode, Except.map, h]) (by simpa [eq_comm] using hg)
          (by simp only [Kind.formatter, commitStatusUpdated, h, hg, if_false]; rfl)
  · cases h : J.unmarshalPullRequestCreatedEvent body with
    | error err =>
      exact .failed err (by simp) (by simp [Kind.decode, Except.map, h])
        (by simp [Kind.formatter, pullRequestCreated, h])
    | ok ev =>
      by_cases hg : ev.Actor.DisplayName = [] ∨ ev.PullRequest.Title = []
      · exact .suppressed ⟨ev.Repository.Name, [ev.Actor.DisplayName, ev.PullRequest.Title]⟩
          (by simp) (by simp [Kind.decode, Except.map, h]) (by simpa [eq_comm] using hg)
          (by simp only [Kind.formatter, pullRequestCreated, h, hg, if_true])
      · exact .built ⟨ev.Repository.Name, [ev.Actor.DisplayName, ev.PullRequest.Title]⟩ _
          (by simp) (by simp [Kind.decode, Except.map, h]) (by simpa [eq_comm] using hg)
          (by simp only [Kind.formatter, pullRequestCreated, h, hg, if_false]; rfl)
  · cases h : J.unmarshalPullRequestUpdatedEvent body with
    | error err =>
      exact .failed err (by simp) (by simp [Kind.decode, Except.map, h])
        (by simp [Kind.formatter, pullRequestUpdated, h])
    | ok ev =>
      by_cases hg : ev.Actor.DisplayName = [] ∨ ev.PullRequest.Title = []
      · exact .suppressed ⟨ev.Repository.Name, [ev.Actor.DisplayName, ev.PullRequest.Title]⟩
          (by simp) (by simp [Kind.decode, Except.map, h]) (by simpa [eq_comm] using hg)
          (by simp only [Kind.formatter, pullRequestUpdated, h, hg, if_true])
      · exact .built ⟨ev.Repository.Name, [ev.Actor.DisplayName, ev.PullRequest.Title]⟩ _
          (by simp) (by simp [Kind.decode, Except.map, h]) (by simpa [eq_comm] using hg)
          (by simp only [Kind.formatter, pullRequestUpdated, h, hg, if_false]; rfl)
  · cases h : J.unmarshalPullRequestApprovedEvent body with
    | error err =>
      exact .failed err (by simp) (by simp [Kind.decode, Except.map, h])
        (by simp [Kind.formatter, pullRequestApproved, h])
    | ok ev =>
      by_cases hg : ev.Actor.DisplayName = [] ∨ ev.PullRequest.Title = []
      · exact .suppressed ⟨ev.Repository.Name, [ev.Actor.DisplayName, ev.PullRequest.Title]⟩
          (by simp) (by simp [Kind.decode, Except.map, h]) (by simpa [eq_comm] using hg)
          (by simp only [Kind.formatter, pullRequestApproved, h, hg, if_true])
      · exact .built ⟨ev.Repository.Name, [ev.Actor.DisplayName, ev.PullRequest.Title]⟩ _
          (by simp) (by simp [Kind.decode, Except.map, h]) (by simpa [eq_comm] using hg)
          (by simp only [Kind.formatter, pullRequestApproved, h, hg, if_false]; rfl)
  · cases h : J.unmarshalPullRequestApprovedEvent body with
    | error err =>
      exact .failed err (by simp) (by simp [Kind.decode, Except.map, h])
        (by simp [Kind.formatter, pullRequestUnapproved, h])
    | ok ev =>
      by_cases hg : ev.Actor.DisplayName = [] ∨ ev.PullRequest.Title = []
      · exact .suppressed ⟨ev.Repository.Name, [ev.Actor.DisplayName, ev.PullRequest.Title]⟩
          (by simp) (by simp [Kind.decode, Except.map, h]) (by simpa [eq_comm] using hg)
          (by simp only [Kind.formatter, pullRequestUnapproved, h, hg, if_true])
      · exact .built ⟨ev.Repository.Name, [ev.Actor.DisplayName, ev.PullRequest.Title]⟩ _
          (by simp) (by simp [Kind.decode, Except.map, h]) (by simpa [eq_comm] using hg)
          (by simp only [Kind.formatter, pullRequestUnapproved, h, hg, if_false]; rfl)
  · cases h : J.unmarshalPullRequestMergedEvent body with
    | error err =>
      exact .failed err (by simp) (by simp [Kind.decode, Except.map, h])
        (by simp [Kind.formatter, pullRequestFulfilled, h])
    | ok ev =>
      by_cases hg : ev.PullRequest.ClosedBy.DisplayName = [] ∨ ev.PullRequest.Title = []
      · exact .suppressed
          ⟨ev.Repository.Name, [ev.PullRequest.ClosedBy.DisplayName, ev.PullRequest.Title]⟩
          (by simp) (by simp [Kind.decode, Except.map, h]) (by simpa [eq_comm] using hg)
          (by simp only [Kind.formatter, pullRequestFulfilled, h, hg, if_true])
      · exact .built
          ⟨ev.Repository.Name, [ev.PullRequest.ClosedBy.DisplayName, ev.PullRequest.Title]⟩ _
          (by simp) (by simp [Kind.decode, Except.map, h]) (by simpa [eq_comm] using hg)
          (by simp only [Kind.formatter, pullRequestFulfilled, h, hg, if_false]; rfl)
  · cases h : J.unmarshalPullRequestMergedEvent body with
    | error err =>
      exact .failed err (by simp) (by simp [Kind.decode, Except.map, h])
        (by simp [Kind.formatter, pullRequestRejected, h])
    | ok ev =>
      by_cases hg : ev.PullRequest.ClosedBy.DisplayName = [] ∨ ev.PullRequest.Title = []
      · exact .suppressed
          ⟨ev.Repository.Name, [ev.PullRequest.ClosedBy.DisplayName, ev.PullRequest.Title]⟩
          (by simp) (by simp [Kind.decode, Except.map, h]) (by simpa [eq_comm] using hg)
          (by simp only [Kind.formatter, pullRequestRejected, h, hg, if_true])
      · exact .built
          ⟨ev.Repository.Name, [ev.PullRequest.ClosedBy.DisplayName, ev.PullRequest.Title]⟩ _
          (by simp) (by simp [Kind.decode, Except.map, h]) (by simpa [eq_comm] using hg)
          (by simp only [Kind.formatter, pullRequestRejected, h, hg, if_false]; rfl)
  · cases h : J.unmarshalPullRequestCommentCreatedEvent body with
    | error err =>
      exact .failed err (by simp) (by simp [Kind.decode, Except.map, h])
        (by simp [Kind.formatter, pullRequestCommentCreated, h])
    | ok ev =>
      by_cases hg : ev.Comment.User.DisplayName = [] ∨ ev.PullRequest.Title = []
      · exact .suppressed
          ⟨ev.Repository.Name, [ev.Comment.User.DisplayName, ev.PullRequest.Title]⟩
          (by simp) (by simp [Kind.decode, Except.map, h]) (by simpa [eq_comm] using hg)
          (by simp only [Kind.formatter, pullRequestCommentCreated, h, hg, if_true])
      · exact .built
          ⟨ev.Repository.Name, [ev.Comment.User.DisplayName, ev.PullRequest.Title]⟩ _
          (by simp) (by simp [Kind.decode, Except.map, h]) (by simpa [eq_comm] using hg)
          (by simp only [Kind.formatter, pullRequestCommentCreated, h, hg, if_false]; rfl)
  · cases h : J.unmarshalPullRequestCommentCreatedEvent body with
    | error err =>
      exact .failed err (by simp) (by simp [Kind.decode, Except.map, h])
        (by simp [Kind.formatter, pullRequestCommentUpdated, h])
    | ok ev =>
      by_cases hg : ev.Comment.User.DisplayName = [] ∨ ev.PullRequest.Title = []
      · exact .suppressed
          ⟨ev.Repository.Name, [ev.Comment.User.DisplayName, ev.PullRequest.Title]⟩
          (by simp) (by simp [Kind.decode, Except.map, h]) (by simpa [eq_comm] using hg)
          (by simp only [Kind.formatter, pullRequestCommentUpdated, h, hg, if_true])
      · exact .built
          ⟨ev.Repository.Name, [ev.Comment.User.DisplayName, ev.PullRequest.Title]⟩ _
          (by simp) (by simp [Kind.decode, Except.map, h]) (by simpa [eq_comm] using hg)
          (by simp only [Kind.formatter, pullRequestCommentUpdated, h, hg, if_false]; rfl)
  · cases h : J.unmarshalPullRequestCommentCreatedEvent body with
    | error err =>
      exact .failed err (by simp) (by simp [Kind.decode, Except.map, h])
        (by simp [Kind.formatter, pullRequestCommentDeleted, h])
    | ok ev =>
      by_cases hg : ev.Comment.User.DisplayName = [] ∨ ev.PullRequest.Title = []
      · exact .suppressed
          ⟨ev.Repository.Name, [ev.Comment.User.DisplayName, ev.PullRequest.Title]⟩
          (by simp) (by simp [Kind.decode, Except.map, h]) (by simpa [eq_comm] using hg)
          (by simp only [Kind.formatter, pullRequestCommentDeleted, h, hg, if_true])
      · exact .built
          ⟨ev.Repository.Name, [ev.Comment.User.DisplayName, ev.PullRequest.Title]⟩ _
          (by simp) (by simp [Kind.decode, Except.map, h]) (by simpa [eq_comm] using hg)
          (by simp only [Kind.formatter, pullRequestCommentDeleted, h, hg, if_false]; rfl)

/-! ## The builder

What `AddField` and `SetDescription` do to the arguments `handle.go` hands
them. -/

open embed

/-- What one pass of the loop body gives: the field carries the label of the
pass; the label is the old one, or the old one extended if it was not extended
before; the position moves back by at most one; and the value of the field is
not empty. -/
theorem splitStep_spec (value : GoString) (i : Nat) (name : GoString) (extended : Bool)
    (name' : GoString) (extended' : Bool) (field : MessageEmbedField) (i' : Nat)
    (h : splitStep value i name extended = (name', extended', field, i')) :
    field.Name = name'
      ∧ ((name' = name ∧ extended' = extended)
        ∨ (extended = false ∧ name' = name ++ lit " (extended)" ∧ extended' = true))
      ∧ (i = 1024 → name' = name)
      ∧ i' ≤ i ∧ i ≤ i' + 1
      ∧ (i < value.length → field.Value ≠ []) := by
  have hdash : lit "-" ≠ [] := by decide
  unfold splitStep at h
  dsimp only at h
  split_ifs at h with h1 h2 h2
  all_goals
    simp only [Prod.mk.injEq] at h
    obtain ⟨rfl, rfl, rfl, rfl⟩ := h
    refine ⟨rfl, ?_, ?_, ?_, ?_, ?_⟩
    · first
        | exact Or.inl ⟨rfl, rfl⟩
        | exact Or.inr ⟨h2.2, rfl, rfl⟩
    · intro hi
      first
        | rfl
        | exact absurd hi h2.1
    · omega
    · omega
    · intro hi
      first
        | (simp only [ne_eq, List.take_eq_nil_iff, List.drop_eq_nil_iff]
           omega)
        | simp [hdash]

/-- Further fuel does not change the loop once the fuel covers the bytes that
are left: the loop of `split`, started with the length of the value as fuel,
never stops for lack of fuel. -/
theorem splitLoop_fuel (value : GoString) (fuel : Nat) :
    ∀ (i : Nat) (name : GoString) (extended : Bool) (fields : List MessageEmbedField),
      value.length ≤ i + fuel * 1023 →
      splitLoop value (fuel + 1) i name extended fields
        = splitLoop value fuel i name extended fields := by
  induction fuel with
  | zero =>
    intro i name extended fields h
    have hi : ¬ i < value.length := by omega
    simp [splitLoop, hi]
  | succ fuel ih =>
    intro i name extended fields h
    rw [splitLoop]
    conv_rhs => rw [splitLoop]
    rcases hs : splitStep value i name extended with ⟨name', extended', field, i'⟩
    obtain ⟨_, _, _, _, hidx, _⟩ := splitStep_spec value i name extended _ _ _ _ hs
    dsimp only
    split_ifs with h1 h2
    · apply ih
      omega
    · rfl
    · rfl

/-- The loop keeps the fields it was given. -/
theorem splitLoop_mem_of_mem (value : GoString) (fuel : Nat) :
    ∀ (i : Nat) (name : GoString) (extended : Bool) (fields : List MessageEmbedField)
      (f : MessageEmbedField), f ∈ fields →
      f ∈ (splitLoop value fuel i name extended fields).2.2 := by
  induction fuel with
  | zero => intro i name extended fields f h; exact h
  | succ fuel ih =>
    intro i name extended fields f h
    rw [splitLoop]
    rcases splitStep value i name extended with ⟨name', extended', field, i'⟩
    dsimp only
    split_ifs
    · apply ih
      exact List.mem_append_left _ h
    · exact List.mem_append_left _ h
    · exact h

/-- The labels of the fields the loop adds: the label it was given, or that
label extended when it was not extended before; the same holds of the label the
loop ends with. -/
theorem splitLoop_names (value : GoString) (fuel : Nat) :
    ∀ (i : Nat) (name : GoString) (extended : Bool) (fields : List MessageEmbedField),
      (∀ f ∈ (splitLoop value fuel i name extended fields).2.2,
          f ∈ fields ∨ f.Name = name
            ∨ (extended = false ∧ f.Name = name ++ lit " (extended)"))
        ∧ ((splitLoop value fuel i name extended fields).2.1 = name
          ∨ (extended = false
            ∧ (splitLoop value fuel i name extended fields).2.1 = name ++ lit " (extended)")) := by
  induction fuel with
  | zero =>
    intro i name extended fields
    exact ⟨fun f hf => Or.inl hf, Or.inl rfl⟩
  | succ fuel ih =>
    intro i name extended fields
    rw [splitLoop]
    rcases hs : splitStep value i name extended with ⟨name', extended', field, i'⟩
    obtain ⟨hfield, hstep, _, _, _, _⟩ := splitStep_spec value i name extended _ _ _ _ hs
    dsimp only
    have hname : name' = name ∨ (extended = false ∧ name' = name ++ lit " (extended)") := by
      rcases hstep with ⟨hn, _⟩ | ⟨he, hn, _⟩
      · exact Or.inl hn
      · exact Or.inr ⟨he, hn⟩
    have hnew : ∀ f, f ∈ fields ++ [field] →
        f ∈ fields ∨ f.Name = name
          ∨ (extended = false ∧ f.Name = name ++ lit " (extended)") := by
      intro f hf
      rcases List.mem_append.mp hf with hf | hf
      · exact Or.inl hf
      · rw [List.mem_singleton] at hf
        subst hf
        rw [hfield]
        exact Or.inr hname
    split_ifs with h1 h2
    · obtain ⟨ih1, ih2⟩ := ih (i' + 1024) name' extended' (fields ++ [field])
      refine ⟨fun f hf => ?_, ?_⟩
      · rcases ih1 f hf with hf | hf | ⟨he, hf⟩
        · exact hnew f hf
        · rcases hname with hn | ⟨he, hn⟩
          · exact Or.inr (Or.inl (hf.trans hn))
          · exact Or.inr (Or.inr ⟨he, hf.trans hn⟩)
        · rcases hstep with ⟨hn, he2⟩ | ⟨_, _, he2⟩
          · subst hn he2
            exact Or.inr (Or.inr ⟨he, hf⟩)
          · rw [he2] at he
            cases he
      · rcases ih2 with hf | ⟨he, hf⟩
        · rcases hname with hn | ⟨he, hn⟩
          · exact Or.inl (hf.trans hn)
          · exact Or.inr ⟨he, hf.trans hn⟩
        · rcases hstep with ⟨hn, he2⟩ | ⟨_, _, he2⟩
          · subst hn he2
            exact Or.inr ⟨he, hf⟩
          · rw [he2] at he
            cases he
    · exact ⟨hnew, hname⟩
    · exact ⟨fun f hf => Or.inl hf, Or.inl rfl⟩

/-- The fields the loop adds have values that are not empty. -/
theorem splitLoop_values (value : GoString) (fuel : Nat) :
    ∀ (i : Nat) (name : GoString) (extended : Bool) (fields : List MessageEmbedField),
      ∀ f ∈ (splitLoop value fuel i name extended fields).2.2, f ∈ fields ∨ f.Value ≠ [] := by
  induction fuel with
  | zero => intro i name extended fields f hf; exact Or.inl hf
  | succ fuel ih =>
    intro i name extended fields f
    rw [splitLoop]
    rcases hs : splitStep value i name extended with ⟨name', extended', field, i'⟩
    obtain ⟨_, _, _, _, _, hvalue⟩ := splitStep_spec value i name extended _ _ _ _ hs
    dsimp only
    have hnew : i < value.length → f ∈ fields ++ [field] → f ∈ fields ∨ f.Value ≠ [] := by
      intro hi hf
      rcases List.mem_append.mp hf with hf | hf
      · exact Or.inl hf
      · rw [List.mem_singleton] at hf
        subst hf
        exact Or.inr (hvalue hi)
    split_ifs with h1 h2
    · intro hf
      rcases ih _ _ _ _ f hf with hf | hf
      · exact hnew h1 hf
      · exact Or.inr hf
    · exact hnew h1
    · exact fun hf => Or.inl hf

/-- A value of at most 1024 bytes goes into one field, whole. -/
theorem split_short (name value : GoString) (h : value.length ≤ 1024) :
    split name value = [⟨name, value⟩] := by
  have : ¬ value.length > 1024 := by omega
  simp [split, this]

/-- The labels of the fields of a split value: the label itself, or the label
followed by ` (extended)` once or twice. -/
theorem split_names (name value : GoString) (f : MessageEmbedField) (hf : f ∈ split name value) :
    f.Name = name ∨ f.Name = name ++ lit " (extended)"
      ∨ f.Name = name ++ lit " (extended)" ++ lit " (extended)" := by
  unfold split at hf
  dsimp only at hf
  obtain ⟨hl1, hl2⟩ := splitLoop_names value value.length 1024 name false []
  have hfields : ∀ g ∈ (splitLoop value value.length 1024 name false []).2.2,
      g.Name = name ∨ g.Name = name ++ lit " (extended)"
        ∨ g.Name = name ++ lit " (extended)" ++ lit " (extended)" := by
    intro g hg
    rcases hl1 g hg with hg | hg | hg
    · simp at hg
    · exact Or.inl hg
    · exact Or.inr (Or.inl hg.2)
  split_ifs at hf with h1 h2
  · rcases List.mem_append.mp hf with hf | hf
    · exact hfields f hf
    · rw [List.mem_singleton] at hf
      subst hf
      rcases hl2 with hn | hn
      · exact Or.inr (Or.inl (by rw [hn]))
      · exact Or.inr (Or.inr (by rw [hn.2]))
  · exact hfields f hf
  · rw [List.mem_singleton] at hf
    subst hf
    exact Or.inl rfl

/-- The fields of a split value that is not empty have values that are not
empty. -/
theorem split_values (name value : GoString) (hv : value ≠ []) (f : MessageEmbedField)
    (hf : f ∈ split name value) : f.Value ≠ [] := by
  unfold split at hf
  dsimp only at hf
  have hfields : ∀ g ∈ (splitLoop value value.length 1024 name false []).2.2, g.Value ≠ [] := by
    intro g hg
    rcases splitLoop_values value value.length 1024 name false [] g hg with hg | hg
    · simp at hg
    · exact hg
  split_ifs at hf with h1 h2
  · rcases List.mem_append.mp hf with hf | hf
    · exact hfields f hf
    · rw [List.mem_singleton] at hf
      subst hf
      intro hnil
      have := congrArg List.length hnil
      simp only [List.length_drop, List.length_nil] at this
      omega
  · exact hfields f hf
  · rw [List.mem_singleton] at hf
    subst hf
    exact hv

/-- Among the fields of a split value there is one with the label itself. -/
theorem split_has_name (name value : GoString) : ∃ f ∈ split name value, f.Name = name := by
  by_cases h1 : value.length > 1024
  · rcases hs : splitStep value 1024 name false with ⟨name', extended', field, i'⟩
    obtain ⟨hfield, _, hfirst, _, _, _⟩ := splitStep_spec value 1024 name false _ _ _ _ hs
    have hmem : field ∈ (splitLoop value value.length 1024 name false []).2.2 := by
      obtain ⟨n, hn⟩ : ∃ n, value.length = n + 1 := ⟨value.length - 1, by omega⟩
      have hloop : splitLoop value value.length 1024 name false []
          = splitLoop value (n + 1) 1024 name false [] := by rw [hn]
      have h1' : 1024 < value.length := h1
      rw [hloop, splitLoop, hs]
      simp only [h1', if_true]
      split_ifs
      · apply splitLoop_mem_of_mem
        simp
      · simp
    refine ⟨field, ?_, hfield.trans (hfirst rfl)⟩
    unfold split
    dsimp only
    split_ifs
    · exact List.mem_append_left _ hmem
    · exact hmem
  · exact ⟨⟨name, value⟩, by simp [split, h1], rfl⟩

/-- With the length of the value as fuel, and with any more, the loop of `split`
gives the same result: it ends by itself. -/
theorem splitLoop_enough (value name : GoString) (more : Nat) :
    splitLoop value (value.length + more) 1024 name false []
      = splitLoop value value.length 1024 name false [] := by
  induction more with
  | zero => rfl
  | succ more ih =>
    have hfuel : value.length ≤ 1024 + (value.length + more) * 1023 := by omega
    rw [show value.length + (more + 1) = (value.length + more) + 1 from rfl,
      splitLoop_fuel value (value.length + more) 1024 name false [] hfuel, ih]

/-- No call, no field. -/
theorem added_nil : added [] = [] := rfl

/-- The fields of a first call come before those of the later calls. -/
theorem added_cons (call : MessageEmbedField) (calls : List MessageEmbedField) :
    added (call :: calls) = split call.Name call.Value ++ added calls := by
  simp [added]

/-- The fields of two sequences of calls, one after the other. -/
theorem added_append (calls₁ calls₂ : List MessageEmbedField) :
    added (calls₁ ++ calls₂) = added calls₁ ++ added calls₂ := by
  simp [added]

/-- A field that was added comes from the split of one of the calls. -/
theorem mem_added (calls : List MessageEmbedField) (f : MessageEmbedField) :
    f ∈ added calls ↔ ∃ call ∈ calls, f ∈ split call.Name call.Value := by
  simp [added]

/-- Calls whose values have at most 1024 bytes add one field each, unchanged. -/
theorem added_short (calls : List MessageEmbedField)
    (h : ∀ call ∈ calls, call.Value.length ≤ 1024) : added calls = calls := by
  induction calls with
  | nil => rfl
  | cons call calls ih =>
    rw [added_cons, split_short _ _ (h call (List.mem_cons_self _ _)),
      ih fun c hc => h c (List.mem_cons_of_mem _ hc)]
    rfl

/-- A description of at most 2048 bytes is kept whole. -/
theorem cutDescription_short (description : GoString) (h : description.length ≤ 2048) :
    cutDescription description = description := by
  have : ¬ description.length > 2048 := by omega
  simp [cutDescription, this]

/-- The description that is kept is the first 2048 bytes. -/
theorem cutDescription_eq_take (description : GoString) :
    cutDescription description = description.take 2048 := by
  unfold cutDescription
  split_ifs with h
  · rfl
  · rw [List.take_of_length_le (by omega)]

/-- A text written in UTF-8 has at most four bytes for each character. -/
theorem length_lit_le (s : String) : (lit s).length ≤ 4 * s.length := by
  have h : ∀ cs : List Char,
      (cs.flatMap String.utf8EncodeChar).length ≤ 4 * cs.length := by
    intro cs
    induction cs with
    | nil => simp
    | cons c cs ih =>
      have hc : c.utf8Size ≤ 4 := Char.utf8Size_le_four c
      simp only [List.flatMap_cons, List.length_append, String.length_utf8EncodeChar,
        List.length_cons]
      omega
  exact h s.data

/-- The decimal text of a Go `int` has at most 1024 bytes. -/
theorem length_Sprintf_d_le (n : Nat) (h : n < 2 ^ 63) : (fmt.Sprintf_d n).length ≤ 1024 := by
  have h10 : n < 10 ^ 19 := lt_of_lt_of_le h (by norm_num)
  have hr := Nat.repr_length n 19 (by decide) h10
  have hl := length_lit_le (Nat.repr n)
  unfold fmt.Sprintf_d
  omega

/-! ## The formatters return the messages as records -/

/-- The function `handlePush` returns the record `pushMessage` when push messages
are switched on. -/
theorem handlePush_built (J : JSON) (cfg : env.Config) (body : List UInt8) (ev : RepoPushEvent)
    (hskip : cfg.SkipRepoPushMessages = false) (hdec : J.unmarshalRepoPushEvent body = .ok ev) :
    handlePush J cfg body = (ev.Repository.Name, some (pushMessage ev), none) := by
  simp only [handlePush, pushMessage, pushCalls, hskip, hdec]
  cases ev.Push.Changes <;>
    (split_ifs <;> first | contradiction |
      simp [embed.NewEmbed, embed.Embed.SetAuthor, embed.Embed.SetTitle, embed.Embed.SetColor,
      embed.Embed.AddField, embed.Embed.SetDescription, embed.Embed.SetURL, added_cons, added_nil,
      added_append])

/-- When `handlePush` returns a message, push messages are switched on, the body
decoded, and the message is the record `pushMessage` of the event. -/
theorem handlePush_some (J : JSON) (cfg : env.Config) (body : List UInt8) (m : MessageEmbed)
    (h : (handlePush J cfg body).2.1 = some m) :
    ∃ ev, cfg.SkipRepoPushMessages = false ∧ J.unmarshalRepoPushEvent body = .ok ev
      ∧ handlePush J cfg body = (ev.Repository.Name, some m, none) ∧ m = pushMessage ev := by
  cases hskip : cfg.SkipRepoPushMessages with
  | true => simp [handlePush, hskip] at h
  | false =>
    cases hdec : J.unmarshalRepoPushEvent body with
    | error err => simp [handlePush, hskip, hdec] at h
    | ok ev =>
      have hb := handlePush_built J cfg body ev hskip hdec
      rw [hb] at h ⊢
      have hm : pushMessage ev = m := by simpa using h
      exact ⟨ev, rfl, rfl, by rw [hm], hm.symm⟩

/-- The function `commitStatusUpdated` returns the record `commitStatusMessage` for
an event with a status name. -/
theorem commitStatusUpdated_built (J : JSON) (body : List UInt8)
    (ev : RepoCommitStatusUpdatedEvent)
    (hdec : J.unmarshalRepoCommitStatusUpdatedEvent body = .ok ev)
    (hg1 : ev.CommitStatus.Name ≠ []) :
    commitStatusUpdated J body = (ev.Repository.Name, some (commitStatusMessage ev), none) := by
  simp only [commitStatusUpdated, commitStatusMessage, commitStatusCalls, hdec, hg1, if_false]
  split_ifs <;>
    simp [embed.NewEmbed, embed.Embed.SetAuthor, embed.Embed.SetTitle, embed.Embed.SetColor,
      embed.Embed.AddField, embed.Embed.SetDescription, embed.Embed.SetURL, added_cons, added_nil,
      added_append]

/-- When `commitStatusUpdated` returns a message, the body decoded into an event
with a status name, and the message is the record `commitStatusMessage` of it. -/
theorem commitStatusUpdated_some (J : JSON) (body : List UInt8) (m : MessageEmbed)
    (h : (commitStatusUpdated J body).2.1 = some m) :
    ∃ ev, J.unmarshalRepoCommitStatusUpdatedEvent body = .ok ev ∧ ev.CommitStatus.Name ≠ []
      ∧ commitStatusUpdated J body = (ev.Repository.Name, some m, none)
      ∧ m = commitStatusMessage ev := by
  cases hdec : J.unmarshalRepoCommitStatusUpdatedEvent body with
  | error err => simp [commitStatusUpdated, hdec] at h
  | ok ev =>
    by_cases hg : ev.CommitStatus.Name = []
    · simp [commitStatusUpdated, hdec, hg] at h
    · have hb := commitStatusUpdated_built J body ev hdec hg
      rw [hb] at h ⊢
      have hm : commitStatusMessage ev = m := by simpa using h
      exact ⟨ev, rfl, hg, by rw [hm], hm.symm⟩

/-- The function `pullRequestCreated` returns the record `createdMessage` for an event that
passes its guard. -/
theorem pullRequestCreated_built (J : JSON) (body : List UInt8) (ev : PullRequestCreatedEvent)
    (hdec : J.unmarshalPullRequestCreatedEvent body = .ok ev)
    (hg1 : ev.Actor.DisplayName ≠ []) (hg2 : ev.PullRequest.Title ≠ []) :
    pullRequestCreated J body = (ev.Repository.Name, some (createdMessage ev), none) := by
  simp only [pullRequestCreated, createdMessage, createdCalls, hdec, hg1, hg2, or_self, if_false]
  split_ifs <;>
    simp [embed.NewEmbed, embed.Embed.SetAuthor, embed.Embed.SetTitle, embed.Embed.SetColor,
      embed.Embed.AddField, embed.Embed.SetDescription, embed.Embed.SetURL, added_cons, added_nil,
      added_append]

/-- When `pullRequestCreated` returns a message, the body decoded into an event that
passes the guard, and the message is the record `createdMessage` of that event. -/
theorem pullRequestCreated_some (J : JSON) (body : List UInt8) (m : MessageEmbed)
    (h : (pullRequestCreated J body).2.1 = some m) :
    ∃ ev, J.unmarshalPullRequestCreatedEvent body = .ok ev
      ∧ ev.Actor.DisplayName ≠ [] ∧ ev.PullRequest.Title ≠ []
      ∧ pullRequestCreated J body = (ev.Repository.Name, some m, none)
      ∧ m = createdMessage ev := by
  cases hdec : J.unmarshalPullRequestCreatedEvent body with
  | error err => simp [pullRequestCreated, hdec] at h
  | ok ev =>
    by_cases hg : ev.Actor.DisplayName = [] ∨ ev.PullRequest.Title = []
    · simp [pullRequestCreated, hdec, hg] at h
    · have hg2 := not_or.mp hg
      have hb := pullRequestCreated_built J body ev hdec hg2.1 hg2.2
      rw [hb] at h ⊢
      have hm : createdMessage ev = m := by simpa using h
      exact ⟨ev, rfl, hg2.1, hg2.2, by rw [hm], hm.symm⟩

/-- The function `pullRequestUpdated` returns the record `updatedMessage` for an event that
passes its guard. -/
theorem pullRequestUpdated_built (J : JSON) (body : List UInt8) (ev : PullRequestUpdatedEvent)
    (hdec : J.unmarshalPullRequestUpdatedEvent body = .ok ev)
    (hg1 : ev.Actor.DisplayName ≠ []) (hg2 : ev.PullRequest.Title ≠ []) :
    pullRequestUpdated J body = (ev.Repository.Name, some (updatedMessage ev), none) := by
  simp only [pullRequestUpdated, updatedMessage, updatedCalls, hdec, hg1, hg2, or_self, if_false]
  generalize (ev.PullRequest.Participants.map fun reviewer =>
    if reviewer.Approved then lit "**✓**" ++ reviewer.User.DisplayName
    else lit "**x **" ++ reviewer.User.DisplayName) = lines
  split_ifs <;>
    simp [embed.NewEmbed, embed.Embed.SetAuthor, embed.Embed.SetTitle, embed.Embed.SetColor,
      embed.Embed.AddField, embed.Embed.SetDescription, embed.Embed.SetURL, added_cons, added_nil,
      added_append]

/-- When `pullRequestUpdated` returns a message, the body decoded into an event that
passes the guard, and the message is the record `updatedMessage` of that event. -/
theorem pullRequestUpdated_some (J : JSON) (body : List UInt8) (m : MessageEmbed)
    (h : (pullRequestUpdated J body).2.1 = some m) :
    ∃ ev, J.unmarshalPullRequestUpdatedEvent body = .ok ev
      ∧ ev.Actor.DisplayName ≠ [] ∧ ev.PullRequest.Title ≠ []
      ∧ pullRequestUpdated J body = (ev.Repository.Name, some m, none)
      ∧ m = updatedMessage ev := by
  cases hdec : J.unmarshalPullRequestUpdatedEvent body with
  | error err => simp [pullRequestUpdated, hdec] at h
  | ok ev =>
    by_cases hg : ev.Actor.DisplayName = [] ∨ ev.PullRequest.Title = []
    · simp [pullRequestUpdated, hdec, hg] at h
    · have hg2 := not_or.mp hg
      have hb := pullRequestUpdated_built J body ev hdec hg2.1 hg2.2
      rw [hb] at h ⊢
      have hm : updatedMessage ev = m := by simpa using h
      exact ⟨ev, rfl, hg2.1, hg2.2, by rw [hm], hm.symm⟩

/-- The function `pullRequestApproved` returns the record `approvedMessage` for an event that
passes its guard. -/
theorem pullRequestApproved_built (J : JSON) (body : List UInt8) (ev : PullRequestApprovedEvent)
    (hdec : J.unmarshalPullRequestApprovedEvent body = .ok ev)
    (hg1 : ev.Actor.DisplayName ≠ []) (hg2 : ev.PullRequest.Title ≠ []) :
    pullRequestApproved J body = (ev.Repository.Name, some (approvedMessage ev), none) := by
  simp only [pullRequestApproved, approvedMessage, approvedCalls, hdec, hg1, hg2, or_self, if_false]
  split_ifs <;>
    simp [embed.NewEmbed, embed.Embed.SetAuthor, embed.Embed.SetTitle, embed.Embed.SetColor,
      embed.Embed.AddField, embed.Embed.SetDescription, embed.Embed.SetURL, added_cons, added_nil,
      added_append]

/-- When `pullRequestApproved` returns a message, the body decoded into an event that
passes the guard, and the message is the record `approvedMessage` of that event. -/
theorem pullRequestApproved_some (J : JSON) (body : List UInt8) (m : MessageEmbed)
    (h : (pullRequestApproved J body).2.1 = some m) :
    ∃ ev, J.unmarshalPullRequestApprovedEvent body = .ok ev
      ∧ ev.Actor.DisplayName ≠ [] ∧ ev.PullRequest.Title ≠ []
      ∧ pullRequestApproved J body = (ev.Repository.Name, some m, none)
      ∧ m = approvedMessage ev := by
  cases hdec : J.unmarshalPullRequestApprovedEvent body with
  | error err => simp [pullRequestApproved, hdec] at h
  | ok ev =>
    by_cases hg : ev.Actor.DisplayName = [] ∨ ev.PullRequest.Title = []
    · simp [pullRequestApproved, hdec, hg] at h
    · have hg2 := not_or.mp hg
      have hb := pullRequestApproved_built J body ev hdec hg2.1 hg2.2
      rw [hb] at h ⊢
      have hm : approvedMessage ev = m := by simpa using h
      exact ⟨ev, rfl, hg2.1, hg2.2, by rw [hm], hm.symm⟩

/-- The function `pullRequestUnapproved` returns the record `unapprovedMessage` for an event that
passes its guard. -/
theorem pullRequestUnapproved_built (J : JSON) (body : List UInt8) (ev : PullRequestApprovedEvent)
    (hdec : J.unmarshalPullRequestApprovedEvent body = .ok ev)
    (hg1 : ev.Actor.DisplayName ≠ []) (hg2 : ev.PullRequest.Title ≠ []) :
    pullRequestUnapproved J body = (ev.Repository.Name, some (unapprovedMessage ev), none) := by
  simp only [pullRequestUnapproved, unapprovedMessage, unapprovedCalls, hdec, hg1, hg2, or_self, if_false]
  split_ifs <;>
    simp [embed.NewEmbed, embed.Embed.SetAuthor, embed.Embed.SetTitle, embed.Embed.SetColor,
      embed.Embed.AddField, embed.Embed.SetDescription, embed.Embed.SetURL, added_cons, added_nil,
      added_append]

/-- When `pullRequestUnapproved` returns a message, the body decoded into an event that
passes the guard, and the message is the record `unapprovedMessage` of that event. -/
theorem pullRequestUnapproved_some (J : JSON) (body : List UInt8) (m : MessageEmbed)
    (h : (pullRequestUnapproved J body).2.1 = some m) :
    ∃ ev, J.unmarshalPullRequestApprovedEvent body = .ok ev
      ∧ ev.Actor.DisplayName ≠ [] ∧ ev.PullRequest.Title ≠ []
      ∧ pullRequestUnapproved J body = (ev.Repository.Name, some m, none)
      ∧ m = unapprovedMessage ev := by
  cases hdec : J.unmarshalPullRequestApprovedEvent body with
  | error err => simp [pullRequestUnapproved, hdec] at h
  | ok ev =>
    by_cases hg : ev.Actor.DisplayName = [] ∨ ev.PullRequest.Title = []
    · simp [pullRequestUnapproved, hdec, hg] at h
    · have hg2 := not_or.mp hg
      have hb := pullRequestUnapproved_built J body ev hdec hg2.1 hg2.2
      rw [hb] at h ⊢
      have hm : unapprovedMessage ev = m := by simpa using h
      exact ⟨ev, rfl, hg2.1, hg2.2, by rw [hm], hm.symm⟩

/-- The function `pullRequestFulfilled` returns the record `mergedMessage` for an event that
passes its guard. -/
theorem pullRequestFulfilled_built (J : JSON) (body : List UInt8) (ev : PullRequestMergedEvent)
    (hdec : J.unmarshalPullRequestMergedEvent body = .ok ev)
    (hg1 : ev.PullRequest.ClosedBy.DisplayName ≠ []) (hg2 : ev.PullRequest.Title ≠ []) :
    pullRequestFulfilled J body = (ev.Repository.Name, some (mergedMessage ev), none) := by
  simp only [pullRequestFulfilled, mergedMessage, mergedCalls, hdec, hg1, hg2, or_self, if_false]
  generalize (ev.PullRequest.Participants.map fun reviewer =>
    if reviewer.Approved then lit "**✓**" ++ reviewer.User.DisplayName
    else lit "**x **" ++ reviewer.User.DisplayName) = lines
  split_ifs <;>
    simp [embed.NewEmbed, embed.Embed.SetAuthor, embed.Embed.SetTitle, embed.Embed.SetColor,
      embed.Embed.AddField, embed.Embed.SetDescription, embed.Embed.SetURL, added_cons, added_nil,
      added_append]

/-- When `pullRequestFulfilled` returns a message, the body decoded into an event that
passes the guard, and the message is the record `mergedMessage` of that event. -/
theorem pullRequestFulfilled_some (J : JSON) (body : List UInt8) (m : MessageEmbed)
    (h : (pullRequestFulfilled J body).2.1 = some m) :
    ∃ ev, J.unmarshalPullRequestMergedEvent body = .ok ev
      ∧ ev.PullRequest.ClosedBy.DisplayName ≠ [] ∧ ev.PullRequest.Title ≠ []
      ∧ pullRequestFulfilled J body = (ev.Repository.Name, some m, none)
      ∧ m = mergedMessage ev := by
  cases hdec : J.unmarshalPullRequestMergedEvent body with
  | error err => simp [pullRequestFulfilled, hdec] at h
  | ok ev =>
    by_cases hg : ev.PullRequest.ClosedBy.DisplayName = [] ∨ ev.PullRequest.Title = []
    · simp [pullRequestFulfilled, hdec, hg] at h
    · have hg2 := not_or.mp hg
      have hb := pullRequestFulfilled_built J body ev hdec hg2.1 hg2.2
      rw [hb] at h ⊢
      have hm : mergedMessage ev = m := by simpa using h
      exact ⟨ev, rfl, hg2.1, hg2.2, by rw [hm], hm.symm⟩

/-- The function `pullRequestRejected` returns the record `rejectedMessage` for an event that
passes its guard. -/
theorem pullRequestRejected_built (J : JSON) (body : List UInt8) (ev : PullRequestMergedEvent)
    (hdec : J.unmarshalPullRequestMergedEvent body = .ok ev)
    (hg1 : ev.PullRequest.ClosedBy.DisplayName ≠ []) (hg2 : ev.PullRequest.Title ≠ []) :
    pullRequestRejected J body = (ev.Repository.Name, some (rejectedMessage ev), none) := by
  simp only [pullRequestRejected, rejectedMessage, rejectedCalls, hdec, hg1, hg2, or_self, if_false]
  split_ifs <;>
    simp [embed.NewEmbed, embed.Embed.SetAuthor, embed.Embed.SetTitle, embed.Embed.SetColor,
      embed.Embed.AddField, embed.Embed.SetDescription, embed.Embed.SetURL, added_cons, added_nil,
      added_append]

/-- When `pullRequestRejected` returns a message, the body decoded into an event that
passes the guard, and the message is the record `rejectedMessage` of that event. -/
theorem pullRequestRejected_some (J : JSON) (body : List UInt8) (m : MessageEmbed)
    (h : (pullRequestRejected J body).2.1 = some m) :
    ∃ ev, J.unmarshalPullRequestMergedEvent body = .ok ev
      ∧ ev.PullRequest.ClosedBy.DisplayName ≠ [] ∧ ev.PullRequest.Title ≠ []
      ∧ pullRequestRejected J body = (ev.Repository.Name, some m, none)
      ∧ m = rejectedMessage ev := by
  cases hdec : J.unmarshalPullRequestMergedEvent body with
  | error err => simp [pullRequestRejected, hdec] at h
  | ok ev =>
    by_cases hg : ev.PullRequest.ClosedBy.DisplayName = [] ∨ ev.PullRequest.Title = []
    · simp [pullRequestRejected, hdec, hg] at h
    · have hg2 := not_or.mp hg
      have hb := pullRequestRejected_built J body ev hdec hg2.1 hg2.2
      rw [hb] at h ⊢
      have hm : rejectedMessage ev = m := by simpa using h
      exact ⟨ev, rfl, hg2.1, hg2.2, by rw [hm], hm.symm⟩

/-- The function `pullRequestCommentCreated` returns the record `commentCreatedMessage` for an event that
passes its guard. -/
theorem pullRequestCommentCreated_built (J : JSON) (body : List UInt8) (ev : PullRequestCommentCreatedEvent)
    (hdec : J.unmarshalPullRequestCommentCreatedEvent body = .ok ev)
    (hg1 : ev.Comment.User.DisplayName ≠ []) (hg2 : ev.PullRequest.Title ≠ []) :
    pullRequestCommentCreated J body = (ev.Repository.Name, some (commentCreatedMessage ev), none) := by
  simp only [pullRequestCommentCreated, commentCreatedMessage, commentCreatedCalls, hdec, hg1, hg2, or_self, if_false]
  split_ifs <;>
    simp [embed.NewEmbed, embed.Embed.SetAuthor, embed.Embed.SetTitle, embed.Embed.SetColor,
      embed.Embed.AddField, embed.Embed.SetDescription, embed.Embed.SetURL, added_cons, added_nil,
      added_append]

/-- When `pullRequestCommentCreated` returns a message, the body decoded into an event that
passes the guard, and the message is the record `commentCreatedMessage` of that event. -/
theorem pullRequestCommentCreated_some (J : JSON) (body : List UInt8) (m : MessageEmbed)
    (h : (pullRequestCommentCreated J body).2.1 = some m) :
    ∃ ev, J.unmarshalPullRequestCommentCreatedEvent body = .ok ev
      ∧ ev.Comment.User.DisplayName ≠ [] ∧ ev.PullRequest.Title ≠ []
      ∧ pullRequestCommentCreated J body = (ev.Repository.Name, some m, none)
      ∧ m = commentCreatedMessage ev := by
  cases hdec : J.unmarshalPullRequestCommentCreatedEvent body with
  | error err => simp [pullRequestCommentCreated, hdec] at h
  | ok ev =>
    by_cases hg : ev.Comment.User.DisplayName = [] ∨ ev.PullRequest.Title = []
    · simp [pullRequestCommentCreated, hdec, hg] at h
    · have hg2 := not_or.mp hg
      have hb := pullRequestCommentCreated_built J body ev hdec hg2.1 hg2.2
      rw [hb] at h ⊢
      have hm : commentCreatedMessage ev = m := by simpa using h
      exact ⟨ev, rfl, hg2.1, hg2.2, by rw [hm], hm.symm⟩

/-- The function `pullRequestCommentUpdated` returns the record `commentUpdatedMessage` for an event that
passes its guard. -/
theorem pullRequestCommentUpdated_built (J : JSON) (body : List UInt8) (ev : PullRequestCommentCreatedEvent)
    (hdec : J.unmarshalPullRequestCommentCreatedEvent body = .ok ev)
    (hg1 : ev.Comment.User.DisplayName ≠ []) (hg2 : ev.PullRequest.Title ≠ []) :
    pullRequestCommentUpdated J body = (ev.Repository.Name, some (commentUpdatedMessage ev), none) := by
  simp only [pullRequestCommentUpdated, commentUpdatedMessage, commentUpdatedCalls, hdec, hg1, hg2, or_self, if_false]
  split_ifs <;>
    simp [embed.NewEmbed, embed.Embed.SetAuthor, embed.Embed.SetTitle, embed.Embed.SetColor,
      embed.Embed.AddField, embed.Embed.SetDescription, embed.Embed.SetURL, added_cons, added_nil,
      added_append]

/-- When `pullRequestCommentUpdated` returns a message, the body decoded into an event that
passes the guard, and the message is the record `commentUpdatedMessage` of that event. -/
theorem pullRequestCommentUpdated_some (J : JSON) (body : List UInt8) (m : MessageEmbed)
    (h : (pullRequestCommentUpdated J body).2.1 = some m) :
    ∃ ev, J.unmarshalPullRequestCommentCreatedEvent body = .ok ev
      ∧ ev.Comment.User.DisplayName ≠ [] ∧ ev.PullRequest.Title ≠ []
      ∧ pullRequestCommentUpdated J body = (ev.Repository.Name, some m, none)
      ∧ m = commentUpdatedMessage ev := by
  cases hdec : J.unmarshalPullRequestCommentCreatedEvent body with
  | error err => simp [pullRequestCommentUpdated, hdec] at h
  | ok ev =>
    by_cases hg : ev.Comment.User.DisplayName = [] ∨ ev.PullRequest.Title = []
    · simp [pullRequestCommentUpdated, hdec, hg] at h
    · have hg2 := not_or.mp hg
      have hb := pullRequestCommentUpdated_built J body ev hdec hg2.1 hg2.2
      rw [hb] at h ⊢
      have hm : commentUpdatedMessage ev = m := by simpa using h
      exact ⟨ev, rfl, hg2.1, hg2.2, by rw [hm], hm.symm⟩

/-- The function `pullRequestCommentDeleted` returns the record `commentDeletedMessage` for an event that
passes its guard. -/
theorem pullRequestCommentDeleted_built (J : JSON) (body : List UInt8) (ev : PullRequestCommentCreatedEvent)
    (hdec : J.unmarshalPullRequestCommentCreatedEvent body = .ok ev)
    (hg1 : ev.Comment.User.DisplayName ≠ []) (hg2 : ev.PullRequest.Title ≠ []) :
    pullRequestCommentDeleted J body = (ev.Repository.Name, some (commentDeletedMessage ev), none) := by
  simp only [pullRequestCommentDeleted, commentDeletedMessage, commentDeletedCalls, hdec, hg1, hg2, or_self, if_false]
  split_ifs <;>
    simp [embed.NewEmbed, embed.Embed.SetAuthor, embed.Embed.SetTitle, embed.Embed.SetColor,
      embed.Embed.AddField, embed.Embed.SetDescription, embed.Embed.SetURL, added_cons, added_nil,
      added_append]

/-- When `pullRequestCommentDeleted` returns a message, the body decoded into an event that
passes the guard, and the message is the record `commentDeletedMessage` of that event. -/
theorem pullRequestCommentDeleted_some (J : JSON) (body : List UInt8) (m : MessageEmbed)
    (h : (pullRequestCommentDeleted J body).2.1 = some m) :
    ∃ ev, J.unmarshalPullRequestCommentCreatedEvent body = .ok ev
      ∧ ev.Comment.User.DisplayName ≠ [] ∧ ev.PullRequest.Title ≠ []
      ∧ pullRequestCommentDeleted J body = (ev.Repository.Name, some m, none)
      ∧ m = commentDeletedMessage ev := by
  cases hdec : J.unmarshalPullRequestCommentCreatedEvent body with
  | error err => simp [pullRequestCommentDeleted, hdec] at h
  | ok ev =>
    by_cases hg : ev.Comment.User.DisplayName = [] ∨ ev.PullRequest.Title = []
    · simp [pullRequestCommentDeleted, hdec, hg] at h
    · have hg2 := not_or.mp hg
      have hb := pullRequestCommentDeleted_built J body ev hdec hg2.1 hg2.2
      rw [hb] at h ⊢
      have hm : commentDeletedMessage ev = m := by simpa using h
      exact ⟨ev, rfl, hg2.1, hg2.2, by rw [hm], hm.symm⟩

/-- A message comes from the formatter of one of the eleven kinds. -/
theorem Handle_some_kind (J : JSON) (cfg : env.Config) (eventType : GoString)
    (body : List UInt8) (m : MessageEmbed) (h : (Handle J cfg eventType body).2.1 = some m) :
    ∃ k : Kind, eventType = k.key ∧ (k.formatter J cfg body).2.1 = some m := by
  by_cases hk : ∃ k : Kind, eventType = k.key
  · obtain ⟨k, rfl⟩ := hk
    exact ⟨k, rfl, by rw [← Handle_of_key]; exact h⟩
  · have hn : ∀ k : Kind, eventType ≠ k.key := fun k hek => hk ⟨k, hek⟩
    rw [Handle_of_not_key J cfg eventType body hn] at h
    simp at h

/-! ## Unrecognized kinds, decode failures, guards -/

/-- C1. For every event-type string that is none of the eleven keys of the
switch of `Handle`, and for every body and every behaviour of the decoders on
it, `Handle` returns the empty routing key, no message and no error. -/
theorem Handle_unrecognized_kind (J : JSON) (cfg : env.Config) (eventType : GoString)
    (body : List UInt8) (h : ∀ k : Kind, eventType ≠ k.key) :
    Handle J cfg eventType body = ([], none, none) :=
  Handle_of_not_key J cfg eventType body h

/-- C1 at the event type `issue:created`, on a body that does not decode and on
one that does. -/
theorem Handle_unrecognized_kind_witness :
    (∀ k : Kind, lit "issue:created" ≠ k.key)
      ∧ Handle JSON.failing {} (lit "issue:created") [] = ([], none, none)
      ∧ Handle JSON.zero {} (lit "issue:created") emptyObject = ([], none, none) :=
  have h : ∀ k : Kind, lit "issue:created" ≠ k.key := by intro k; cases k <;> decide
  ⟨h, Handle_unrecognized_kind JSON.failing {} (lit "issue:created") [] h,
    Handle_unrecognized_kind JSON.zero {} (lit "issue:created") emptyObject h⟩

/-- C2, as stated, fails: a body that no event struct accepts gives no error
under an unrecognized event type, nor under `repo:push` when push messages are
switched off. -/
theorem malformed_body_without_error :
    JSON.failing.unmarshalRepoPushEvent [] = .error unexpectedEnd
      ∧ Handle JSON.failing { SkipRepoPushMessages := true } (lit "repo:push") []
          = ([], none, none)
      ∧ Handle JSON.failing {} (lit "issue:created") [] = ([], none, none) := by
  decide

/-- C2, amended. For each of the eleven kinds (for push: with push messages
switched on), a body on which the decoder of the kind fails with `err` makes
`Handle` return the empty routing key, no message and the error `err`. -/
theorem Handle_decode_failure (J : JSON) (cfg : env.Config) (k : Kind) (body : List UInt8)
    (err : Error) (hpush : k = .push → cfg.SkipRepoPushMessages = false)
    (hdec : k.decode J body = .error err) :
    Handle J cfg k.key body = ([], none, some err) := by
  rw [Handle_of_key]
  cases formatter_outcome J cfg k body with
  | skipped hk hskip _ => simp [hpush hk] at hskip
  | failed err2 _ hdec2 hres =>
    rw [hdec] at hdec2
    cases hdec2
    exact hres
  | suppressed v _ hdec2 _ _ => rw [hdec] at hdec2; cases hdec2
  | built v m _ hdec2 _ _ => rw [hdec] at hdec2; cases hdec2

/-- C2 amended, at an empty body sent as `pullrequest:approved`. -/
theorem Handle_decode_failure_witness :
    Kind.approved.decode JSON.failing [] = .error unexpectedEnd
      ∧ Handle JSON.failing {} (lit "pullrequest:approved") []
          = ([], none, some unexpectedEnd) :=
  ⟨by decide,
    Handle_decode_failure JSON.failing {} .approved [] unexpectedEnd (by decide) (by decide)⟩

/-- C3, as stated, fails for push: the empty JSON object decodes into a push
event whose actor has an empty display name, and `Handle` still returns a
message. -/
theorem push_without_actor_has_message :
    JSON.zero.unmarshalRepoPushEvent emptyObject = .ok {}
      ∧ ({} : RepoPushEvent).Actor.DisplayName = []
      ∧ (Handle JSON.zero {} (lit "repo:push") emptyObject).2.1.isSome = true
      ∧ (Handle JSON.zero {} (lit "repo:push") emptyObject).2.2 = none := by
  decide

/-- C3, amended. For every kind, a body that decodes into a payload in which a
field of the guard of the kind is empty makes `Handle` return the empty routing
key, no message and no error.  The guard fields are: the commit-status name;
the actor display name and the pull-request title (created, updated, approved,
unapproved); the display name of `ClosedBy` and the title (fulfilled,
rejected); the display name of the comment author and the title (the three
comment kinds).  Push has no guard field. -/
theorem Handle_guard_field_empty (J : JSON) (cfg : env.Config) (k : Kind) (body : List UInt8)
    (v : Payload) (hdec : k.decode J body = .ok v) (hguard : [] ∈ v.guard) :
    Handle J cfg k.key body = ([], none, none) := by
  rw [Handle_of_key]
  cases formatter_outcome J cfg k body with
  | skipped _ _ hres => exact hres
  | failed err _ hdec2 _ => rw [hdec] at hdec2; cases hdec2
  | suppressed v2 _ _ _ hres => exact hres
  | built v2 m _ hdec2 hguard2 _ =>
    rw [hdec] at hdec2
    cases hdec2
    exact absurd hguard hguard2

/-- C3 amended, at a merged pull request with a title and nobody who closed
it. -/
theorem Handle_guard_field_empty_witness :
    Kind.fulfilled.decode (JSON.merged { PullRequest := { Title := lit "Fix" } }) payloadBody
        = .ok ⟨[], [[], lit "Fix"]⟩
      ∧ ([] : GoString) ∈ (⟨[], [[], lit "Fix"]⟩ : Payload).guard
      ∧ Handle (JSON.merged { PullRequest := { Title := lit "Fix" } }) {}
          (lit "pullrequest:fulfilled") payloadBody = ([], none, none) :=
  ⟨by decide, by decide,
    Handle_guard_field_empty (JSON.merged { PullRequest := { Title := lit "Fix" } }) {}
      .fulfilled payloadBody ⟨[], [[], lit "Fix"]⟩ (by decide) (by decide)⟩

/-! ## Shape of the results -/

/-- C4, as stated, fails: the empty JSON object sent as `repo:push` gives a
message together with the empty routing key, the repository name of the
payload. -/
theorem message_with_empty_routing_key :
    (handlePush JSON.zero {} emptyObject).2.1.isSome = true
      ∧ (handlePush JSON.zero {} emptyObject).1 = [] := by
  decide

/-- C4, amended. For every formatter and every body the result has one of two
shapes: the routing key is empty and the message is absent; or the message is
present, the error is absent and the routing key is the repository name of the
decoded payload.  In particular a non-empty routing key never comes without a
message. -/
theorem formatter_all_or_nothing (J : JSON) (cfg : env.Config) (k : Kind)
    (body : List UInt8) :
    ((k.formatter J cfg body).1 = [] ∧ (k.formatter J cfg body).2.1 = none)
      ∨ ∃ v m, k.decode J body = .ok v
          ∧ k.formatter J cfg body = (v.repositoryName, some m, none) := by
  cases formatter_outcome J cfg k body with
  | skipped _ _ hres => exact Or.inl (by simp [hres])
  | failed err _ _ hres => exact Or.inl (by simp [hres])
  | suppressed v _ _ _ hres => exact Or.inl (by simp [hres])
  | built v m _ hdec _ hres => exact Or.inr ⟨v, m, hdec, hres⟩

/-- C5, as stated, fails: a commit-status event with a status name and no
repository name passes the guard and is returned with the empty routing key. -/
theorem guard_passed_with_empty_routing_key :
    Kind.commitStatus.decode (JSON.commitStatus { CommitStatus := { Name := lit "build" } })
        payloadBody = .ok ⟨[], [lit "build"]⟩
      ∧ ([] : GoString) ∉ [lit "build"]
      ∧ (Handle (JSON.commitStatus { CommitStatus := { Name := lit "build" } }) {}
          (lit "repo:commit_status_updated") payloadBody).1 = []
      ∧ (Handle (JSON.commitStatus { CommitStatus := { Name := lit "build" } }) {}
          (lit "repo:commit_status_updated") payloadBody).2.1.isSome = true := by
  decide

/-- C5, amended. For each of the eleven kinds (for push: with push messages
switched on), a body that decodes into a payload whose guard fields are all
non-empty makes `Handle` return a message and no error, with the repository
name of the payload as routing key; the routing key is non-empty exactly when
that name is. -/
theorem Handle_guard_fields_populated (J : JSON) (cfg : env.Config) (k : Kind)
    (body : List UInt8) (v : Payload) (hpush : k = .push → cfg.SkipRepoPushMessages = false)
    (hdec : k.decode J body = .ok v) (hguard : [] ∉ v.guard) :
    (∃ m, Handle J cfg k.key body = (v.repositoryName, some m, none))
      ∧ ((Handle J cfg k.key body).1 ≠ [] ↔ v.repositoryName ≠ []) := by
  rw [Handle_of_key]
  cases formatter_outcome J cfg k body with
  | skipped hk hskip _ => simp [hpush hk] at hskip
  | failed err _ hdec2 _ => rw [hdec] at hdec2; cases hdec2
  | suppressed v2 _ hdec2 hguard2 _ =>
    rw [hdec] at hdec2
    cases hdec2
    exact absurd hguard2 hguard
  | built v2 m _ hdec2 _ hres =>
    rw [hdec] at hdec2
    cases hdec2
    exact ⟨⟨m, hres⟩, by simp [hres]⟩

/-- C5 amended, at a commit-status event of the repository `api`. -/
theorem Handle_guard_fields_populated_witness :
    (∃ m, Handle
        (JSON.commitStatus
          { CommitStatus := { Name := lit "build" }, Repository := { Name := lit "api" } })
        {} (lit "repo:commit_status_updated") payloadBody = (lit "api", some m, none))
      ∧ (lit "api" ≠ []) :=
  have h := Handle_guard_fields_populated
    (JSON.commitStatus
      { CommitStatus := { Name := lit "build" }, Repository := { Name := lit "api" } })
    {} .commitStatus payloadBody ⟨lit "api", [lit "build"]⟩ (by decide) (by decide) (by decide)
  ⟨h.1, by decide⟩

/-- C6. `Handle` returns an error only when the event type is the key of one of
the eleven kinds and the decoder of that kind fails on the body, with that very
error; whenever an error is returned the routing key is empty and the message
is absent; and whenever the message is absent the routing key is empty. -/
theorem Handle_error_only_from_decode (J : JSON) (cfg : env.Config) (eventType : GoString)
    (body : List UInt8) :
    (∀ err, (Handle J cfg eventType body).2.2 = some err →
        (∃ k : Kind, eventType = k.key ∧ k.decode J body = .error err)
          ∧ (Handle J cfg eventType body).1 = []
          ∧ (Handle J cfg eventType body).2.1 = none)
      ∧ ((Handle J cfg eventType body).2.1 = none → (Handle J cfg eventType body).1 = []) := by
  by_cases hk : ∃ k : Kind, eventType = k.key
  · obtain ⟨k, rfl⟩ := hk
    rw [Handle_of_key]
    cases formatter_outcome J cfg k body with
    | skipped _ _ hres => simp [hres]
    | failed err _ hdec hres =>
      rw [hres]
      refine ⟨?_, fun _ => rfl⟩
      intro err2 h2
      have : err = err2 := by simpa using h2
      subst this
      exact ⟨⟨k, rfl, hdec⟩, rfl, rfl⟩
    | suppressed v _ _ _ hres => simp [hres]
    | built v m _ _ _ hres => simp [hres]
  · have h : ∀ k : Kind, eventType ≠ k.key := fun k hek => hk ⟨k, hek⟩
    rw [Handle_of_not_key J cfg eventType body h]
    simp

/-- C6 at an empty body sent as `pullrequest:created`: the error returned is
the one of the decoder, and nothing comes with it. -/
theorem Handle_error_only_from_decode_witness :
    (Handle JSON.failing {} (lit "pullrequest:created") []).2.2 = some unexpectedEnd
      ∧ ((∃ k : Kind, lit "pullrequest:created" = k.key
            ∧ k.decode JSON.failing [] = .error unexpectedEnd)
          ∧ (Handle JSON.failing {} (lit "pullrequest:created") []).1 = []
          ∧ (Handle JSON.failing {} (lit "pullrequest:created") []).2.1 = none)
      ∧ (Handle JSON.failing {} (lit "pullrequest:created") []).1 = [] :=
  ⟨by decide,
    (Handle_error_only_from_decode JSON.failing {} (lit "pullrequest:created") []).1
      unexpectedEnd (by decide),
    (Handle_error_only_from_decode JSON.failing {} (lit "pullrequest:created") []).2
      (by decide)⟩

/-- The fields of a split value do not carry a label that does not start with
the label of the call. -/
theorem filter_split_other (label value name : GoString) (h : ¬ label <+: name) :
    (split label value).filter (fun field => field.Name = name) = [] := by
  rw [List.filter_eq_nil_iff]
  intro f hf
  simp only [decide_eq_true_eq]
  intro hname
  apply h
  rcases split_names label value f hf with hn | hn | hn
  · rw [← hname, hn]
  · rw [← hname, hn]
    exact List.prefix_append _ _
  · rw [← hname, hn, List.append_assoc]
    exact List.prefix_append _ _

/-- Calls under other labels add no field under a given label. -/
theorem filter_added_other (calls : List MessageEmbedField) (name : GoString)
    (h : ∀ call ∈ calls, ¬ call.Name <+: name) :
    (added calls).filter (fun field => field.Name = name) = [] := by
  induction calls with
  | nil => rfl
  | cons call calls ih =>
    rw [added_cons, List.filter_append,
      filter_split_other _ _ _ (h call (List.mem_cons_self _ _)),
      ih fun c hc => h c (List.mem_cons_of_mem _ hc)]
    rfl

/-- A call with a value of at most 1024 bytes adds one field under its label,
with the value. -/
theorem filter_split_short (name value : GoString) (h : value.length ≤ 1024) :
    (split name value).filter (fun field => field.Name = name) = [⟨name, value⟩] := by
  rw [split_short name value h]
  simp

/-- When every call either has a label that the given label does not start
with, or has the given label and a value of at most 1024 bytes, the values
under the given label are the values of the calls with that label. -/
theorem fieldValues_added (m : MessageEmbed) (calls : List MessageEmbedField)
    (name : GoString) (hm : m.Fields = added calls)
    (h : ∀ call ∈ calls,
      ¬ call.Name <+: name ∨ (call.Name = name ∧ call.Value.length ≤ 1024)) :
    fieldValues m name
      = (calls.filter fun call => call.Name = name).map fun call => call.Value := by
  simp only [fieldValues, hm]
  clear hm
  induction calls with
  | nil => rfl
  | cons call calls ih =>
    have ih' := ih fun c hc => h c (List.mem_cons_of_mem _ hc)
    rw [added_cons, List.filter_append, List.map_append, ih']
    rcases h call (List.mem_cons_self _ _) with hp | ⟨hn, hs⟩
    · have hne : call.Name ≠ name := fun he => hp (he ▸ List.prefix_refl _)
      rw [filter_split_other _ _ _ hp, List.filter_cons_of_neg (by simpa using hne)]
      rfl
    · rw [hn, filter_split_short _ _ hs, List.filter_cons_of_pos (by simpa using hn)]
      cases call
      simp only at hn
      subst hn
      rfl

/-- A field of an optional one-field list: the test holds and the field is the
one listed. -/
theorem mem_optional_field (c : Prop) [Decidable c] (field f : MessageEmbedField)
    (h : f ∈ (if c then [field] else [])) : c ∧ f = field := by
  split_ifs at h with hc
  · exact ⟨hc, by simpa using h⟩
  · simp at h

/-- A value among the field values of a label is the value of a field with that
label. -/
theorem mem_fieldValues (m : MessageEmbed) (name v : GoString) (h : v ∈ fieldValues m name) :
    ∃ f ∈ m.Fields, f.Name = name ∧ f.Value = v := by
  simp only [fieldValues, List.mem_map, List.mem_filter, decide_eq_true_eq] at h
  obtain ⟨f, ⟨hf, hn⟩, hv⟩ := h
  exact ⟨f, hf, hn, hv⟩

/-- The value of the `PR Description` field has at most 206 bytes. -/
theorem prDescription_value_length (description : GoString) :
    (lit "**" ++ (if description.length > 200 then description.take 199 ++ lit "..."
      else description) ++ lit "**").length ≤ 206 := by
  have h2 : (lit "**").length = 2 := by decide
  have h3 : (lit "...").length = 3 := by decide
  split_ifs with h
  · simp only [List.length_append, List.length_take, h2, h3]
    omega
  · simp only [List.length_append, h2]
    omega

/-- The value of the `Comment` field has at most 105 bytes. -/
theorem comment_value_length (raw : GoString) :
    (if raw ≠ [] then
        if raw.length > 105 then raw.take 100 ++ lit "..." else raw
      else lit "no comment").length ≤ 105 := by
  have h3 : (lit "...").length = 3 := by decide
  have h10 : (lit "no comment").length = 10 := by decide
  split_ifs with ha hb
  · simp only [List.length_append, List.length_take, h3]
    omega
  · omega
  · omega

/-- Calls with non-empty values add fields with non-empty values. -/
theorem added_values_ne_nil (calls : List MessageEmbedField)
    (h : ∀ call ∈ calls, call.Value ≠ []) : ∀ f ∈ added calls, f.Value ≠ [] := by
  intro f hf
  obtain ⟨call, hcall, hsplit⟩ := (mem_added calls f).1 hf
  exact split_values _ _ (h call hcall) f hsplit

/-- The fields of a returned message are those that the calls of the kind
add. -/
theorem formatter_fields (J : JSON) (cfg : env.Config) (k : Kind) (body : List UInt8)
    (m : MessageEmbed) (h : (k.formatter J cfg body).2.1 = some m) :
    m.Fields = added (k.calls J body) := by
  cases k
  · obtain ⟨ev, _, hdec, _, rfl⟩ := handlePush_some J cfg body m h
    simp only [Kind.calls, hdec]
    rfl
  · obtain ⟨ev, hdec, _, _, rfl⟩ := commitStatusUpdated_some J body m h
    simp only [Kind.calls, hdec]
    rfl
  · obtain ⟨ev, hdec, _, _, _, rfl⟩ := pullRequestCreated_some J body m h
    simp only [Kind.calls, hdec]
    rfl
  · obtain ⟨ev, hdec, _, _, _, rfl⟩ := pullRequestUpdated_some J body m h
    simp only [Kind.calls, hdec]
    rfl
  · obtain ⟨ev, hdec, _, _, _, rfl⟩ := pullRequestApproved_some J body m h
    simp only [Kind.calls, hdec]
    rfl
  · obtain ⟨ev, hdec, _, _, _, rfl⟩ := pullRequestUnapproved_some J body m h
    simp only [Kind.calls, hdec]
    rfl
  · obtain ⟨ev, hdec, _, _, _, rfl⟩ := pullRequestFulfilled_some J body m h
    simp only [Kind.calls, hdec]
    rfl
  · obtain ⟨ev, hdec, _, _, _, rfl⟩ := pullRequestRejected_some J body m h
    simp only [Kind.calls, hdec]
    rfl
  · obtain ⟨ev, hdec, _, _, _, rfl⟩ := pullRequestCommentCreated_some J body m h
    simp only [Kind.calls, hdec]
    rfl
  · obtain ⟨ev, hdec, _, _, _, rfl⟩ := pullRequestCommentUpdated_some J body m h
    simp only [Kind.calls, hdec]
    rfl
  · obtain ⟨ev, hdec, _, _, _, rfl⟩ := pullRequestCommentDeleted_some J body m h
    simp only [Kind.calls, hdec]
    rfl

/-- The labels of the calls of a kind are, in this order, labels of the fixed
list of the kind. -/
theorem Kind.calls_labels (J : JSON) (k : Kind) (body : List UInt8) :
    ((k.calls J body).map fun call => call.Name).Sublist k.labels := by
  cases k <;> simp only [Kind.calls, Kind.labels]
  case push =>
    cases J.unmarshalRepoPushEvent body with
    | error err => simp
    | ok ev => simp only [pushCalls]; cases ev.Push.Changes <;> simp
  case commitStatus =>
    cases J.unmarshalRepoCommitStatusUpdatedEvent body with
    | error err => simp
    | ok ev => simp only [commitStatusCalls]; split_ifs <;> simp
  case created =>
    cases J.unmarshalPullRequestCreatedEvent body with
    | error err => simp
    | ok ev => simp only [createdCalls]; split_ifs <;> simp
  case updated =>
    cases J.unmarshalPullRequestUpdatedEvent body with
    | error err => simp
    | ok ev => simp only [updatedCalls]; split_ifs <;> simp
  case approved =>
    cases J.unmarshalPullRequestApprovedEvent body with
    | error err => simp
    | ok ev => simp only [approvedCalls]; split_ifs <;> simp
  case unapproved =>
    cases J.unmarshalPullRequestApprovedEvent body with
    | error err => simp
    | ok ev => simp only [unapprovedCalls]; split_ifs <;> simp
  case fulfilled =>
    cases J.unmarshalPullRequestMergedEvent body with
    | error err => simp
    | ok ev => simp only [mergedCalls]; split_ifs <;> simp
  case rejected =>
    cases J.unmarshalPullRequestMergedEvent body with
    | error err => simp
    | ok ev => simp only [rejectedCalls]; split_ifs <;> simp
  case commentCreated =>
    cases J.unmarshalPullRequestCommentCreatedEvent body with
    | error err => simp
    | ok ev => simp [commentCreatedCalls]
  case commentUpdated =>
    cases J.unmarshalPullRequestCommentCreatedEvent body with
    | error err => simp
    | ok ev => simp [commentUpdatedCalls]
  case commentDeleted =>
    cases J.unmarshalPullRequestCommentCreatedEvent body with
    | error err => simp
    | ok ev => simp [commentDeletedCalls]

/-- A push that decodes makes three calls, one for each label of the kind. -/
theorem push_calls_labels (J : JSON) (body : List UInt8) (push : RepoPushEvent)
    (hdec : J.unmarshalRepoPushEvent body = .ok push) :
    ((Kind.push.calls J body).map fun call => call.Name) = Kind.push.labels := by
  simp only [Kind.calls, hdec, pushCalls, Kind.labels]
  cases push.Push.Changes <;> rfl

/-- The label of a field of a split value starts with the label of the call. -/
theorem split_name_prefix (name value : GoString) (f : MessageEmbedField)
    (hf : f ∈ split name value) : name <+: f.Name := by
  rcases split_names name value f hf with hn | hn | hn
  · rw [hn]
  · rw [hn]
    exact List.prefix_append _ _
  · rw [hn, List.append_assoc]
    exact List.prefix_append _ _

/-- When no call under another label has a label that the given label starts
with, the message has a field under the given label exactly when there is a
call under it. -/
theorem mem_added_name (calls : List MessageEmbedField) (name : GoString)
    (h : ∀ call ∈ calls, call.Name = name ∨ ¬ call.Name <+: name) :
    (∃ f ∈ added calls, f.Name = name) ↔ ∃ call ∈ calls, call.Name = name := by
  constructor
  · rintro ⟨f, hf, hname⟩
    obtain ⟨call, hcall, hsplit⟩ := (mem_added calls f).1 hf
    refine ⟨call, hcall, ?_⟩
    rcases h call hcall with hn | hn
    · exact hn
    · exact absurd (hname ▸ split_name_prefix _ _ f hsplit) hn
  · rintro ⟨call, hcall, hname⟩
    obtain ⟨f, hf, hn⟩ := split_has_name call.Name call.Value
    exact ⟨f, (mem_added calls f).2 ⟨call, hcall, hf⟩, hn.trans hname⟩

/-- When every call either has a label that the given label does not start
with, or has a value within the bound, which is at most 1024, the values under
the given label are within the bound. -/
theorem fieldValues_bounded (m : MessageEmbed) (calls : List MessageEmbedField)
    (name : GoString) (bound : Nat) (hbound : bound ≤ 1024) (hm : m.Fields = added calls)
    (h : ∀ call ∈ calls, ¬ call.Name <+: name ∨ call.Value.length ≤ bound) :
    ∀ v ∈ fieldValues m name, v.length ≤ bound := by
  intro v hv
  obtain ⟨f, hf, hname, rfl⟩ := mem_fieldValues _ _ _ hv
  rw [hm] at hf
  obtain ⟨call, hcall, hsplit⟩ := (mem_added calls f).1 hf
  rcases h call hcall with hn | hn
  · exact absurd (hname ▸ split_name_prefix _ _ f hsplit) hn
  · rw [split_short _ _ (by omega), List.mem_singleton] at hsplit
    subst hsplit
    exact hn

/-! ## Truncation and reviewer lists -/

/-- C7, as stated, fails when characters are not single bytes: a description of
101 two-byte characters is 202 bytes long, so it is cut (after 199 bytes, in
the middle of a character) although it has fewer than 200 characters. -/
theorem description_of_101_characters_is_cut :
    (accented 101).length = 101
      ∧ ∃ m, (Handle (JSON.created (createdWith (lit (accented 101)))) {}
              (lit "pullrequest:created") payloadBody).2.1 = some m
          ∧ fieldValues m (lit "PR Description")
              = [lit "**" ++ (lit (accented 101)).take 199 ++ lit "..." ++ lit "**"]
          ∧ fieldValues m (lit "PR Description")
              ≠ [lit "**" ++ lit (accented 101) ++ lit "**"] := by
  refine ⟨by decide, _, rfl, ?_, ?_⟩ <;> decide

/-- The labels of the fields that may precede `PR Description` differ from
it. -/
theorem label_ne_prDescription :
    lit "Reviewers" ≠ lit "PR Description" ∧ lit "Status" ≠ lit "PR Description" := by
  decide

/-- The labels of the fields that may follow `Reviewers` differ from it. -/
theorem label_ne_reviewers :
    lit "Status" ≠ lit "Reviewers" ∧ lit "PR Description" ≠ lit "Reviewers"
      ∧ lit "Created by" ≠ lit "Reviewers" := by
  decide

/-- C7, amended: lengths are counted in bytes and the ellipsis is three full
stops.  In the messages for `pullrequest:created` and `pullrequest:updated`,
for every payload that passes the guard and has a non-empty description, there
is exactly one field labelled `PR Description`; its value is, between the bold
markers `**`, the first 199 bytes of the description followed by `...` when the
description is longer than 200 bytes, and the whole description when it has 200
bytes or fewer. -/
theorem prDescription_field (J : JSON) (cfg : env.Config) (body : List UInt8) :
    (∀ created, J.unmarshalPullRequestCreatedEvent body = .ok created →
      created.Actor.DisplayName ≠ [] → created.PullRequest.Title ≠ [] →
      created.PullRequest.Description ≠ [] →
      ∃ m, (Handle J cfg (lit "pullrequest:created") body).2.1 = some m
        ∧ fieldValues m (lit "PR Description")
          = [lit "**"
              ++ (if created.PullRequest.Description.length > 200
                  then created.PullRequest.Description.take 199 ++ lit "..."
                  else created.PullRequest.Description)
              ++ lit "**"])
      ∧ (∀ updated, J.unmarshalPullRequestUpdatedEvent body = .ok updated →
      updated.Actor.DisplayName ≠ [] → updated.PullRequest.Title ≠ [] →
      updated.PullRequest.Description ≠ [] →
      ∃ m, (Handle J cfg (lit "pullrequest:updated") body).2.1 = some m
        ∧ fieldValues m (lit "PR Description")
          = [lit "**"
              ++ (if updated.PullRequest.Description.length > 200
                  then updated.PullRequest.Description.take 199 ++ lit "..."
                  else updated.PullRequest.Description)
              ++ lit "**"]) := by
  have n1 : ¬ lit "Reviewers" <+: lit "PR Description" := by decide
  have n2 : ¬ lit "Status" <+: lit "PR Description" := by decide
  have e1 : lit "Reviewers" ≠ lit "PR Description" := by decide
  have e2 : lit "Status" ≠ lit "PR Description" := by decide
  have hshort : ∀ description : GoString,
      (lit "**" ++ (if description.length > 200 then description.take 199 ++ lit "..."
        else description) ++ lit "**").length ≤ 1024 :=
    fun description => le_trans (prDescription_value_length description) (by decide)
  constructor
  · intro ev h ha ht hd
    have hk := Handle_of_key J cfg .created body
    simp only [Kind.key, Kind.formatter] at hk
    rw [hk, pullRequestCreated_built J body ev h ha ht]
    refine ⟨_, rfl, ?_⟩
    rw [fieldValues_added (createdMessage ev) (createdCalls ev) _ rfl]
    · simp only [createdCalls, hd, ne_eq, not_false_eq_true, if_true]
      split_ifs <;> simp [List.filter_cons, e1, e2]
    · intro call hcall
      simp only [createdCalls, hd, ne_eq, not_false_eq_true, if_true, List.mem_append,
        List.mem_singleton] at hcall
      rcases hcall with (rfl | hcall) | rfl
      · exact Or.inl n1
      · obtain ⟨_, rfl⟩ := mem_optional_field _ _ call hcall
        exact Or.inl n2
      · exact Or.inr ⟨rfl, hshort _⟩
  · intro ev h ha ht hd
    have hk := Handle_of_key J cfg .updated body
    simp only [Kind.key, Kind.formatter] at hk
    rw [hk, pullRequestUpdated_built J body ev h ha ht]
    refine ⟨_, rfl, ?_⟩
    rw [fieldValues_added (updatedMessage ev) (updatedCalls ev) _ rfl]
    · simp only [updatedCalls, hd, ne_eq, not_false_eq_true, if_true]
      split_ifs <;> simp [List.filter_cons, e1, e2]
    · intro call hcall
      simp only [updatedCalls, hd, ne_eq, not_false_eq_true, if_true, List.mem_append,
        List.mem_singleton] at hcall
      rcases hcall with (rfl | hcall) | rfl
      · exact Or.inl n1
      · obtain ⟨_, rfl⟩ := mem_optional_field _ _ call hcall
        exact Or.inl n2
      · exact Or.inr ⟨rfl, hshort _⟩

/-- C7 amended, at a created event whose description is 201 letters `a` and at
an updated event whose description is 200 letters `a`. -/
theorem prDescription_field_witness :
    (List.replicate 201 (97 : UInt8)).length = 201
      ∧ (∃ m, (Handle (JSON.created (createdWith (List.replicate 201 97))) {}
            (lit "pullrequest:created") payloadBody).2.1 = some m
          ∧ fieldValues m (lit "PR Description")
            = [lit "**"
                ++ (if (createdWith (List.replicate 201 97)).PullRequest.Description.length > 200
                    then (createdWith (List.replicate 201 97)).PullRequest.Description.take 199
                      ++ lit "..."
                    else (createdWith (List.replicate 201 97)).PullRequest.Description)
                ++ lit "**"])
      ∧ (∃ m, (Handle
            (JSON.updated
              { Actor := { DisplayName := lit "ann" },
                PullRequest := { Title := lit "Fix", Description := List.replicate 200 97 } })
            {} (lit "pullrequest:updated") payloadBody).2.1 = some m
          ∧ fieldValues m (lit "PR Description")
            = [lit "**"
                ++ (if (List.replicate 200 (97 : UInt8)).length > 200
                    then (List.replicate 200 (97 : UInt8)).take 199 ++ lit "..."
                    else List.replicate 200 (97 : UInt8))
                ++ lit "**"]) :=
  ⟨by decide,
    (prDescription_field (JSON.created (createdWith (List.replicate 201 97))) {}
      payloadBody).1 _ rfl (by decide) (by decide) (by decide),
    (prDescription_field
      (JSON.updated
        { Actor := { DisplayName := lit "ann" },
          PullRequest := { Title := lit "Fix", Description := List.replicate 200 97 } })
      {} payloadBody).2 _ rfl (by decide) (by decide) (by decide)⟩

/-- C8, as stated, fails when characters are not single bytes: a comment of 53
two-byte characters is 106 bytes long, so it is cut to its first 100 bytes and
`...` although it has fewer than 105 characters. -/
theorem comment_of_53_characters_is_cut :
    (accented 53).length = 53
      ∧ ∃ m, (Handle (JSON.comment (commentWith (lit (accented 53)))) {}
              (lit "pullrequest:comment_created") payloadBody).2.1 = some m
          ∧ fieldValues m (lit "Comment") = [(lit (accented 53)).take 100 ++ lit "..."]
          ∧ fieldValues m (lit "Comment") ≠ [lit (accented 53)] := by
  refine ⟨by decide, _, rfl, ?_, ?_⟩ <;> decide

/-- C8, amended: lengths are counted in bytes and the ellipsis is three full
stops.  In the message for `pullrequest:comment_created`, for every payload
that passes the guard, there is exactly one field labelled `Comment`; its value
is `no comment` when the comment text is empty, the text unchanged when it has
at most 105 bytes, and its first 100 bytes followed by `...` when it has more
than 105 bytes. -/
theorem comment_field (J : JSON) (cfg : env.Config) (body : List UInt8)
    (commentCreated : PullRequestCommentCreatedEvent)
    (hdec : J.unmarshalPullRequestCommentCreatedEvent body = .ok commentCreated)
    (huser : commentCreated.Comment.User.DisplayName ≠ [])
    (htitle : commentCreated.PullRequest.Title ≠ []) :
    ∃ m, (Handle J cfg (lit "pullrequest:comment_created") body).2.1 = some m
      ∧ fieldValues m (lit "Comment")
        = [if commentCreated.Comment.Content.Raw = [] then lit "no comment"
           else if commentCreated.Comment.Content.Raw.length > 105
             then commentCreated.Comment.Content.Raw.take 100 ++ lit "..."
           else commentCreated.Comment.Content.Raw] := by
  have hk := Handle_of_key J cfg .commentCreated body
  simp only [Kind.key, Kind.formatter] at hk
  rw [hk, pullRequestCommentCreated_built J body commentCreated hdec huser htitle]
  refine ⟨_, rfl, ?_⟩
  rw [fieldValues_added (commentCreatedMessage commentCreated)
    (commentCreatedCalls commentCreated) _ rfl]
  · by_cases hraw : commentCreated.Comment.Content.Raw = [] <;>
      simp [commentCreatedCalls, hraw]
  · intro call hcall
    simp only [commentCreatedCalls, List.mem_singleton] at hcall
    subst hcall
    exact Or.inr ⟨rfl,
      le_trans (comment_value_length commentCreated.Comment.Content.Raw) (by decide)⟩

/-- C8 amended, at comments of 106 and of 105 letters `a` and at an empty
comment. -/
theorem comment_field_witness :
    (∃ m, (Handle (JSON.comment (commentWith (List.replicate 106 97))) {}
          (lit "pullrequest:comment_created") payloadBody).2.1 = some m
        ∧ fieldValues m (lit "Comment") = [List.replicate 100 97 ++ lit "..."])
      ∧ (∃ m, (Handle (JSON.comment (commentWith (List.replicate 105 97))) {}
          (lit "pullrequest:comment_created") payloadBody).2.1 = some m
        ∧ fieldValues m (lit "Comment") = [List.replicate 105 97])
      ∧ (∃ m, (Handle (JSON.comment (commentWith [])) {}
          (lit "pullrequest:comment_created") payloadBody).2.1 = some m
        ∧ fieldValues m (lit "Comment") = [lit "no comment"]) :=
  ⟨comment_field (JSON.comment (commentWith (List.replicate 106 97))) {} payloadBody
      (commentWith (List.replicate 106 97)) rfl (by decide) (by decide),
    comment_field (JSON.comment (commentWith (List.replicate 105 97))) {} payloadBody
      (commentWith (List.replicate 105 97)) rfl (by decide) (by decide),
    comment_field (JSON.comment (commentWith [])) {} payloadBody
      (commentWith []) rfl (by decide) (by decide)⟩

/-- C9, as stated, fails twice over.  The lines of the `Reviewers` field carry
bold markers, `**✓**Al` and `**x **Bo`, rather than `✓Al` and `x Bo`.  And a
value of more than 1024 bytes is not carried by the `Reviewers` field: for one
participant with a name of 1100 bytes the builder cuts the value after 1023
bytes, adds a hyphen, and puts the rest in a field `Reviewers (extended)`. -/
theorem reviewer_lines_carry_bold_markers :
    (∃ m, (Handle (JSON.updated (updatedWith twoParticipants)) {}
            (lit "pullrequest:updated") payloadBody).2.1 = some m
      ∧ fieldValues m (lit "Reviewers") = [lit "**✓**Al\n**x **Bo"]
      ∧ fieldValues m (lit "Reviewers") ≠ [lit "✓Al\nx Bo"])
    ∧ ∃ m, (Handle (JSON.updated (updatedWith [longNamedParticipant])) {}
            (lit "pullrequest:updated") payloadBody).2.1 = some m
      ∧ m.Fields
        = [⟨lit "Reviewers", lit "**x **" ++ List.replicate 1017 97 ++ lit "-"⟩,
           ⟨lit "Reviewers (extended)", List.replicate 83 97⟩] := by
  refine ⟨⟨_, rfl, ?_, ?_⟩, ⟨_, rfl, ?_⟩⟩
  · decide
  · decide
  · decide!

/-- C9, amended: the prefixes are `**✓**` and `**x **`, and the lines joined
have at most 1024 bytes.  In the messages for `pullrequest:updated` and
`pullrequest:fulfilled`, for every payload that passes the guard and whose
participant lines, joined by newlines, have at most 1024 bytes, there is exactly
one field labelled `Reviewers`; its value is `none` when the participant list is
empty, and otherwise the lines of the participants joined by newlines in input
order, where the line of a participant is its display name prefixed with
`**✓**` if it approved and with `**x **` if not. -/
theorem reviewers_field (J : JSON) (cfg : env.Config) (body : List UInt8) :
    (∀ updated, J.unmarshalPullRequestUpdatedEvent body = .ok updated →
      updated.Actor.DisplayName ≠ [] → updated.PullRequest.Title ≠ [] →
      (strings.Join
          (updated.PullRequest.Participants.map fun participant =>
            if participant.Approved then lit "**✓**" ++ participant.User.DisplayName
            else lit "**x **" ++ participant.User.DisplayName)
          (lit "\n")).length ≤ 1024 →
      ∃ m, (Handle J cfg (lit "pullrequest:updated") body).2.1 = some m
        ∧ fieldValues m (lit "Reviewers")
          = [if updated.PullRequest.Participants = [] then lit "none"
             else strings.Join
               (updated.PullRequest.Participants.map fun participant =>
                 if participant.Approved then lit "**✓**" ++ participant.User.DisplayName
                 else lit "**x **" ++ participant.User.DisplayName)
               (lit "\n")])
      ∧ (∀ merged, J.unmarshalPullRequestMergedEvent body = .ok merged →
      merged.PullRequest.ClosedBy.DisplayName ≠ [] → merged.PullRequest.Title ≠ [] →
      (strings.Join
          (merged.PullRequest.Participants.map fun participant =>
            if participant.Approved then lit "**✓**" ++ participant.User.DisplayName
            else lit "**x **" ++ participant.User.DisplayName)
          (lit "\n")).length ≤ 1024 →
      ∃ m, (Handle J cfg (lit "pullrequest:fulfilled") body).2.1 = some m
        ∧ fieldValues m (lit "Reviewers")
          = [if merged.PullRequest.Participants = [] then lit "none"
             else strings.Join
               (merged.PullRequest.Participants.map fun participant =>
                 if participant.Approved then lit "**✓**" ++ participant.User.DisplayName
                 else lit "**x **" ++ participant.User.DisplayName)
               (lit "\n")]) := by
  have n1 : ¬ lit "Status" <+: lit "Reviewers" := by decide
  have n2 : ¬ lit "PR Description" <+: lit "Reviewers" := by decide
  have n3 : ¬ lit "Created by" <+: lit "Reviewers" := by decide
  have e1 : lit "Status" ≠ lit "Reviewers" := by decide
  have e2 : lit "PR Description" ≠ lit "Reviewers" := by decide
  have e3 : lit "Created by" ≠ lit "Reviewers" := by decide
  constructor
  · intro ev h ha ht hlen
    have hk := Handle_of_key J cfg .updated body
    simp only [Kind.key, Kind.formatter] at hk
    rw [hk, pullRequestUpdated_built J body ev h ha ht]
    refine ⟨_, rfl, ?_⟩
    rw [fieldValues_added (updatedMessage ev) (updatedCalls ev) _ rfl]
    · simp only [updatedCalls]
      cases hp : ev.PullRequest.Participants <;>
        (split_ifs <;> simp_all [List.filter_cons])
    · intro call hcall
      simp only [updatedCalls, List.mem_append, List.mem_singleton] at hcall
      rcases hcall with (rfl | hcall) | hcall
      · refine Or.inr ⟨rfl, ?_⟩
        split_ifs
        · exact hlen
        · decide
      · obtain ⟨_, rfl⟩ := mem_optional_field _ _ call hcall
        exact Or.inl n1
      · obtain ⟨_, rfl⟩ := mem_optional_field _ _ call hcall
        exact Or.inl n2
  · intro ev h ha ht hlen
    have hk := Handle_of_key J cfg .fulfilled body
    simp only [Kind.key, Kind.formatter] at hk
    rw [hk, pullRequestFulfilled_built J body ev h ha ht]
    refine ⟨_, rfl, ?_⟩
    rw [fieldValues_added (mergedMessage ev) (mergedCalls ev) _ rfl]
    · simp only [mergedCalls]
      cases hp : ev.PullRequest.Participants <;>
        (split_ifs <;> simp_all [List.filter_cons])
    · intro call hcall
      simp only [mergedCalls, List.mem_append, List.mem_singleton] at hcall
      rcases hcall with (rfl | hcall) | hcall
      · refine Or.inr ⟨rfl, ?_⟩
        split_ifs
        · exact hlen
        · decide
      · obtain ⟨_, rfl⟩ := mem_optional_field _ _ call hcall
        exact Or.inl n3
      · obtain ⟨_, rfl⟩ := mem_optional_field _ _ call hcall
        exact Or.inl n1

/-- C9 amended, at an updated event with two participants and at a merged one
with none. -/
theorem reviewers_field_witness :
    (∃ m, (Handle (JSON.updated (updatedWith twoParticipants)) {}
          (lit "pullrequest:updated") payloadBody).2.1 = some m
        ∧ fieldValues m (lit "Reviewers") = [lit "**✓**Al\n**x **Bo"])
      ∧ (∃ m, (Handle
            (JSON.merged
              { PullRequest := { Title := lit "Fix", ClosedBy := { DisplayName := lit "ann" } } })
            {} (lit "pullrequest:fulfilled") payloadBody).2.1 = some m
        ∧ fieldValues m (lit "Reviewers") = [lit "none"]) :=
  ⟨(reviewers_field (JSON.updated (updatedWith twoParticipants)) {} payloadBody).1 _ rfl
      (by decide) (by decide) (by decide),
    (reviewers_field
      (JSON.merged
        { PullRequest := { Title := lit "Fix", ClosedBy := { DisplayName := lit "ann" } } })
      {} payloadBody).2 _ rfl (by decide) (by decide) (by decide)⟩

/-! ## The skip-push flag -/

/-- C10. With the skip-push flag set, `Handle` on `repo:push` returns the empty
routing key, no message and no error for every body, whatever the decoder would
make of it; with the flag off, a body on which the decoder fails yields that
error. -/
theorem Handle_push_skip_flag (J : JSON) (cfg : env.Config) (body : List UInt8) :
    (cfg.SkipRepoPushMessages = true →
        Handle J cfg (lit "repo:push") body = ([], none, none))
      ∧ (cfg.SkipRepoPushMessages = false →
        ∀ err, J.unmarshalRepoPushEvent body = .error err →
          Handle J cfg (lit "repo:push") body = ([], none, some err)) := by
  have hk := Handle_of_key J cfg .push body
  simp only [Kind.key, Kind.formatter] at hk
  rw [hk]
  constructor
  · intro hs
    simp [handlePush, hs]
  · intro hs err hdec
    simp [handlePush, hs, hdec]

/-- C10 at an empty body, with the flag set and with the flag off. -/
theorem Handle_push_skip_flag_witness :
    Handle JSON.failing { SkipRepoPushMessages := true } (lit "repo:push") []
        = ([], none, none)
      ∧ Handle JSON.failing { SkipRepoPushMessages := false } (lit "repo:push") []
        = ([], none, some unexpectedEnd) :=
  ⟨(Handle_push_skip_flag JSON.failing { SkipRepoPushMessages := true } []).1 rfl,
    (Handle_push_skip_flag JSON.failing { SkipRepoPushMessages := false } []).2 rfl
      unexpectedEnd rfl⟩

/-! ## Colors -/

/-- The color of a message of a kind is the color of the table. -/
theorem formatter_color (J : JSON) (cfg : env.Config) (k : Kind) (body : List UInt8)
    (m : MessageEmbed) (h : (k.formatter J cfg body).2.1 = some m) :
    m.Color = k.color J body := by
  cases k
  · obtain ⟨ev, _, _, _, rfl⟩ := handlePush_some J cfg body m h
    rfl
  · obtain ⟨ev, hdec, _, _, rfl⟩ := commitStatusUpdated_some J body m h
    simp [Kind.color, hdec, commitStatusMessage]
  · obtain ⟨ev, _, _, _, _, rfl⟩ := pullRequestCreated_some J body m h
    rfl
  · obtain ⟨ev, _, _, _, _, rfl⟩ := pullRequestUpdated_some J body m h
    rfl
  · obtain ⟨ev, _, _, _, _, rfl⟩ := pullRequestApproved_some J body m h
    rfl
  · obtain ⟨ev, _, _, _, _, rfl⟩ := pullRequestUnapproved_some J body m h
    rfl
  · obtain ⟨ev, _, _, _, _, rfl⟩ := pullRequestFulfilled_some J body m h
    rfl
  · obtain ⟨ev, _, _, _, _, rfl⟩ := pullRequestRejected_some J body m h
    rfl
  · obtain ⟨ev, _, _, _, _, rfl⟩ := pullRequestCommentCreated_some J body m h
    rfl
  · obtain ⟨ev, _, _, _, _, rfl⟩ := pullRequestCommentUpdated_some J body m h
    rfl
  · obtain ⟨ev, _, _, _, _, rfl⟩ := pullRequestCommentDeleted_some J body m h
    rfl


/-- The color of the table is one of the five constants. -/
theorem Kind.color_mem (J : JSON) (k : Kind) (body : List UInt8) :
    k.color J body ∈ [success, failure, prCreated, prUpdated, gray] := by
  cases k <;> simp only [Kind.color]
  case commitStatus =>
    cases J.unmarshalRepoCommitStatusUpdatedEvent body with
    | error err => simp
    | ok ev => simp only []; split_ifs <;> simp
  all_goals simp


/-- C11. For every event type and body for which `Handle` returns a message, the
event type is the key of one of the eleven kinds and the color of the message
is the color the table gives that kind (for a commit status: by its state); it
is one of the five constants `success` (0x90EE90), `failure` (0xD10000),
`prCreated` (0x89CFF0), `prUpdated` (0x0047AB) and `gray` (0x979797). -/
theorem message_color_from_table (J : JSON) (cfg : env.Config) (eventType : GoString)
    (body : List UInt8) (m : MessageEmbed) (h : (Handle J cfg eventType body).2.1 = some m) :
    (∃ k : Kind, eventType = k.key ∧ m.Color = k.color J body)
      ∧ m.Color ∈ [success, failure, prCreated, prUpdated, gray]
      ∧ [success, failure, prCreated, prUpdated, gray]
          = [0x90EE90, 0xD10000, 0x89CFF0, 0x0047AB, 0x979797] := by
  obtain ⟨k, hk, hm⟩ := Handle_some_kind J cfg eventType body m h
  have hc := formatter_color J cfg k body m hm
  exact ⟨⟨k, hk, hc⟩, hc ▸ Kind.color_mem J k body, rfl⟩


/-- C11 at a failed build status: the message is red. -/
theorem message_color_from_table_witness :
    (Handle (JSON.commitStatus failedBuild) {} (lit "repo:commit_status_updated")
        payloadBody).2.1 = some (commitStatusMessage failedBuild)
      ∧ (∃ k : Kind, lit "repo:commit_status_updated" = k.key
          ∧ (commitStatusMessage failedBuild).Color
              = k.color (JSON.commitStatus failedBuild) payloadBody)
      ∧ (commitStatusMessage failedBuild).Color = 0xD10000 :=
  ⟨by decide,
    (message_color_from_table (JSON.commitStatus failedBuild) {}
      (lit "repo:commit_status_updated") payloadBody (commitStatusMessage failedBuild)
      (by decide)).1,
    by decide⟩


/-! ## Fields -/

/-- C12, as stated, fails: `handlePush` adds its three fields whatever their
values are, so a push whose first change names no resource gives a message
whose `Resource name` and `Resource type` fields are empty. -/
theorem push_fields_with_empty_values :
    ∃ m, (Handle (JSON.push pushOfUnnamedChange) {} (lit "repo:push") payloadBody).2.1 = some m
      ∧ m.Fields = [⟨lit "Number of commits", lit "0"⟩, ⟨lit "Resource name", []⟩,
          ⟨lit "Resource type", []⟩] := by
  refine ⟨_, rfl, ?_⟩
  decide


/-- The lines of the participants, joined, are not empty when there is a
participant: each line starts with a mark. -/
theorem joined_marks_ne_nil (participants : List Participant)
    (h : (participants.map fun reviewer =>
      if reviewer.Approved then lit "**✓**" ++ reviewer.User.DisplayName
      else lit "**x **" ++ reviewer.User.DisplayName).length > 0) :
    strings.Join
      (participants.map fun reviewer =>
        if reviewer.Approved then lit "**✓**" ++ reviewer.User.DisplayName
        else lit "**x **" ++ reviewer.User.DisplayName)
      (lit "\n") ≠ [] := by
  cases participants with
  | nil => simp at h
  | cons p rest =>
    have h1 : lit "**✓**" ≠ [] := by decide
    have h2 : lit "**x **" ≠ [] := by decide
    cases rest <;> cases hp : p.Approved <;>
      simp [strings.Join, List.intercalate, List.intersperse, hp, h1, h2]


/-- The value of the `Reviewers` field of an updated or merged pull request is
never empty. -/
theorem marks_value_ne_nil (participants : List Participant) :
    (if (participants.map fun reviewer =>
          if reviewer.Approved then lit "**✓**" ++ reviewer.User.DisplayName
          else lit "**x **" ++ reviewer.User.DisplayName).length > 0
      then strings.Join
        (participants.map fun reviewer =>
          if reviewer.Approved then lit "**✓**" ++ reviewer.User.DisplayName
          else lit "**x **" ++ reviewer.User.DisplayName)
        (lit "\n")
      else lit "none") ≠ [] := by
  split_ifs with h
  · exact joined_marks_ne_nil participants h
  · decide


/-- The value of the `PR Description` field is never empty. -/
theorem prDescription_value_ne_nil (description : GoString) :
    lit "**" ++ (if description.length > 200 then description.take 199 ++ lit "..."
      else description) ++ lit "**" ≠ [] := by
  have h : lit "**" ≠ [] := by decide
  simp [h]


/-- The value of the `Comment` field is never empty. -/
theorem comment_value_ne_nil (raw : GoString) :
    (if raw ≠ [] then
        if raw.length > 105 then raw.take 100 ++ lit "..." else raw
      else lit "no comment") ≠ [] := by
  have h1 : lit "..." ≠ [] := by decide
  have h2 : lit "no comment" ≠ [] := by decide
  split_ifs with ha hb
  · simp [h1]
  · exact ha
  · exact h2


/-- C12, amended.  For the kinds commit-status, updated, fulfilled, rejected and
the three comment kinds, no field of a returned message has an empty value; and
in a message for `pullrequest:created` no field other than `Reviewers` has an
empty value.  (Nothing is said of the `Created by` field of the approved and
unapproved kinds.) -/
theorem field_values_not_empty (J : JSON) (cfg : env.Config) (body : List UInt8)
    (m : MessageEmbed) :
    (∀ k : Kind,
        k ∈ [Kind.commitStatus, .updated, .fulfilled, .rejected, .commentCreated,
          .commentUpdated, .commentDeleted] →
        (Handle J cfg k.key body).2.1 = some m → ∀ f ∈ m.Fields, f.Value ≠ [])
      ∧ ((Handle J cfg (lit "pullrequest:created") body).2.1 = some m →
        ∀ f ∈ m.Fields, f.Name ≠ lit "Reviewers" → f.Value ≠ []) := by
  constructor
  · intro k hk h f hf
    rw [Handle_of_key] at h
    cases k
    case push => simp at hk
    case created => simp at hk
    case approved => simp at hk
    case unapproved => simp at hk
    case commitStatus =>
      obtain ⟨ev, _, _, _, rfl⟩ := commitStatusUpdated_some J body m h
      refine added_values_ne_nil (commitStatusCalls ev) ?_ f hf
      intro call hcall
      obtain ⟨hc, rfl⟩ := mem_optional_field _ _ call hcall
      exact hc
    case updated =>
      obtain ⟨ev, _, _, _, _, rfl⟩ := pullRequestUpdated_some J body m h
      refine added_values_ne_nil (updatedCalls ev) ?_ f hf
      intro call hcall
      simp only [updatedCalls, List.mem_append, List.mem_singleton] at hcall
      rcases hcall with (rfl | hcall) | hcall
      · exact marks_value_ne_nil _
      · obtain ⟨hc, rfl⟩ := mem_optional_field _ _ call hcall
        exact hc
      · obtain ⟨hc, rfl⟩ := mem_optional_field _ _ call hcall
        exact prDescription_value_ne_nil _
    case fulfilled =>
      obtain ⟨ev, _, _, _, _, rfl⟩ := pullRequestFulfilled_some J body m h
      refine added_values_ne_nil (mergedCalls ev) ?_ f hf
      intro call hcall
      simp only [mergedCalls, List.mem_append, List.mem_singleton] at hcall
      rcases hcall with (rfl | hcall) | hcall
      · exact marks_value_ne_nil _
      · obtain ⟨hc, rfl⟩ := mem_optional_field _ _ call hcall
        exact hc
      · obtain ⟨hc, rfl⟩ := mem_optional_field _ _ call hcall
        exact hc
    case rejected =>
      obtain ⟨ev, _, _, _, _, rfl⟩ := pullRequestRejected_some J body m h
      refine added_values_ne_nil (rejectedCalls ev) ?_ f hf
      intro call hcall
      simp only [rejectedCalls, List.mem_append] at hcall
      rcases hcall with hcall | hcall
      · obtain ⟨hc, rfl⟩ := mem_optional_field _ _ call hcall
        exact hc
      · obtain ⟨hc, rfl⟩ := mem_optional_field _ _ call hcall
        exact hc
    case commentCreated =>
      obtain ⟨ev, _, _, _, _, rfl⟩ := pullRequestCommentCreated_some J body m h
      refine added_values_ne_nil (commentCreatedCalls ev) ?_ f hf
      intro call hcall
      simp only [commentCreatedCalls, List.mem_singleton] at hcall
      subst hcall
      exact comment_value_ne_nil _
    case commentUpdated =>
      obtain ⟨ev, _, hu, _, _, rfl⟩ := pullRequestCommentUpdated_some J body m h
      refine added_values_ne_nil (commentUpdatedCalls ev) ?_ f hf
      intro call hcall
      simp only [commentUpdatedCalls, List.mem_singleton] at hcall
      subst hcall
      exact hu
    case commentDeleted =>
      obtain ⟨ev, _, hu, _, _, rfl⟩ := pullRequestCommentDeleted_some J body m h
      refine added_values_ne_nil (commentDeletedCalls ev) ?_ f hf
      intro call hcall
      simp only [commentDeletedCalls, List.mem_singleton] at hcall
      subst hcall
      exact hu
  · intro h f hf hname
    have hk := Handle_of_key J cfg .created body
    simp only [Kind.key, Kind.formatter] at hk
    rw [hk] at h
    obtain ⟨ev, _, _, _, _, rfl⟩ := pullRequestCreated_some J body m h
    obtain ⟨call, hcall, hsplit⟩ := (mem_added (createdCalls ev) f).1 hf
    simp only [createdCalls, List.mem_append, List.mem_singleton] at hcall
    rcases hcall with (rfl | hcall) | hcall
    · by_cases hv :
          (if (ev.PullRequest.Reviewers.map fun reviewer => reviewer.DisplayName).length > 0
            then strings.Join
              (ev.PullRequest.Reviewers.map fun reviewer => reviewer.DisplayName) (lit ", ")
            else lit "none") = []
      · simp only [hv] at hsplit
        rw [split_short _ _ (by simp), List.mem_singleton] at hsplit
        subst hsplit
        exact absurd rfl hname
      · exact split_values _ _ hv f hsplit
    · obtain ⟨hc, rfl⟩ := mem_optional_field _ _ call hcall
      exact split_values _ _ hc f hsplit
    · obtain ⟨hc, rfl⟩ := mem_optional_field _ _ call hcall
      exact split_values _ _ (prDescription_value_ne_nil _) f hsplit

/-- C12 amended, at a pull request merged by `bob`: its two fields, `Reviewers`
and `Created by`, have the values `none` and `ann`; and at a pull request
opened with the description `Why`. -/
theorem field_values_not_empty_witness :
    (Handle (JSON.merged mergedByBob) {} (lit "pullrequest:fulfilled") payloadBody).2.1
        = some (mergedMessage mergedByBob)
      ∧ (mergedMessage mergedByBob).Fields
        = [⟨lit "Reviewers", lit "none"⟩, ⟨lit "Created by", lit "ann"⟩]
      ∧ (∀ f ∈ (mergedMessage mergedByBob).Fields, f.Value ≠ [])
      ∧ (Handle (JSON.created (createdWith (lit "Why"))) {} (lit "pullrequest:created")
          payloadBody).2.1 = some (createdMessage (createdWith (lit "Why")))
      ∧ (createdMessage (createdWith (lit "Why"))).Fields
        = [⟨lit "Reviewers", lit "none"⟩, ⟨lit "PR Description", lit "**Why**"⟩]
      ∧ (∀ f ∈ (createdMessage (createdWith (lit "Why"))).Fields,
          f.Name ≠ lit "Reviewers" → f.Value ≠ []) :=
  ⟨by decide, by decide,
    (field_values_not_empty (JSON.merged mergedByBob) {} payloadBody
      (mergedMessage mergedByBob)).1 .fulfilled (by decide) (by decide),
    by decide, by decide,
    (field_values_not_empty (JSON.created (createdWith (lit "Why"))) {} payloadBody
      (createdMessage (createdWith (lit "Why")))).2 (by decide)⟩


/-- C13, as stated, fails: a value of more than 1024 bytes is spread over
several fields, and the later ones carry a label of their own.  A push whose
first change has a resource type of 1025 bytes gives a message with four
fields, the last one labelled `Resource type (extended)`. -/
theorem long_value_adds_extended_label :
    ∃ m, (Handle (JSON.push pushOfLongType) {} (lit "repo:push") payloadBody).2.1 = some m
      ∧ (m.Fields.map fun field => field.Name)
        = [lit "Number of commits", lit "Resource name", lit "Resource type",
            lit "Resource type (extended)"]
      ∧ m.Fields
        = [⟨lit "Number of commits", lit "0"⟩, ⟨lit "Resource name", lit "main"⟩,
            ⟨lit "Resource type", List.replicate 1023 98 ++ lit "-"⟩,
            ⟨lit "Resource type (extended)", lit "bb"⟩] := by
  refine ⟨_, rfl, ?_, ?_⟩ <;> decide!

/-- C13, amended: the values have at most 1024 bytes.  For every kind and every
body for which a message is returned, when each value that the formatter hands
to the builder has at most 1024 bytes, the labels of the fields of the message
are, in this order and with no other label, labels of the fixed list of the
kind: exactly `Number of commits`, `Resource name`, `Resource type` for push; a
sublist of `Reviewers`, `Status`, `PR Description` for created and updated; of
`Reviewers`, `Created by`, `Status` for fulfilled; of `Created by`, `Status`
for rejected (and of the one label of the table for the other kinds).  Whatever
the lengths of the values, each label of the message is a label of that list,
followed at most twice by ` (extended)`. -/
theorem field_labels_in_fixed_order (J : JSON) (cfg : env.Config) (k : Kind)
    (body : List UInt8) (m : MessageEmbed) (h : (Handle J cfg k.key body).2.1 = some m) :
    ((∀ call ∈ k.calls J body, call.Value.length ≤ 1024) →
        (m.Fields.map fun field => field.Name).Sublist k.labels
          ∧ (k = .push → (m.Fields.map fun field => field.Name) = k.labels))
      ∧ (∀ f ∈ m.Fields, ∃ label ∈ k.labels,
          f.Name = label ∨ f.Name = label ++ lit " (extended)"
            ∨ f.Name = label ++ lit " (extended)" ++ lit " (extended)")
      ∧ Kind.push.labels
          = [lit "Number of commits", lit "Resource name", lit "Resource type"]
      ∧ Kind.created.labels = [lit "Reviewers", lit "Status", lit "PR Description"]
      ∧ Kind.updated.labels = [lit "Reviewers", lit "Status", lit "PR Description"]
      ∧ Kind.fulfilled.labels = [lit "Reviewers", lit "Created by", lit "Status"]
      ∧ Kind.rejected.labels = [lit "Created by", lit "Status"] := by
  rw [Handle_of_key] at h
  have hfields := formatter_fields J cfg k body m h
  refine ⟨?_, ?_, rfl, rfl, rfl, rfl, rfl⟩
  · intro hshort
    rw [hfields, added_short _ hshort]
    refine ⟨Kind.calls_labels J k body, ?_⟩
    rintro rfl
    obtain ⟨ev, _, hdec, _, _⟩ := handlePush_some J cfg body m h
    exact push_calls_labels J body ev hdec
  · intro f hf
    rw [hfields] at hf
    obtain ⟨call, hcall, hsplit⟩ := (mem_added _ f).1 hf
    exact ⟨call.Name,
      (Kind.calls_labels J k body).subset (List.mem_map_of_mem _ hcall),
      split_names _ _ f hsplit⟩

/-- C13 amended, at a pull request merged by `bob`, which has no state: the
labels are `Reviewers` and `Created by`. -/
theorem field_labels_in_fixed_order_witness :
    (Handle (JSON.merged mergedByBob) {} Kind.fulfilled.key payloadBody).2.1
        = some (mergedMessage mergedByBob)
      ∧ ((mergedMessage mergedByBob).Fields.map fun field => field.Name)
        = [lit "Reviewers", lit "Created by"]
      ∧ ((mergedMessage mergedByBob).Fields.map fun field => field.Name).Sublist
          Kind.fulfilled.labels :=
  ⟨by decide, by decide,
    ((field_labels_in_fixed_order (JSON.merged mergedByBob) {} .fulfilled payloadBody
      (mergedMessage mergedByBob) (by decide)).1 (by decide)).1⟩

/-! ## Descriptions -/

/-- The description of the messages of the pull-request kinds: the text made of
the two branch names, as the builder keeps it. -/
theorem formatter_description (J : JSON) (cfg : env.Config) (k : Kind) (body : List UInt8)
    (pr : PullRequest) (m : MessageEmbed) (hpr : k.pullRequest J body = some pr)
    (h : (k.formatter J cfg body).2.1 = some m) :
    m.Description
      = if pr.Source.Branch.Name ≠ [] ∧ pr.Destination.Branch.Name ≠ [] then
          embed.cutDescription
            (lit "`" ++ pr.Source.Branch.Name ++ lit "` > `" ++ pr.Destination.Branch.Name
              ++ lit "`")
        else [] := by
  cases k
  case push => simp [Kind.pullRequest] at hpr
  case commitStatus => simp [Kind.pullRequest] at hpr
  case created =>
    obtain ⟨ev, hdec, _, _, _, rfl⟩ := pullRequestCreated_some J body m h
    simp only [Kind.pullRequest, hdec, Except.toOption, Option.map_some', Option.some.injEq] at hpr
    subst hpr
    rfl
  case updated =>
    obtain ⟨ev, hdec, _, _, _, rfl⟩ := pullRequestUpdated_some J body m h
    simp only [Kind.pullRequest, hdec, Except.toOption, Option.map_some', Option.some.injEq] at hpr
    subst hpr
    rfl
  case approved =>
    obtain ⟨ev, hdec, _, _, _, rfl⟩ := pullRequestApproved_some J body m h
    simp only [Kind.pullRequest, hdec, Except.toOption, Option.map_some', Option.some.injEq] at hpr
    subst hpr
    rfl
  case unapproved =>
    obtain ⟨ev, hdec, _, _, _, rfl⟩ := pullRequestUnapproved_some J body m h
    simp only [Kind.pullRequest, hdec, Except.toOption, Option.map_some', Option.some.injEq] at hpr
    subst hpr
    rfl
  case fulfilled =>
    obtain ⟨ev, hdec, _, _, _, rfl⟩ := pullRequestFulfilled_some J body m h
    simp only [Kind.pullRequest, hdec, Except.toOption, Option.map_some', Option.some.injEq] at hpr
    subst hpr
    rfl
  case rejected =>
    obtain ⟨ev, hdec, _, _, _, rfl⟩ := pullRequestRejected_some J body m h
    simp only [Kind.pullRequest, hdec, Except.toOption, Option.map_some', Option.some.injEq] at hpr
    subst hpr
    rfl
  case commentCreated =>
    obtain ⟨ev, hdec, _, _, _, rfl⟩ := pullRequestCommentCreated_some J body m h
    simp only [Kind.pullRequest, hdec, Except.toOption, Option.map_some', Option.some.injEq] at hpr
    subst hpr
    rfl
  case commentUpdated =>
    obtain ⟨ev, hdec, _, _, _, rfl⟩ := pullRequestCommentUpdated_some J body m h
    simp only [Kind.pullRequest, hdec, Except.toOption, Option.map_some', Option.some.injEq] at hpr
    subst hpr
    rfl
  case commentDeleted =>
    obtain ⟨ev, hdec, _, _, _, rfl⟩ := pullRequestCommentDeleted_some J body m h
    simp only [Kind.pullRequest, hdec, Except.toOption, Option.map_some', Option.some.injEq] at hpr
    subst hpr
    rfl

/-- C14, as stated, fails for long branch names: the builder keeps the first
2048 bytes of a description.  For a pull request against `main` from a branch
whose name has 2100 bytes, the description is a backquote and the first 2047
bytes of that name; the destination branch is not in it. -/
theorem long_description_is_cut :
    ∃ m, (Handle (JSON.created createdFromLongBranch) {} (lit "pullrequest:created")
            payloadBody).2.1 = some m
      ∧ m.Description = lit "`" ++ List.replicate 2047 99
      ∧ m.Description
        ≠ lit "`" ++ List.replicate 2100 99 ++ lit "` > `" ++ lit "main" ++ lit "`" := by
  refine ⟨_, rfl, ?_, ?_⟩ <;> decide!

/-- C14, amended: the description is cut after 2048 bytes.  For each of the six
pull-request kinds and the three comment kinds, and every body for which a
message is returned: when both branch names of the pull request are non-empty,
the description of the message is the first 2048 bytes of the text made of the
source branch name and the destination branch name, each between backquotes
and with ` > ` in between, hence that text itself when it has at most 2048
bytes; and the description is empty when either name is empty. -/
theorem description_from_branches (J : JSON) (cfg : env.Config) (k : Kind)
    (body : List UInt8) (pr : PullRequest) (m : MessageEmbed)
    (hpr : k.pullRequest J body = some pr)
    (h : (Handle J cfg k.key body).2.1 = some m) :
    (pr.Source.Branch.Name ≠ [] → pr.Destination.Branch.Name ≠ [] →
        m.Description
            = (lit "`" ++ pr.Source.Branch.Name ++ lit "` > `" ++ pr.Destination.Branch.Name
                ++ lit "`").take 2048
          ∧ ((lit "`" ++ pr.Source.Branch.Name ++ lit "` > `" ++ pr.Destination.Branch.Name
                ++ lit "`").length ≤ 2048 →
            m.Description
              = lit "`" ++ pr.Source.Branch.Name ++ lit "` > `"
                  ++ pr.Destination.Branch.Name ++ lit "`"))
      ∧ (pr.Source.Branch.Name = [] ∨ pr.Destination.Branch.Name = [] →
        m.Description = []) := by
  rw [Handle_of_key] at h
  have hd := formatter_description J cfg k body pr m hpr h
  constructor
  · intro hs hdst
    rw [hd, if_pos ⟨hs, hdst⟩]
    exact ⟨cutDescription_eq_take _, fun hlen => cutDescription_short _ hlen⟩
  · intro hor
    rw [hd, if_neg]
    intro hboth
    rcases hor with hs | hdst
    · exact hboth.1 hs
    · exact hboth.2 hdst

/-- C14 amended, at a merged pull request from `dev` to `main`, and at a comment
on a pull request without branch names. -/
theorem description_from_branches_witness :
    (Handle (JSON.merged mergedByBob) {} Kind.fulfilled.key payloadBody).2.1
        = some (mergedMessage mergedByBob)
      ∧ (mergedMessage mergedByBob).Description = lit "`dev` > `main`"
      ∧ (commentCreatedMessage (commentWith [])).Description = [] :=
  ⟨by decide,
    ((description_from_branches (JSON.merged mergedByBob) {} .fulfilled payloadBody
      mergedByBob.PullRequest (mergedMessage mergedByBob) rfl (by decide)).1
      (by decide) (by decide)).2 (by decide),
    (description_from_branches (JSON.comment (commentWith [])) {} .commentCreated
      payloadBody (commentWith []).PullRequest (commentCreatedMessage (commentWith []))
      rfl (by decide)).2 (by decide)⟩

/-! ## Push, commit status, created and merged messages -/

/-- C15, as stated, fails for long values: a resource type of 1025 bytes is not
the value of the field `Resource type`, which holds its first 1023 bytes and a
hyphen; the message has a fourth field, `Resource type (extended)`, with the
two bytes that are left. -/
theorem long_resource_type_is_split :
    ∃ m, Handle (JSON.push pushOfLongType) {} (lit "repo:push") payloadBody
        = (lit "api", some m, none)
      ∧ fieldValues m (lit "Resource type") = [List.replicate 1023 98 ++ lit "-"]
      ∧ fieldValues m (lit "Resource type") ≠ [List.replicate 1025 98]
      ∧ fieldValues m (lit "Resource type (extended)") = [lit "bb"]
      ∧ m.Fields.length = 4 := by
  refine ⟨_, rfl, ?_, ?_, ?_, ?_⟩ <;> decide!

/-- C15, amended: the values have at most 1024 bytes.  For every decodable push
payload with the skip flag off: when the list of changes is empty the three
fields are `0`, `unknown` and `unknown`; when it is not, and the resource name
and the resource type of the first change have at most 1024 bytes each (the
number of commits being a Go `int`), they are the number of commits, the
resource name and the resource type of the first change; and two payloads with
the same actor, the same repository and the same first change give the same
result, whatever their further changes are. -/
theorem push_fields_from_first_change (J : JSON) (cfg : env.Config)
    (hskip : cfg.SkipRepoPushMessages = false) :
    (∀ body push, J.unmarshalRepoPushEvent body = .ok push → push.Push.Changes = [] →
        ∃ m, Handle J cfg (lit "repo:push") body = (push.Repository.Name, some m, none)
          ∧ m.Fields = [⟨lit "Number of commits", lit "0"⟩,
              ⟨lit "Resource name", lit "unknown"⟩, ⟨lit "Resource type", lit "unknown"⟩])
      ∧ (∀ body push change further, J.unmarshalRepoPushEvent body = .ok push →
        push.Push.Changes = change :: further →
        change.New.Name.length ≤ 1024 → change.New.Type_.length ≤ 1024 →
        change.Commits.length < 2 ^ 63 →
        ∃ m, Handle J cfg (lit "repo:push") body = (push.Repository.Name, some m, none)
          ∧ m.Fields = [⟨lit "Number of commits", fmt.Sprintf_d change.Commits.length⟩,
              ⟨lit "Resource name", change.New.Name⟩,
              ⟨lit "Resource type", change.New.Type_⟩])
      ∧ (∀ body₁ body₂ push₁ push₂ change further₁ further₂,
        J.unmarshalRepoPushEvent body₁ = .ok push₁ →
        J.unmarshalRepoPushEvent body₂ = .ok push₂ →
        push₁.Push.Changes = change :: further₁ → push₂.Push.Changes = change :: further₂ →
        push₁.Actor = push₂.Actor → push₁.Repository = push₂.Repository →
        Handle J cfg (lit "repo:push") body₁ = Handle J cfg (lit "repo:push") body₂) := by
  have hk : ∀ body, Handle J cfg (lit "repo:push") body = handlePush J cfg body :=
    fun body => Handle_of_key J cfg .push body
  refine ⟨?_, ?_, ?_⟩
  · intro body push hdec hnil
    rw [hk, handlePush_built J cfg body push hskip hdec]
    refine ⟨_, rfl, ?_⟩
    simp only [pushMessage, pushCalls, hnil]
    decide
  · intro body push change further hdec hcons hname htype hcommits
    rw [hk, handlePush_built J cfg body push hskip hdec]
    refine ⟨_, rfl, ?_⟩
    simp only [pushMessage, pushCalls, hcons]
    apply added_short
    intro call hcall
    simp only [List.mem_cons, List.mem_singleton, List.not_mem_nil, or_false] at hcall
    rcases hcall with rfl | rfl | rfl
    · exact length_Sprintf_d_le _ hcommits
    · exact hname
    · exact htype
  · intro body₁ body₂ push₁ push₂ change further₁ further₂ hdec₁ hdec₂ hc₁ hc₂ hactor hrepo
    rw [hk, hk, handlePush_built J cfg body₁ push₁ hskip hdec₁,
      handlePush_built J cfg body₂ push₂ hskip hdec₂]
    simp only [pushMessage, pushCalls, hc₁, hc₂, hactor, hrepo]

/-- C15 amended, at a push without changes, at a push of two commits on `main`,
and at that push followed by a further change. -/
theorem push_fields_from_first_change_witness :
    (∃ m, Handle (JSON.push {}) {} (lit "repo:push") payloadBody = ([], some m, none)
        ∧ m.Fields = [⟨lit "Number of commits", lit "0"⟩,
            ⟨lit "Resource name", lit "unknown"⟩, ⟨lit "Resource type", lit "unknown"⟩])
      ∧ (∃ m, Handle (JSON.push (pushWith [{}])) {} (lit "repo:push") payloadBody
          = (lit "api", some m, none)
        ∧ m.Fields = [⟨lit "Number of commits", lit "2"⟩,
            ⟨lit "Resource name", lit "main"⟩, ⟨lit "Resource type", lit "branch"⟩])
      ∧ Handle (JSON.pushes (pushWith []) (pushWith [{}])) {} (lit "repo:push") payloadBody
        = Handle (JSON.pushes (pushWith []) (pushWith [{}])) {} (lit "repo:push")
            otherPayloadBody :=
  ⟨(push_fields_from_first_change (JSON.push {}) {} rfl).1 payloadBody {} rfl rfl,
    (push_fields_from_first_change (JSON.push (pushWith [{}])) {} rfl).2.1 payloadBody
      (pushWith [{}]) _ _ rfl rfl (by decide) (by decide) (by decide),
    (push_fields_from_first_change (JSON.pushes (pushWith []) (pushWith [{}])) {} rfl).2.2
      payloadBody otherPayloadBody (pushWith []) (pushWith [{}]) _ [] [{}]
      (by decide) (by decide) rfl rfl rfl rfl⟩

/-- C16. For every decodable commit-status payload: with a non-empty status name
`Handle` returns the repository name and a message whose title is
`[<repository full name>]: <status name>`, whose color is `failure` when the
state is `FAILED`, `success` when it is `SUCCESSFUL` and `gray` for every other
state, and which has a field labelled `Status` if and only if the state is
non-empty; with an empty state it has no field at all, and with a state of at
most 1024 bytes that is not empty its fields are the one field `Status` with
the state.  With an empty status name `Handle` returns nothing. -/
theorem commit_status_message (J : JSON) (cfg : env.Config) (body : List UInt8)
    (event : RepoCommitStatusUpdatedEvent)
    (hdec : J.unmarshalRepoCommitStatusUpdatedEvent body = .ok event) :
    (event.CommitStatus.Name ≠ [] →
        ∃ m, Handle J cfg (lit "repo:commit_status_updated") body
            = (event.Repository.Name, some m, none)
          ∧ m.Title = lit "[" ++ event.Repository.FullName ++ lit "]: "
              ++ event.CommitStatus.Name
          ∧ (event.CommitStatus.State = lit "FAILED" → m.Color = failure)
          ∧ (event.CommitStatus.State = lit "SUCCESSFUL" → m.Color = success)
          ∧ (event.CommitStatus.State ≠ lit "FAILED" →
              event.CommitStatus.State ≠ lit "SUCCESSFUL" → m.Color = gray)
          ∧ ((∃ f ∈ m.Fields, f.Name = lit "Status") ↔ event.CommitStatus.State ≠ [])
          ∧ (event.CommitStatus.State = [] → m.Fields = [])
          ∧ (event.CommitStatus.State ≠ [] → event.CommitStatus.State.length ≤ 1024 →
              m.Fields = [⟨lit "Status", event.CommitStatus.State⟩]))
      ∧ (event.CommitStatus.Name = [] →
        Handle J cfg (lit "repo:commit_status_updated") body = ([], none, none)) := by
  have hk := Handle_of_key J cfg .commitStatus body
  simp only [Kind.key, Kind.formatter] at hk
  rw [hk]
  constructor
  · intro hname
    rw [commitStatusUpdated_built J body event hdec hname]
    have hfields : (commitStatusMessage event).Fields = added (commitStatusCalls event) := rfl
    refine ⟨_, rfl, rfl, ?_, ?_, ?_, ?_, ?_, ?_⟩
    · intro hs
      simp [commitStatusMessage, hs]
    · intro hs
      have hne : lit "SUCCESSFUL" ≠ lit "FAILED" := by decide
      simp [commitStatusMessage, hs, hne]
    · intro hf hs
      simp [commitStatusMessage, hf, hs]
    · rw [hfields, mem_added_name]
      · simp only [commitStatusCalls]
        split_ifs with hs
        · simpa using hs
        · simpa using hs
      · intro call hcall
        obtain ⟨_, rfl⟩ := mem_optional_field _ _ call hcall
        exact Or.inl rfl
    · intro hs
      rw [hfields]
      simp [commitStatusCalls, hs, added_nil]
    · intro hs hlen
      rw [hfields]
      simp only [commitStatusCalls, hs, ne_eq, not_false_eq_true, if_true]
      apply added_short
      intro call hcall
      rw [List.mem_singleton] at hcall
      subst hcall
      exact hlen
  · intro hname
    simp [commitStatusUpdated, hdec, hname]

/-- C16 at a failed build status in `team/api`, and at a status without a
name. -/
theorem commit_status_message_witness :
    (∃ m, Handle (JSON.commitStatus failedBuild) {} (lit "repo:commit_status_updated")
          payloadBody = (lit "api", some m, none)
        ∧ m.Title = lit "[team/api]: build" ∧ m.Color = 0xD10000
        ∧ (∃ f ∈ m.Fields, f.Name = lit "Status")
        ∧ m.Fields = [⟨lit "Status", lit "FAILED"⟩])
      ∧ Handle (JSON.commitStatus {}) {} (lit "repo:commit_status_updated") payloadBody
        = ([], none, none) :=
  have h := commit_status_message (JSON.commitStatus failedBuild) {} payloadBody failedBuild rfl
  ⟨by
      obtain ⟨m, hm, ht, hf, _, _, hiff, _, hs⟩ := h.1 (by decide)
      exact ⟨m, hm, ht, hf rfl, hiff.2 (by decide), hs (by decide) (by decide)⟩,
    (commit_status_message (JSON.commitStatus {}) {} payloadBody {} rfl).2 rfl⟩

/-- C17, as stated, fails twice over.  The full name in the title of a
pr-created message is the one of the source repository of the pull request, not
the one of the repository of the event whose name is the routing key: for a
pull request from the fork `fork/api` against `team/api` the title names
`fork/api`.  And joined names of more than 1024 bytes are not the value of the
`Reviewers` field: for one reviewer with a name of 1025 bytes the field holds
the first 1023 bytes and a hyphen, and a field `Reviewers (extended)` holds the
rest. -/
theorem created_title_names_source_repository :
    (createdFromFork.Repository = { Name := lit "api", FullName := lit "team/api" }
      ∧ ∃ m, Handle (JSON.created createdFromFork) {} (lit "pullrequest:created") payloadBody
            = (lit "api", some m, none)
          ∧ m.Title = lit "[fork/api]: Pull request opened: Fix"
          ∧ m.Title ≠ lit "[team/api]: Pull request opened: Fix")
    ∧ ∃ m, (Handle (JSON.created createdWithLongReviewer) {} (lit "pullrequest:created")
            payloadBody).2.1 = some m
      ∧ m.Fields
        = [⟨lit "Reviewers", List.replicate 1023 100 ++ lit "-"⟩,
           ⟨lit "Reviewers (extended)", lit "dd"⟩] := by
  refine ⟨⟨rfl, _, rfl, ?_, ?_⟩, ⟨_, rfl, ?_⟩⟩
  · decide
  · decide
  · decide!

/-- C17, amended: the title carries the full name of the source repository of
the pull request, and the joined names have at most 1024 bytes.  For every
decodable pr-created payload that passes the guard and whose reviewer names,
joined with `, `, have at most 1024 bytes, the message has exactly one field
`Reviewers`, whose value is `none` when the reviewer list is empty and
otherwise the display names of the reviewers joined with `, ` in input order;
its title is
`[<full name of the source repository>]: Pull request opened: <PR title>`; and
the routing key is the name of the repository of the event. -/
theorem created_reviewers_and_title (J : JSON) (cfg : env.Config) (body : List UInt8)
    (created : PullRequestCreatedEvent)
    (hdec : J.unmarshalPullRequestCreatedEvent body = .ok created)
    (hactor : created.Actor.DisplayName ≠ []) (htitle : created.PullRequest.Title ≠ [])
    (hlen : (strings.Join
        (created.PullRequest.Reviewers.map fun reviewer => reviewer.DisplayName)
        (lit ", ")).length ≤ 1024) :
    ∃ m, Handle J cfg (lit "pullrequest:created") body
        = (created.Repository.Name, some m, none)
      ∧ fieldValues m (lit "Reviewers")
        = [if created.PullRequest.Reviewers = [] then lit "none"
           else strings.Join
             (created.PullRequest.Reviewers.map fun reviewer => reviewer.DisplayName)
             (lit ", ")]
      ∧ m.Title = lit "[" ++ created.PullRequest.Source.Repository.FullName
          ++ lit "]: Pull request opened: " ++ created.PullRequest.Title := by
  have hk := Handle_of_key J cfg .created body
  simp only [Kind.key, Kind.formatter] at hk
  rw [hk, pullRequestCreated_built J body created hdec hactor htitle]
  have n1 : ¬ lit "Status" <+: lit "Reviewers" := by decide
  have n2 : ¬ lit "PR Description" <+: lit "Reviewers" := by decide
  have e1 : lit "Status" ≠ lit "Reviewers" := by decide
  have e2 : lit "PR Description" ≠ lit "Reviewers" := by decide
  refine ⟨_, rfl, ?_, ?_⟩
  · rw [fieldValues_added (createdMessage created) (createdCalls created) _ rfl]
    · simp only [createdCalls]
      cases hr : created.PullRequest.Reviewers <;>
        (split_ifs <;> simp_all [List.filter_cons])
    · intro call hcall
      simp only [createdCalls, List.mem_append, List.mem_singleton] at hcall
      rcases hcall with (rfl | hcall) | hcall
      · refine Or.inr ⟨rfl, ?_⟩
        split_ifs
        · exact hlen
        · decide
      · obtain ⟨_, rfl⟩ := mem_optional_field _ _ call hcall
        exact Or.inl n1
      · obtain ⟨_, rfl⟩ := mem_optional_field _ _ call hcall
        exact Or.inl n2
  · have hl : lit "]:" ++ lit " Pull request opened: " = lit "]: Pull request opened: " := by
      decide
    simp only [createdMessage, ← hl, List.append_assoc]

/-- C17 amended, at the pull request from the fork, with reviewers `Al` and
`Bo`. -/
theorem created_reviewers_and_title_witness :
    ∃ m, Handle (JSON.created createdFromFork) {} (lit "pullrequest:created") payloadBody
        = (lit "api", some m, none)
      ∧ fieldValues m (lit "Reviewers") = [lit "Al, Bo"]
      ∧ m.Title = lit "[fork/api]: Pull request opened: Fix" :=
  created_reviewers_and_title (JSON.created createdFromFork) {} payloadBody createdFromFork
    rfl (by decide) (by decide) (by decide)

/-- C18, as stated, fails for long names: an actor name of 1025 bytes is not
the value of the `Created by` field, which holds its first 1023 bytes and a
hyphen; a field `Created by (extended)` holds the two bytes that are left. -/
theorem long_creator_name_is_split :
    ∃ m, (Handle (JSON.merged mergedWithLongActor) {} (lit "pullrequest:fulfilled")
            payloadBody).2.1 = some m
      ∧ fieldValues m (lit "Created by") = [List.replicate 1023 101 ++ lit "-"]
      ∧ fieldValues m (lit "Created by") ≠ [mergedWithLongActor.Actor.DisplayName]
      ∧ m.Fields
        = [⟨lit "Reviewers", lit "none"⟩,
           ⟨lit "Created by", List.replicate 1023 101 ++ lit "-"⟩,
           ⟨lit "Created by (extended)", lit "ee"⟩] := by
  refine ⟨_, rfl, ?_, ?_, ?_⟩ <;> decide!

/-- C18, amended: the name in the `Created by` field has at most 1024 bytes.
For every decodable pr-merged payload whose `ClosedBy` display name and title
are non-empty, the author of the returned message has the display name of the
actor as name and the avatar link of `ClosedBy` as icon, the title is
`[<repository full name>]: Pull request merged: <PR title>`, and a field
`Created by` is present exactly when the display name of the actor is
non-empty; when that name has at most 1024 bytes, it is the value of the one
field `Created by`. -/
theorem merged_author_title_creator (J : JSON) (cfg : env.Config) (body : List UInt8)
    (merged : PullRequestMergedEvent)
    (hdec : J.unmarshalPullRequestMergedEvent body = .ok merged)
    (hclosed : merged.PullRequest.ClosedBy.DisplayName ≠ [])
    (htitle : merged.PullRequest.Title ≠ []) :
    ∃ m, Handle J cfg (lit "pullrequest:fulfilled") body
        = (merged.Repository.Name, some m, none)
      ∧ m.Author = some
          { Name := merged.Actor.DisplayName,
            IconURL := merged.PullRequest.ClosedBy.Links.Avatar.Href }
      ∧ m.Title = lit "[" ++ merged.Repository.FullName ++ lit "]: Pull request merged: "
          ++ merged.PullRequest.Title
      ∧ ((∃ f ∈ m.Fields, f.Name = lit "Created by") ↔ merged.Actor.DisplayName ≠ [])
      ∧ (merged.Actor.DisplayName ≠ [] → merged.Actor.DisplayName.length ≤ 1024 →
          fieldValues m (lit "Created by") = [merged.Actor.DisplayName])
      ∧ (merged.Actor.DisplayName = [] → fieldValues m (lit "Created by") = []) := by
  have hk := Handle_of_key J cfg .fulfilled body
  simp only [Kind.key, Kind.formatter] at hk
  rw [hk, pullRequestFulfilled_built J body merged hdec hclosed htitle]
  have n1 : ¬ lit "Reviewers" <+: lit "Created by" := by decide
  have n2 : ¬ lit "Status" <+: lit "Created by" := by decide
  have e1 : lit "Reviewers" ≠ lit "Created by" := by decide
  have e2 : lit "Status" ≠ lit "Created by" := by decide
  have hfields : (mergedMessage merged).Fields = added (mergedCalls merged) := rfl
  have hcalls : ∀ call ∈ mergedCalls merged,
      ¬ call.Name <+: lit "Created by"
        ∨ (call.Name = lit "Created by" ∧ call.Value = merged.Actor.DisplayName) := by
    intro call hcall
    simp only [mergedCalls, List.mem_append, List.mem_singleton] at hcall
    rcases hcall with (rfl | hcall) | hcall
    · exact Or.inl n1
    · obtain ⟨_, rfl⟩ := mem_optional_field _ _ call hcall
      exact Or.inr ⟨rfl, rfl⟩
    · obtain ⟨_, rfl⟩ := mem_optional_field _ _ call hcall
      exact Or.inl n2
  refine ⟨_, rfl, rfl, rfl, ?_, ?_, ?_⟩
  · rw [hfields, mem_added_name]
    · simp only [mergedCalls]
      split_ifs <;> simp_all
    · intro call hcall
      rcases hcalls call hcall with hn | ⟨hn, _⟩
      · exact Or.inr hn
      · exact Or.inl hn
  · intro ha hlen
    rw [fieldValues_added (mergedMessage merged) (mergedCalls merged) _ rfl]
    · simp only [mergedCalls]
      split_ifs <;> simp_all [List.filter_cons]
    · intro call hcall
      rcases hcalls call hcall with hn | ⟨hn, hv⟩
      · exact Or.inl hn
      · exact Or.inr ⟨hn, hv ▸ hlen⟩
  · intro ha
    rw [fieldValues_added (mergedMessage merged) (mergedCalls merged) _ rfl]
    · simp only [mergedCalls]
      split_ifs <;> simp_all [List.filter_cons]
    · intro call hcall
      rcases hcalls call hcall with hn | ⟨hn, hv⟩
      · exact Or.inl hn
      · exact Or.inr ⟨hn, by rw [hv, ha]; decide⟩

/-- C18 amended, at the pull request opened by `ann` and merged by `bob`. -/
theorem merged_author_title_creator_witness :
    ∃ m, Handle (JSON.merged mergedByBob) {} (lit "pullrequest:fulfilled") payloadBody
        = (lit "api", some m, none)
      ∧ m.Author = some { Name := lit "ann", IconURL := lit "bob.png" }
      ∧ m.Title = lit "[team/api]: Pull request merged: Fix"
      ∧ (∃ f ∈ m.Fields, f.Name = lit "Created by")
      ∧ fieldValues m (lit "Created by") = [lit "ann"] :=
  have h := merged_author_title_creator (JSON.merged mergedByBob) {} payloadBody mergedByBob
    rfl (by decide) (by decide)
  by
    obtain ⟨m, hm, ha, ht, hiff, hc, _⟩ := h
    exact ⟨m, hm, ha, ht, hiff.2 (by decide), hc (by decide) (by decide)⟩

/-! ## Bounds and sibling formatters -/

/-- C19. In every message returned for `pullrequest:created` or
`pullrequest:updated`, the value of a field `PR Description` is at most 206
bytes long, and in every message returned for `pullrequest:comment_created` the
value of a field `Comment` is at most 105 bytes long, whatever the length of
the description or of the comment in the payload. -/
theorem truncated_values_bounded (J : JSON) (cfg : env.Config) (body : List UInt8)
    (m : MessageEmbed) :
    ((Handle J cfg (lit "pullrequest:created") body).2.1 = some m →
        ∀ v ∈ fieldValues m (lit "PR Description"), v.length ≤ 206)
      ∧ ((Handle J cfg (lit "pullrequest:updated") body).2.1 = some m →
        ∀ v ∈ fieldValues m (lit "PR Description"), v.length ≤ 206)
      ∧ ((Handle J cfg (lit "pullrequest:comment_created") body).2.1 = some m →
        ∀ v ∈ fieldValues m (lit "Comment"), v.length ≤ 105) := by
  have n1 : ¬ lit "Reviewers" <+: lit "PR Description" := by decide
  have n2 : ¬ lit "Status" <+: lit "PR Description" := by decide
  refine ⟨?_, ?_, ?_⟩
  · intro h
    have hk := Handle_of_key J cfg .created body
    simp only [Kind.key, Kind.formatter] at hk
    rw [hk] at h
    obtain ⟨ev, _, _, _, _, rfl⟩ := pullRequestCreated_some J body m h
    refine fieldValues_bounded _ (createdCalls ev) _ 206 (by decide) rfl ?_
    intro call hcall
    simp only [createdCalls, List.mem_append, List.mem_singleton] at hcall
    rcases hcall with (rfl | hcall) | hcall
    · exact Or.inl n1
    · obtain ⟨_, rfl⟩ := mem_optional_field _ _ call hcall
      exact Or.inl n2
    · obtain ⟨_, rfl⟩ := mem_optional_field _ _ call hcall
      exact Or.inr (prDescription_value_length _)
  · intro h
    have hk := Handle_of_key J cfg .updated body
    simp only [Kind.key, Kind.formatter] at hk
    rw [hk] at h
    obtain ⟨ev, _, _, _, _, rfl⟩ := pullRequestUpdated_some J body m h
    refine fieldValues_bounded _ (updatedCalls ev) _ 206 (by decide) rfl ?_
    intro call hcall
    simp only [updatedCalls, List.mem_append, List.mem_singleton] at hcall
    rcases hcall with (rfl | hcall) | hcall
    · exact Or.inl n1
    · obtain ⟨_, rfl⟩ := mem_optional_field _ _ call hcall
      exact Or.inl n2
    · obtain ⟨_, rfl⟩ := mem_optional_field _ _ call hcall
      exact Or.inr (prDescription_value_length _)
  · intro h
    have hk := Handle_of_key J cfg .commentCreated body
    simp only [Kind.key, Kind.formatter] at hk
    rw [hk] at h
    obtain ⟨ev, _, _, _, _, rfl⟩ := pullRequestCommentCreated_some J body m h
    refine fieldValues_bounded _ (commentCreatedCalls ev) _ 105 (by decide) rfl ?_
    intro call hcall
    simp only [commentCreatedCalls, List.mem_singleton] at hcall
    subst hcall
    exact Or.inr (comment_value_length _)

/-- C19 at a description of 1000 bytes and at a comment of 1000 bytes: the
values have 206 and 103 bytes. -/
theorem truncated_values_bounded_witness :
    (fieldValues (createdMessage (createdWith (List.replicate 1000 97))) (lit "PR Description")
        ).map List.length = [206]
      ∧ (∀ v ∈ fieldValues (createdMessage (createdWith (List.replicate 1000 97)))
          (lit "PR Description"), v.length ≤ 206)
      ∧ (fieldValues (commentCreatedMessage (commentWith (List.replicate 1000 97)))
          (lit "Comment")).map List.length = [103]
      ∧ (∀ v ∈ fieldValues (commentCreatedMessage (commentWith (List.replicate 1000 97)))
          (lit "Comment"), v.length ≤ 105) :=
  ⟨by decide,
    (truncated_values_bounded (JSON.created (createdWith (List.replicate 1000 97))) {}
      payloadBody (createdMessage (createdWith (List.replicate 1000 97)))).1 (by decide),
    by decide,
    (truncated_values_bounded (JSON.comment (commentWith (List.replicate 1000 97))) {}
      payloadBody (commentCreatedMessage (commentWith (List.replicate 1000 97)))).2.2
      (by decide)⟩


/-- The functions `pullRequestApproved` and `pullRequestUnapproved` agree up to
the verb of the title and the color. -/
theorem approved_unapproved_agree (J : JSON) (body : List UInt8) :
    (pullRequestApproved J body).1 = (pullRequestUnapproved J body).1
      ∧ (pullRequestApproved J body).2.2 = (pullRequestUnapproved J body).2.2
      ∧ ((pullRequestApproved J body).2.1 = none ↔ (pullRequestUnapproved J body).2.1 = none)
      ∧ (∀ m₁ m₂, (pullRequestApproved J body).2.1 = some m₁ → (pullRequestUnapproved J body).2.1 = some m₂ →
          m₁.Author = m₂.Author ∧ m₁.Description = m₂.Description ∧ m₁.URL = m₂.URL
            ∧ m₁.Fields = m₂.Fields
            ∧ m₁.Color = success ∧ m₂.Color = failure
            ∧ ∃ front title, m₁.Title = front ++ lit " Pull request approved: " ++ title
                ∧ m₂.Title = front ++ lit " Pull request unapproved: " ++ title) := by
  cases hdec : J.unmarshalPullRequestApprovedEvent body with
  | error err => simp [pullRequestApproved, pullRequestUnapproved, hdec]
  | ok ev =>
    by_cases hg : ev.Actor.DisplayName = [] ∨ ev.PullRequest.Title = []
    · simp [pullRequestApproved, pullRequestUnapproved, hdec, hg]
    · have hg2 := not_or.mp hg
      rw [pullRequestApproved_built J body ev hdec hg2.1 hg2.2,
        pullRequestUnapproved_built J body ev hdec hg2.1 hg2.2]
      refine ⟨rfl, rfl, by simp, ?_⟩
      intro m₁ m₂ h₁ h₂
      have e₁ : approvedMessage ev = m₁ := by simpa using h₁
      have e₂ : unapprovedMessage ev = m₂ := by simpa using h₂
      subst e₁ e₂
      exact ⟨rfl, rfl, rfl, rfl, rfl, rfl, _, _, rfl, rfl⟩


/-- The functions `pullRequestCommentUpdated` and `pullRequestCommentDeleted`
agree up to the verb of the title and the color. -/
theorem commentUpdated_commentDeleted_agree (J : JSON) (body : List UInt8) :
    (pullRequestCommentUpdated J body).1 = (pullRequestCommentDeleted J body).1
      ∧ (pullRequestCommentUpdated J body).2.2 = (pullRequestCommentDeleted J body).2.2
      ∧ ((pullRequestCommentUpdated J body).2.1 = none ↔ (pullRequestCommentDeleted J body).2.1 = none)
      ∧ (∀ m₁ m₂, (pullRequestCommentUpdated J body).2.1 = some m₁ → (pullRequestCommentDeleted J body).2.1 = some m₂ →
          m₁.Author = m₂.Author ∧ m₁.Description = m₂.Description ∧ m₁.URL = m₂.URL
            ∧ m₁.Fields = m₂.Fields
            ∧ m₁.Color = prUpdated ∧ m₂.Color = failure
            ∧ ∃ front title, m₁.Title = front ++ lit " Comment updated on pull request: " ++ title
                ∧ m₂.Title = front ++ lit " Comment deleted on pull request: " ++ title) := by
  cases hdec : J.unmarshalPullRequestCommentCreatedEvent body with
  | error err => simp [pullRequestCommentUpdated, pullRequestCommentDeleted, hdec]
  | ok ev =>
    by_cases hg : ev.Comment.User.DisplayName = [] ∨ ev.PullRequest.Title = []
    · simp [pullRequestCommentUpdated, pullRequestCommentDeleted, hdec, hg]
    · have hg2 := not_or.mp hg
      rw [pullRequestCommentUpdated_built J body ev hdec hg2.1 hg2.2,
        pullRequestCommentDeleted_built J body ev hdec hg2.1 hg2.2]
      refine ⟨rfl, rfl, by simp, ?_⟩
      intro m₁ m₂ h₁ h₂
      have e₁ : commentUpdatedMessage ev = m₁ := by simpa using h₁
      have e₂ : commentDeletedMessage ev = m₂ := by simpa using h₂
      subst e₁ e₂
      exact ⟨rfl, rfl, rfl, rfl, rfl, rfl, _, _, rfl, rfl⟩


/-- C20. For every body, `pullRequestApproved` and `pullRequestUnapproved` return
the same routing key and the same error, return no message on exactly the same
bodies, and when they return messages these have the same author, description,
URL and fields; the colors are `success` and `failure`, and the titles differ
in the verb only (`approved`, `unapproved`).  The same holds of
`pullRequestCommentUpdated` and `pullRequestCommentDeleted`, with the colors
`prUpdated` and `failure` and the verbs `updated` and `deleted`. -/
theorem sibling_formatters_agree (J : JSON) (body : List UInt8) :
    ((pullRequestApproved J body).1 = (pullRequestUnapproved J body).1
      ∧ (pullRequestApproved J body).2.2 = (pullRequestUnapproved J body).2.2
      ∧ ((pullRequestApproved J body).2.1 = none ↔ (pullRequestUnapproved J body).2.1 = none)
      ∧ (∀ m₁ m₂, (pullRequestApproved J body).2.1 = some m₁ → (pullRequestUnapproved J body).2.1 = some m₂ →
          m₁.Author = m₂.Author ∧ m₁.Description = m₂.Description ∧ m₁.URL = m₂.URL
            ∧ m₁.Fields = m₂.Fields
            ∧ m₁.Color = success ∧ m₂.Color = failure
            ∧ ∃ front title, m₁.Title = front ++ lit " Pull request approved: " ++ title
                ∧ m₂.Title = front ++ lit " Pull request unapproved: " ++ title))
    ∧ ((pullRequestCommentUpdated J body).1 = (pullRequestCommentDeleted J body).1
      ∧ (pullRequestCommentUpdated J body).2.2 = (pullRequestCommentDeleted J body).2.2
      ∧ ((pullRequestCommentUpdated J body).2.1 = none ↔ (pullRequestCommentDeleted J body).2.1 = none)
      ∧ (∀ m₁ m₂, (pullRequestCommentUpdated J body).2.1 = some m₁ → (pullRequestCommentDeleted J body).2.1 = some m₂ →
          m₁.Author = m₂.Author ∧ m₁.Description = m₂.Description ∧ m₁.URL = m₂.URL
            ∧ m₁.Fields = m₂.Fields
            ∧ m₁.Color = prUpdated ∧ m₂.Color = failure
            ∧ ∃ front title, m₁.Title = front ++ lit " Comment updated on pull request: " ++ title
                ∧ m₂.Title = front ++ lit " Comment deleted on pull request: " ++ title)) :=
  ⟨approved_unapproved_agree J body, commentUpdated_commentDeleted_agree J body⟩


/-- C20 at the approval by `ann`: both formatters return a message for the
repository `api`, with the same fields. -/
theorem sibling_formatters_agree_witness :
    (pullRequestApproved (JSON.approved approvedByAnn) payloadBody).2.1
        = some (approvedMessage approvedByAnn)
      ∧ (pullRequestUnapproved (JSON.approved approvedByAnn) payloadBody).2.1
        = some (unapprovedMessage approvedByAnn)
      ∧ (approvedMessage approvedByAnn).Fields = (unapprovedMessage approvedByAnn).Fields
      ∧ (approvedMessage approvedByAnn).Fields = [⟨lit "Created by", lit "cy"⟩] :=
  ⟨by decide, by decide,
    ((sibling_formatters_agree (JSON.approved approvedByAnn) payloadBody).1.2.2.2
      (approvedMessage approvedByAnn) (unapprovedMessage approvedByAnn)
      (by decide) (by decide)).2.2.2.1,
    by decide⟩

end bitbucket
